import Mathlib

/-!
# goki/colors: gradient descriptor parsing and stop normalization

A shallow embedding of `colorparse.go`.  Offsets, opacities and coordinates
(`float32` in the source) are exact rationals; strings are lists of
characters; the slice `grad.Stops` is a list that the loops thread through
explicitly.
-/

set_option autoImplicit false

namespace Colors

/-! ## Data model -/

/-- The type `color.RGBA` of the standard library: four 8-bit channels; the
zero value is the unset sentinel. -/
structure RGBA where
  R : Nat
  G : Nat
  B : Nat
  A : Nat
deriving DecidableEq

/-- Modelled from the spec: the solid black fallback colour `Black`. -/
def Black : RGBA := ⟨0, 0, 0, 255⟩

/-- Modelled from the spec: `GradientStop`, a (colour, offset, opacity) triple.
The fields are the ones `colorparse.go` reads and writes. -/
structure GradientStop where
  Color : RGBA
  Offset : ℚ
  Opacity : ℚ
deriving DecidableEq

/-- The type `mat32.Vec2` of the library `goki.dev/mat32`. -/
structure Vec2 where
  X : ℚ
  Y : ℚ
deriving DecidableEq

/-- The type `mat32.Box2` of the library `goki.dev/mat32`, with its `Min` and
`Max` corners. -/
structure Box2 where
  Min : Vec2
  Max : Vec2
deriving DecidableEq

/-- The type `mat32.Mat2` of the library `goki.dev/mat32`, a 2D affine matrix. -/
structure Mat2 where
  XX : ℚ
  YX : ℚ
  XY : ℚ
  YY : ℚ
  X0 : ℚ
  Y0 : ℚ
deriving DecidableEq

/-- Modelled from the spec: the spread method enum (default Pad). -/
inductive SpreadMethods where
  | PadSpread
  | ReflectSpread
  | RepeatSpread
deriving DecidableEq

/-- Modelled from the spec: the units enum. -/
inductive GradientUnits where
  | ObjectBoundingBox
  | UserSpaceOnUse
deriving DecidableEq

/-- Modelled from the spec: `Gradient`, with the fields that `colorparse.go`
reads and writes (`Radial`, `Bounds`, `Center`, `Focal`, `Radius`, `Stops`,
`Spread`, `Units`, `Matrix`). -/
structure Gradient where
  Radial : Bool
  Bounds : Box2
  Center : Vec2
  Focal : Vec2
  Radius : ℚ
  Stops : List GradientStop
  Spread : SpreadMethods
  Units : GradientUnits
  Matrix : Mat2
deriving DecidableEq

/-! ## `FixGradientStops` -/

/-- The read `grad.Stops[i].Offset`; every index the loop uses is in range. -/
def offsetAt (stops : List GradientStop) (i : Nat) : ℚ :=
  match stops[i]? with
  | some s => s.Offset
  | none => 0

/-- The write `grad.Stops[i].Offset = v`. -/
def setOffset (stops : List GradientStop) (i : Nat) (v : ℚ) : List GradientStop :=
  match stops[i]? with
  | some s => stops.set i ⟨s.Color, v, s.Opacity⟩
  | none => stops

/-- The inner loop `for j := splitSt; j < i; j++ { Stops[j].Offset = cur; cur += per }`,
with `n` the number of iterations left. -/
def distribute (per : ℚ) : Nat → Nat → ℚ → List GradientStop → List GradientStop
  | 0, _, _, stops => stops
  | n + 1, j, cur, stops => distribute per n (j + 1) (cur + per) (setOffset stops j cur)

/-- The loop variables of `FixGradientStops`. -/
structure FixState where
  stops : List GradientStop
  splitSt : Int
  last : ℚ

/-- One iteration of the outer loop of `FixGradientStops`, at index `i`. -/
def fixStep (sz : Nat) (st : FixState) (i : Nat) : FixState :=
  let stops1 :=
    if i = sz - 1 ∧ offsetAt st.stops i = 0 then
      setOffset st.stops i (if st.last < 1 then 1 else st.last)
    else st.stops
  if 0 < i ∧ offsetAt stops1 i = 0 ∧ st.splitSt < 0 then
    ⟨setOffset stops1 i st.last, (i : Int), st.last⟩
  else
    let stops2 :=
      if 0 < st.splitSt then
        let start := offsetAt stops1 st.splitSt.toNat
        let per := (offsetAt stops1 i - start) / (((1 + ((i : Int) - st.splitSt) : Int)) : ℚ)
        distribute per (i - st.splitSt.toNat) st.splitSt.toNat (start + per) stops1
      else stops1
    ⟨stops2, st.splitSt, offsetAt stops2 i⟩

/-- The state after the first `n` iterations of the outer loop. -/
def fixLoop (sz : Nat) (stops : List GradientStop) (n : Nat) : FixState :=
  (List.range n).foldl (fixStep sz) ⟨stops, -1, 0⟩

/-- The body of `FixGradientStops` on the slice `grad.Stops`. -/
def fixStops (stops : List GradientStop) : List GradientStop :=
  if stops.length = 0 then stops
  else (fixLoop stops.length stops stops.length).stops

/-- `FixGradientStops(grad)`: regularizes the stop offsets in place. -/
def FixGradientStops (grad : Gradient) : Gradient :=
  ⟨grad.Radial, grad.Bounds, grad.Center, grad.Focal, grad.Radius,
    fixStops grad.Stops, grad.Spread, grad.Units, grad.Matrix⟩

/-! ## `FixGradientStops` with rounded arithmetic

The source computes the offsets in `float32`: every arithmetic result is the
exact result rounded to a number the type can hold. The loop below is the loop
above with a rounding function `rnd` applied to the result of every
subtraction, division and addition; `rnd = id` is exact arithmetic. The
comparisons and the conversion of the small integer `1 + (i - splitSt)` are
exact in both. -/

/-- The inner loop of `FixGradientStops`, with `cur += per` rounded. -/
def distributeR (rnd : ℚ → ℚ) (per : ℚ) :
    Nat → Nat → ℚ → List GradientStop → List GradientStop
  | 0, _, _, stops => stops
  | n + 1, j, cur, stops =>
    distributeR rnd per n (j + 1) (rnd (cur + per)) (setOffset stops j cur)

/-- One iteration of the outer loop of `FixGradientStops`, at index `i`, with
rounded arithmetic. -/
def fixStepR (rnd : ℚ → ℚ) (sz : Nat) (st : FixState) (i : Nat) : FixState :=
  let stops1 :=
    if i = sz - 1 ∧ offsetAt st.stops i = 0 then
      setOffset st.stops i (if st.last < 1 then 1 else st.last)
    else st.stops
  if 0 < i ∧ offsetAt stops1 i = 0 ∧ st.splitSt < 0 then
    ⟨setOffset stops1 i st.last, (i : Int), st.last⟩
  else
    let stops2 :=
      if 0 < st.splitSt then
        let start := offsetAt stops1 st.splitSt.toNat
        let per := rnd (rnd (offsetAt stops1 i - start)
          / (((1 + ((i : Int) - st.splitSt) : Int)) : ℚ))
        distributeR rnd per (i - st.splitSt.toNat) st.splitSt.toNat (rnd (start + per)) stops1
      else stops1
    ⟨stops2, st.splitSt, offsetAt stops2 i⟩

/-- The state after the first `n` iterations of the outer loop, with rounded
arithmetic. -/
def fixLoopR (rnd : ℚ → ℚ) (sz : Nat) (stops : List GradientStop) (n : Nat) : FixState :=
  (List.range n).foldl (fixStepR rnd sz) ⟨stops, -1, 0⟩

/-- The body of `FixGradientStops` on the slice `grad.Stops`, with rounded
arithmetic. -/
def fixStopsR (rnd : ℚ → ℚ) (stops : List GradientStop) : List GradientStop :=
  if stops.length = 0 then stops
  else (fixLoopR rnd stops.length stops stops.length).stops

/-- `FixGradientStops(grad)` with rounded arithmetic. -/
def FixGradientStopsR (rnd : ℚ → ℚ) (grad : Gradient) : Gradient :=
  ⟨grad.Radial, grad.Bounds, grad.Center, grad.Focal, grad.Radius,
    fixStopsR rnd grad.Stops, grad.Spread, grad.Units, grad.Matrix⟩

/-- Rounding to the nearest integer, halves upwards: the rounding of a number
format whose values are the multiples of one unit, in that unit. -/
def roundUnit (q : ℚ) : ℚ := ((⌊q + 1 / 2⌋ : Int) : ℚ)

/-- No offset that the loop reads as unspecified: no stop at offset 0, the
first stop of a list of two or more stops apart. -/
def zeroFree (stops : List GradientStop) : Prop :=
  ∀ i, i < stops.length → (0 < i ∨ stops.length = 1) → offsetAt stops i ≠ 0

/-- A stop with the given offset (black, opacity 1), for concrete stop lists. -/
def stopAt (q : ℚ) : GradientStop := ⟨Black, q, 1⟩

/-- A linear gradient holding the given stops, for concrete inputs. -/
def gradOf (stops : List GradientStop) : Gradient :=
  ⟨false, ⟨⟨0, 0⟩, ⟨1, 0⟩⟩, ⟨0, 0⟩, ⟨0, 0⟩, 0, stops,
    SpreadMethods.PadSpread, GradientUnits.ObjectBoundingBox, ⟨1, 0, 0, 1, 0, 0⟩⟩

/-- The offsets of a gradient's stops, in index order. -/
def offsets (grad : Gradient) : List ℚ := grad.Stops.map (fun s => s.Offset)

/-- The colour and opacity of every stop, in index order: the part of the
slice that `FixGradientStops` never writes. -/
def frameOf (stops : List GradientStop) : List (RGBA × ℚ) :=
  stops.map (fun s => (s.Color, s.Opacity))

/-! ## Strings

Go strings are modelled as lists of characters; the functions of package
`strings` that `colorparse.go` calls are modelled below. -/

/-- Go strings, as lists of characters. -/
abbrev Str := List Char

/-- The white space of `unicode.IsSpace`, which `strings.TrimSpace` removes. -/
def isSpace (c : Char) : Bool :=
  c.toNat = 0x20 || (0x09 ≤ c.toNat && c.toNat ≤ 0x0D) || c.toNat = 0x85 || c.toNat = 0xA0 ||
  c.toNat = 0x1680 || (0x2000 ≤ c.toNat && c.toNat ≤ 0x200A) || c.toNat = 0x2028 ||
  c.toNat = 0x2029 || c.toNat = 0x202F || c.toNat = 0x205F || c.toNat = 0x3000

/-- `strings.TrimSpace`. -/
def TrimSpace (s : Str) : Str :=
  ((s.dropWhile isSpace).reverse.dropWhile isSpace).reverse

/-- `strings.TrimRight(s, cutset)`. -/
def TrimRight (s cutset : Str) : Str :=
  (s.reverse.dropWhile (fun c => cutset.contains c)).reverse

/-- `strings.HasPrefix(s, p)`. -/
def HasPrefix (s p : Str) : Bool := p.isPrefixOf s

/-- `strings.HasSuffix(s, p)`. -/
def HasSuffix (s p : Str) : Bool := p.reverse.isPrefixOf s.reverse

/-- `strings.TrimPrefix(s, p)`. -/
def TrimPrefix (s p : Str) : Str := if HasPrefix s p then s.drop p.length else s

/-- `strings.TrimSuffix(s, p)`. -/
def TrimSuffix (s p : Str) : Str :=
  if HasSuffix s p then s.take (s.length - p.length) else s

/-- `strings.ToLower` on ASCII text: the letters `A` to `Z` are mapped to lower
case and every other character is kept. The source function maps the upper-case
letters outside ASCII as well, so the two agree on ASCII strings only. -/
def ToLower (s : Str) : Str := s.map Char.toLower

/-- The search of `strings.Index`, with `k` the number of characters already passed. -/
def indexFrom (sub : Str) : Str → Nat → Int
  | [], k => if sub.isPrefixOf [] then (k : Int) else -1
  | c :: cs, k => if sub.isPrefixOf (c :: cs) then (k : Int) else indexFrom sub cs (k + 1)

/-- `strings.Index(s, sub)`: the index of the first instance of `sub`, or -1. -/
def Index (s sub : Str) : Int := indexFrom sub s 0

/-- `strings.IndexByte(s, c)`. -/
def IndexByte (s : Str) (c : Char) : Int := indexFrom [c] s 0

/-- `strings.Contains(s, sub)`. -/
def Contains (s sub : Str) : Bool := decide (0 ≤ Index s sub)

/-- The scan of `strings.Split` for a non-empty separator: `cur` is the piece
being collected (reversed) and `skip` the number of characters of a matched
separator still to pass over. -/
def splitGo (sep : Str) : Str → Str → Nat → List Str
  | [], cur, _ => [cur.reverse]
  | _ :: cs, cur, k + 1 => splitGo sep cs cur k
  | c :: cs, cur, 0 =>
    if sep.isPrefixOf (c :: cs) then cur.reverse :: splitGo sep cs [] (sep.length - 1)
    else splitGo sep cs (c :: cur) 0

/-- `strings.Split(s, sep)` for a non-empty separator (the only use in the source). -/
def Split (s sep : Str) : List Str := splitGo sep s [] 0

/-! ## External collaborators -/

/-- The functions and constructors of the library that `colorparse.go` calls but
does not define: the colour resolver `FromString` (with the previous colour as
base, `none` for a nil base; the result is `none` on error), its logging variant
`LogFromString`, `AsHex`, `strconv.ParseFloat` (value and whether an error was
returned), `laser.ToFloat` (its error is ignored by the caller), and the
constructors `LinearGradient()` and `RadialGradient()`. -/
structure Env where
  FromString : Str → Option RGBA → Option RGBA
  LogFromString : Str → Option RGBA → RGBA
  AsHex : RGBA → Str
  ParseFloat : Str → ℚ × Bool
  ToFloat : Str → ℚ
  LinearGradient : Gradient
  RadialGradient : Gradient

/-- Modelled from the spec: `IsNil`, true of the zero (unset) colour. -/
def IsNil (c : RGBA) : Bool := decide (c = ⟨0, 0, 0, 0⟩)

/-- Modelled from the spec: `AsRGBA` on a value that is an `RGBA` already. -/
def AsRGBA (c : RGBA) : RGBA := c

/-- Modelled from the spec: `Full`, a solid colour and an optional gradient
(`none` is the nil pointer). -/
structure Full where
  Solid : RGBA
  Gradient : Option Gradient
deriving DecidableEq

/-- `FullCache`, the map from descriptor keys to parsed values. -/
abbrev Cache := List (Str × Full)

/-- The map read `FullCache[key]`. -/
def cacheGet : Cache → Str → Option Full
  | [], _ => none
  | (k, v) :: rest, key => if k = key then some v else cacheGet rest key

/-- `Context`: its method `FullByURL`, or `none` for a nil context. -/
abbrev Context := Option (Str → Option Full)

/-! ## `readFraction` and `parseColorStop` -/

/-- `readFraction(v)`: the value and whether an error is returned. -/
def readFraction (env : Env) (v : Str) : ℚ × Bool :=
  let v1 := TrimSpace v
  let d : ℚ := if HasSuffix v1 "%".toList then 100 else 1
  let v2 := if HasSuffix v1 "%".toList then TrimSuffix v1 "%".toList else v1
  let r := env.ParseFloat v2
  let f := r.1 / d
  (if f < 0 then 0 else f, r.2)

/-- `parseColorStop(stop, prevColor, par)`: the stop as the call leaves it and
the returned flag. -/
def parseColorStop (env : Env) (stop : GradientStop) (prevColor : RGBA) (par : Str) :
    GradientStop × Bool :=
  let spcidx := Index par " ".toList
  let cnm := if 0 < spcidx then par.take spcidx.toNat else par
  let r := if 0 < spcidx then readFraction env (TrimSpace (par.drop (spcidx.toNat + 1)))
    else (stop.Offset, false)
  if r.2 then (stop, false)
  else
    let stop1 : GradientStop := ⟨stop.Color, r.1, stop.Opacity⟩
    if IsNil prevColor && HasPrefix cnm "clearer-".toList then
      (⟨prevColor, stop1.Offset, (100 - env.ToFloat (TrimPrefix cnm "clearer-".toList)) / 100⟩, true)
    else if IsNil prevColor && cnm == "transparent".toList then
      (⟨prevColor, stop1.Offset, 0⟩, true)
    else
      match env.FromString cnm (some prevColor) with
      | none => (stop1, false)
      | some clr => (⟨clr, stop1.Offset, stop1.Opacity⟩, true)

/-! ## `parseLinearGrad` and `parseRadialGrad` -/

/-- `GradientDegToSides`, the table from degree notation to side notation. -/
def GradientDegToSides : List (String × String) :=
  [("0deg", "top"), ("360deg", "top"),
   ("45deg", "top right"), ("-315deg", "top right"),
   ("90deg", "right"), ("-270deg", "right"),
   ("135deg", "bottom right"), ("-225deg", "bottom right"),
   ("180deg", "bottom"), ("-180deg", "bottom"),
   ("225deg", "bottom left"), ("-135deg", "bottom left"),
   ("270deg", "left"), ("-90deg", "left"),
   ("315deg", "top left"), ("-45deg", "top left")]

/-- The map read `par, ok = GradientDegToSides[par]`. -/
def degLookup : List (String × String) → Str → Option Str
  | [], _ => none
  | (k, v) :: rest, par => if k.toList = par then some v.toList else degLookup rest par

/-- The `switch side` of `parseLinearGrad`. -/
def linearSide (b : Box2) (side : Str) : Box2 :=
  if side = "bottom".toList then ⟨⟨b.Min.X, 0⟩, ⟨b.Max.X, 1⟩⟩
  else if side = "top".toList then ⟨⟨b.Min.X, 1⟩, ⟨b.Max.X, 0⟩⟩
  else if side = "right".toList then ⟨⟨0, b.Min.Y⟩, ⟨1, b.Max.Y⟩⟩
  else if side = "left".toList then ⟨⟨1, b.Min.Y⟩, ⟨0, b.Max.Y⟩⟩
  else b

/-- The `switch side` of `parseRadialGrad`. -/
def radialSide (b : Box2) (side : Str) : Box2 :=
  if side = "bottom".toList then ⟨⟨b.Min.X, 0⟩, b.Max⟩
  else if side = "top".toList then ⟨⟨b.Min.X, 1⟩, b.Max⟩
  else if side = "right".toList then ⟨⟨0, b.Min.Y⟩, b.Max⟩
  else if side = "left".toList then ⟨⟨1, b.Min.Y⟩, b.Max⟩
  else b

/-- The variables of the segment loops: the receiver's solid colour and
gradient, `prevColor` and `stopIdx`. -/
structure ParseState where
  Solid : RGBA
  grad : Gradient
  prevColor : RGBA
  stopIdx : Nat
deriving DecidableEq

/-- The gradient with its stops replaced. -/
def withStops (g : Gradient) (stops : List GradientStop) : Gradient :=
  ⟨g.Radial, g.Bounds, g.Center, g.Focal, g.Radius, stops, g.Spread, g.Units, g.Matrix⟩

/-- The gradient with its bounds replaced. -/
def withBounds (g : Gradient) (b : Box2) : Gradient :=
  ⟨g.Radial, b, g.Center, g.Focal, g.Radius, g.Stops, g.Spread, g.Units, g.Matrix⟩

/-- The `default` case of both segment loops: a colour stop. -/
def colorStopSeg (env : Env) (st : ParseState) (par : Str) : ParseState :=
  let stop : GradientStop :=
    match st.grad.Stops[st.stopIdx]? with
    | some s => s
    | none => ⟨Black, 0, 1⟩
  let prev := if st.stopIdx = 0 then st.Solid else st.prevColor
  let r := parseColorStop env stop prev par
  let stops1 :=
    if st.stopIdx < st.grad.Stops.length then st.grad.Stops.set st.stopIdx r.1
    else st.grad.Stops
  if r.2 then
    let stops2 := if stops1.length ≤ st.stopIdx then stops1 ++ [r.1] else stops1
    ⟨if st.stopIdx = 0 then AsRGBA r.1.Color else st.Solid, withStops st.grad stops2,
      r.1.Color, st.stopIdx + 1⟩
  else
    ⟨st.Solid, withStops st.grad stops1, prev, st.stopIdx⟩

/-- The side specification case of `parseLinearGrad`, on `par = "to ..."`. -/
def linearSidesSeg (st : ParseState) (par : Str) : ParseState :=
  ⟨st.Solid,
    withBounds st.grad ((Split (par.drop 3) " ".toList).foldl linearSide ⟨⟨0, 0⟩, ⟨0, 0⟩⟩),
    st.prevColor, st.stopIdx⟩

/-- One iteration of the loop of `parseLinearGrad` on the piece `raw` of the
argument list; `none` is `break outer`. -/
def linearSeg (env : Env) (st : ParseState) (raw : Str) : Option ParseState :=
  let par := TrimRight (TrimSpace raw) ",".toList
  if Contains par "deg".toList then
    linearSidesSeg st ("to ".toList ++ (match degLookup GradientDegToSides par with
      | some v => v
      | none => []))
  else if HasPrefix par "to ".toList then
    linearSidesSeg st par
  else if HasPrefix par ")".toList then none
  else some (colorStopSeg env st par)

/-- The loop `for pidx := 0; pidx < len(plist); pidx++` of `parseLinearGrad`. -/
def linearLoop (env : Env) : List Str → ParseState → ParseState
  | [], st => st
  | raw :: rest, st =>
    match linearSeg env st raw with
    | none => st
    | some st1 => linearLoop env rest st1

/-- The truncation `Stops = Stops[:stopIdx]` after both segment loops. -/
def truncStops (st : ParseState) : ParseState :=
  if st.stopIdx < st.grad.Stops.length then
    ⟨st.Solid, withStops st.grad (st.grad.Stops.take st.stopIdx), st.prevColor, st.stopIdx⟩
  else st

/-- `f.parseLinearGrad(pars)` with `f.Gradient = grad`: the receiver's solid
colour and gradient afterwards. -/
def parseLinearGrad (env : Env) (solid : RGBA) (grad : Gradient) (pars : Str) : ParseState :=
  truncStops (linearLoop env (Split pars ", ".toList) ⟨solid, grad, ⟨0, 0, 0, 0⟩, 0⟩)

/-- The shape case of `parseRadialGrad` (`circle` and `ellipse` alike). -/
def radialShape (g : Gradient) : Gradient :=
  ⟨g.Radial, g.Bounds, ⟨1/2, 1/2⟩, ⟨1/2, 1/2⟩, 1/2, g.Stops, g.Spread, g.Units, g.Matrix⟩

/-- The position case of `parseRadialGrad`, on `par = "at ..."`. -/
def radialAt (g : Gradient) (par : Str) : Gradient :=
  ⟨g.Radial, (Split (par.drop 3) " ".toList).foldl radialSide g.Bounds,
    ⟨0, 0⟩, ⟨0, 0⟩, 0, g.Stops, g.Spread, g.Units, g.Matrix⟩

/-- One iteration of the loop of `parseRadialGrad`; `none` is `break outer`. -/
def radialSeg (env : Env) (st : ParseState) (raw : Str) : Option ParseState :=
  let par := TrimRight (TrimSpace raw) ",".toList
  if Contains par "circle".toList then
    some ⟨st.Solid, radialShape st.grad, st.prevColor, st.stopIdx⟩
  else if Contains par "ellipse".toList then
    some ⟨st.Solid, radialShape st.grad, st.prevColor, st.stopIdx⟩
  else if HasPrefix par "at ".toList then
    some ⟨st.Solid, radialAt st.grad par, st.prevColor, st.stopIdx⟩
  else if HasPrefix par ")".toList then none
  else some (colorStopSeg env st par)

/-- The loop of `parseRadialGrad`. -/
def radialLoop (env : Env) : List Str → ParseState → ParseState
  | [], st => st
  | raw :: rest, st =>
    match radialSeg env st raw with
    | none => st
    | some st1 => radialLoop env rest st1

/-- `f.parseRadialGrad(pars)` with `f.Gradient = grad`. -/
def parseRadialGrad (env : Env) (solid : RGBA) (grad : Gradient) (pars : Str) : ParseState :=
  truncStops (radialLoop env (Split pars ", ".toList) ⟨solid, grad, ⟨0, 0, 0, 0⟩, 0⟩)

/-! ## `SetString` -/

/-- `SetSpread(v)` on a gradient. -/
def SetSpread (g : Gradient) (v : SpreadMethods) : Gradient :=
  ⟨g.Radial, g.Bounds, g.Center, g.Focal, g.Radius, g.Stops, v, g.Units, g.Matrix⟩

/-- The `switch gtyp` of `SetString`: the receiver after the gradient has been
created and its arguments parsed (unchanged for any other type). -/
def setGradient (env : Env) (f : Full) (gtyp pars : Str) : Full :=
  if gtyp = "repeating-linear".toList then
    let r := parseLinearGrad env f.Solid (SetSpread env.LinearGradient SpreadMethods.RepeatSpread) pars
    ⟨r.Solid, some r.grad⟩
  else if gtyp = "linear".toList then
    let r := parseLinearGrad env f.Solid env.LinearGradient pars
    ⟨r.Solid, some r.grad⟩
  else if gtyp = "repeating-radial".toList then
    let r := parseRadialGrad env f.Solid (SetSpread env.RadialGradient SpreadMethods.RepeatSpread) pars
    ⟨r.Solid, some r.grad⟩
  else if gtyp = "radial".toList then
    let r := parseRadialGrad env f.Solid env.RadialGradient pars
    ⟨r.Solid, some r.grad⟩
  else f

/-- `f.SetString(str, ctx)` with the cache `FullCache`: the returned flag, the
receiver and the cache afterwards; `none` is a run-time panic (the call
`FixGradientStops(f.Gradient)` on a nil gradient). -/
def SetString (env : Env) (cache : Cache) (f : Full) (str : Str) (ctx : Context) :
    Option (Bool × Full × Cache) :=
  let fullnm := env.AsHex f.Solid ++ str
  match cacheGet cache fullnm with
  | some ccg => some (true, ccg, cache)
  | none =>
    let str1 := TrimSpace str
    if HasPrefix str1 "url(".toList then
      match (match ctx with
        | some fullByURL => fullByURL str1
        | none => none) with
      | some full => some (true, full, cache)
      | none => some (false, ⟨Black, none⟩, cache)
    else
      let str2 := ToLower str1
      let gidx := Index str2 "-gradient".toList
      if 0 < gidx then
        let gtyp := str2.take gidx.toNat
        let rmdr := str2.drop (gidx.toNat + "-gradient".toList.length)
        let pidx := IndexByte rmdr '('
        if pidx < 0 then some (false, f, cache)
        else
          let pars := TrimSuffix (TrimSuffix (rmdr.drop (pidx.toNat + 1)) ");".toList) ")".toList
          let f1 := setGradient env f gtyp pars
          match f1.Gradient with
          | none => none
          | some g =>
            let f2 : Full := ⟨f1.Solid, some (FixGradientStops g)⟩
            some (true, f2, (fullnm, f2) :: cache)
      else
        some (true, ⟨env.LogFromString str2 none, none⟩, cache)

/-! ## Sample collaborators, for concrete descriptors -/

/-- The value of a decimal digit. -/
def digitVal (c : Char) : Nat := c.toNat - '0'.toNat

/-- The natural number written by a list of decimal digits. -/
def digitsVal (ds : Str) : Nat := ds.foldl (fun n c => 10 * n + digitVal c) 0

/-- A reader of unsigned decimal literals `ddd` and `ddd.ddd` only: the value
and whether the text is rejected. On these literals it agrees with
`strconv.ParseFloat`; it rejects every other text, among them the signed
literals, the exponents and the leading dot that `strconv.ParseFloat` accepts.
It is used for concrete inputs only. -/
def sampleParseFloat (s : Str) : ℚ × Bool :=
  let ip := s.takeWhile Char.isDigit
  let rest := s.dropWhile Char.isDigit
  if ip = [] then (0, true)
  else if rest = [] then ((digitsVal ip : ℚ), false)
  else
    match rest with
    | '.' :: fp =>
      if fp.all Char.isDigit then
        ((digitsVal ip : ℚ) + (digitsVal fp : ℚ) / (10 : ℚ) ^ fp.length, false)
      else (0, true)
    | _ => (0, true)

/-- A colour resolver that knows three names. -/
def sampleFromString (s : Str) (_base : Option RGBA) : Option RGBA :=
  if s = "red".toList then some ⟨255, 0, 0, 255⟩
  else if s = "blue".toList then some ⟨0, 0, 255, 255⟩
  else if s = "transparent".toList then some ⟨0, 0, 0, 0⟩
  else none

/-- Two upper-case hexadecimal digits for a channel value. -/
def hexByte (n : Nat) : Str :=
  ["0123456789ABCDEF".toList.getD (n / 16 % 16) '0', "0123456789ABCDEF".toList.getD (n % 16) '0']

/-- A colour as `#RRGGBBAA`. -/
def sampleAsHex (c : RGBA) : Str :=
  '#' :: (hexByte c.R ++ hexByte c.G ++ hexByte c.B ++ hexByte c.A)

/-- Sample collaborators: the three-name resolver, the decimal reader, and
fresh gradients without stops (linear from (0,0) to (1,0), pad spread). -/
def sampleEnv : Env where
  FromString := sampleFromString
  LogFromString := fun s b => (sampleFromString s b).getD ⟨0, 0, 0, 0⟩
  AsHex := sampleAsHex
  ParseFloat := sampleParseFloat
  ToFloat := fun s => (sampleParseFloat s).1
  LinearGradient := ⟨false, ⟨⟨0, 0⟩, ⟨1, 0⟩⟩, ⟨0, 0⟩, ⟨0, 0⟩, 0, [],
    SpreadMethods.PadSpread, GradientUnits.ObjectBoundingBox, ⟨1, 0, 0, 1, 0, 0⟩⟩
  RadialGradient := ⟨true, ⟨⟨0, 0⟩, ⟨1, 0⟩⟩, ⟨1/2, 1/2⟩, ⟨1/2, 1/2⟩, 1/2, [],
    SpreadMethods.PadSpread, GradientUnits.ObjectBoundingBox, ⟨1, 0, 0, 1, 0, 0⟩⟩

/-- The colour red of the sample resolver. -/
def red : RGBA := ⟨255, 0, 0, 255⟩

/-- The colour blue of the sample resolver. -/
def blue : RGBA := ⟨0, 0, 255, 255⟩

/-! ## Descriptors, for stating the parsing claims -/

/-- The pieces joined with the separator between them (the inverse of `Split`). -/
def joinSep (sep : Str) : List Str → Str
  | [] => []
  | [t] => t
  | t :: u :: ts => t ++ sep ++ joinSep sep (u :: ts)

/-- No instance of the separator `", "` starts inside the text. -/
def noCommaSpace : Str → Bool
  | [] => true
  | [_] => true
  | c :: d :: r => !(c == ',' && d == ' ') && noCommaSpace (d :: r)

/-- A colour token that the segment loop hands to the colour resolver as it
is: ASCII, no blank, nothing for `TrimSpace`, `ToLower` or the comma trim to
change, no `deg` inside, no leading `)`, and not one of the relative keywords
`clearer-N` and `transparent`. -/
def plainToken (t : Str) : Bool :=
  t.all (fun c => c != ' ' && decide (c.toNat < 128)) && TrimSpace t == t && ToLower t == t &&
  TrimRight t ",".toList == t && !Contains t "deg".toList && !HasPrefix t ")".toList &&
  !HasPrefix t "clearer-".toList && t != "transparent".toList

/-- The colours the resolver returns for the tokens in order, each token
resolved with the colour of the token before it as base (the solid colour for
the first); `none` when the resolver rejects a token. -/
def resolveChain (env : Env) : RGBA → List Str → Option (List RGBA)
  | _, [] => some []
  | prev, t :: ts =>
    match env.FromString t (some prev) with
    | none => none
    | some c =>
      match resolveChain env c ts with
      | none => none
      | some cs => some (c :: cs)

/-- The stops with the given colours, opacity 1 and offsets `j / (n - 1)`. -/
def evenStops (cols : List RGBA) : List GradientStop :=
  (List.range cols.length).map
    (fun j => ⟨cols.getD j Black, (j : ℚ) / ((cols.length : ℚ) - 1), 1⟩)

/-- A decimal digit `0` .. `9`. -/
def isDigitChar (c : Char) : Bool := decide (48 ≤ c.toNat ∧ c.toNat ≤ 57)

/-- Every key of the cache is one that `SetString` stores: `AsHex` of a solid
colour followed by a descriptor that, trimmed, does not start with `url(`. -/
def cacheStored (env : Env) (cache : Cache) : Prop :=
  ∀ kv ∈ cache, ∃ (solid : RGBA) (str : Str),
    kv.1 = env.AsHex solid ++ str ∧ HasPrefix (TrimSpace str) "url(".toList = false
/-! ## The degree table, for stating its correctness -/

/-- The angles of the table in degrees, in the order of the source. -/
def tableAngles : List Int :=
  [0, 360, 45, -315, 90, -270, 135, -225, 180, -180, 225, -135, 270, -90, 315, -45]

/-- The key `Ndeg` of an angle of `N` degrees. -/
def degKey (n : Int) : String := toString n ++ "deg"

/-- The side notation of a compass direction given in degrees from 0 to 359. -/
def sidesOfAngle (a : Int) : String :=
  if a = 0 then "top"
  else if a = 45 then "top right"
  else if a = 90 then "right"
  else if a = 135 then "bottom right"
  else if a = 180 then "bottom"
  else if a = 225 then "bottom left"
  else if a = 270 then "left"
  else if a = 315 then "top left"
  else ""

/-- A valid side combination: one vertical keyword, one horizontal keyword, or
a vertical keyword followed by a horizontal one. -/
def validSides (s : String) : Bool :=
  match Split s.toList " ".toList with
  | [a] => a = "top".toList || a = "bottom".toList || a = "left".toList || a = "right".toList
  | [a, b] => (a = "top".toList || a = "bottom".toList) && (b = "left".toList || b = "right".toList)
  | _ => false

/-! ## The XML reader

A token of `encoding/xml` is a start element with its attributes, an end
element, or something else (character data, comments, ...); the decoder is the
list of what `decoder.Token()` returns call after call, and `io.EOF` once the
list is used up. -/

/-- `xml.Attr`: the local name and the value. -/
structure Attr where
  Local : Str
  Value : Str
deriving DecidableEq

/-- `xml.Token`, as far as the reader tells tokens apart. -/
inductive Token where
  | StartElement (name : Str) (attrs : List Attr)
  | EndElement (name : Str)
  | CharData
  | OtherToken
deriving DecidableEq

/-- One result of `decoder.Token()`: a token, or an error other than `io.EOF`. -/
inductive TokenRead where
  | token (t : Token)
  | failure
deriving DecidableEq

/-- The decoder: the results that `decoder.Token()` still has to return. -/
abbrev Decoder := List TokenRead

/-- `XMLAttr(name, attrs)`: the value of the first attribute of that name, or `""`. -/
def XMLAttr (name : Str) : List Attr → Str
  | [] => []
  | a :: rest => if a.Local = name then a.Value else XMLAttr name rest

/-- `f.ReadGradAttr(attr)` on the gradient; `parseMat2` is
`mat32.Identity2D()` after `SetString(attr.Value)`. The returned error is
always nil. -/
def ReadGradAttr (parseMat2 : Str → Mat2) (g : Gradient) (attr : Attr) : Gradient :=
  if attr.Local = "gradientTransform".toList then
    ⟨g.Radial, g.Bounds, g.Center, g.Focal, g.Radius, g.Stops, g.Spread, g.Units,
      parseMat2 attr.Value⟩
  else if attr.Local = "gradientUnits".toList then
    if TrimSpace attr.Value = "userSpaceOnUse".toList then
      ⟨g.Radial, g.Bounds, g.Center, g.Focal, g.Radius, g.Stops, g.Spread,
        GradientUnits.UserSpaceOnUse, g.Matrix⟩
    else if TrimSpace attr.Value = "objectBoundingBox".toList then
      ⟨g.Radial, g.Bounds, g.Center, g.Focal, g.Radius, g.Stops, g.Spread,
        GradientUnits.ObjectBoundingBox, g.Matrix⟩
    else g
  else if attr.Local = "spreadMethod".toList then
    if TrimSpace attr.Value = "pad".toList then SetSpread g SpreadMethods.PadSpread
    else if TrimSpace attr.Value = "reflect".toList then SetSpread g SpreadMethods.ReflectSpread
    else if TrimSpace attr.Value = "repeat".toList then SetSpread g SpreadMethods.RepeatSpread
    else g
  else g

/-- One attribute of `linearGradient`: the gradient afterwards and whether an
error is returned. -/
def linearAttr (env : Env) (parseMat2 : Str → Mat2) (g : Gradient) (attr : Attr) :
    Gradient × Bool :=
  if attr.Local = "x1".toList then
    (withBounds g ⟨⟨(readFraction env attr.Value).1, g.Bounds.Min.Y⟩, g.Bounds.Max⟩,
      (readFraction env attr.Value).2)
  else if attr.Local = "y1".toList then
    (withBounds g ⟨⟨g.Bounds.Min.X, (readFraction env attr.Value).1⟩, g.Bounds.Max⟩,
      (readFraction env attr.Value).2)
  else if attr.Local = "x2".toList then
    (withBounds g ⟨g.Bounds.Min, ⟨(readFraction env attr.Value).1, g.Bounds.Max.Y⟩⟩,
      (readFraction env attr.Value).2)
  else if attr.Local = "y2".toList then
    (withBounds g ⟨g.Bounds.Min, ⟨g.Bounds.Max.X, (readFraction env attr.Value).1⟩⟩,
      (readFraction env attr.Value).2)
  else (ReadGradAttr parseMat2 g attr, false)

/-- The attribute loop of `linearGradient`; it stops at the first error. -/
def linearAttrs (env : Env) (parseMat2 : Str → Mat2) : List Attr → Gradient → Gradient × Bool
  | [], g => (g, false)
  | attr :: rest, g =>
    if (linearAttr env parseMat2 g attr).2 then ((linearAttr env parseMat2 g attr).1, true)
    else linearAttrs env parseMat2 rest (linearAttr env parseMat2 g attr).1

/-- The variables of the attribute loop of `radialGradient`. -/
structure RadialAcc where
  grad : Gradient
  setFx : Bool
  setFy : Bool
deriving DecidableEq

/-- The gradient with its radius replaced. -/
def withRadius (g : Gradient) (r : ℚ) : Gradient :=
  ⟨g.Radial, g.Bounds, g.Center, g.Focal, r, g.Stops, g.Spread, g.Units, g.Matrix⟩

/-- The gradient with its centre replaced. -/
def withCenter (g : Gradient) (c : Vec2) : Gradient :=
  ⟨g.Radial, g.Bounds, c, g.Focal, g.Radius, g.Stops, g.Spread, g.Units, g.Matrix⟩

/-- The gradient with its focal point replaced. -/
def withFocal (g : Gradient) (c : Vec2) : Gradient :=
  ⟨g.Radial, g.Bounds, g.Center, c, g.Radius, g.Stops, g.Spread, g.Units, g.Matrix⟩

/-- The gradient with its `Radial` flag replaced. -/
def withRadial (g : Gradient) (b : Bool) : Gradient :=
  ⟨b, g.Bounds, g.Center, g.Focal, g.Radius, g.Stops, g.Spread, g.Units, g.Matrix⟩

/-- One attribute of `radialGradient`. -/
def radialAttr (env : Env) (parseMat2 : Str → Mat2) (acc : RadialAcc) (attr : Attr) :
    RadialAcc × Bool :=
  if attr.Local = "r".toList then
    (⟨withRadius acc.grad (readFraction env attr.Value).1, acc.setFx, acc.setFy⟩,
      (readFraction env attr.Value).2)
  else if attr.Local = "cx".toList then
    (⟨withCenter acc.grad ⟨(readFraction env attr.Value).1, acc.grad.Center.Y⟩,
        acc.setFx, acc.setFy⟩, (readFraction env attr.Value).2)
  else if attr.Local = "cy".toList then
    (⟨withCenter acc.grad ⟨acc.grad.Center.X, (readFraction env attr.Value).1⟩,
        acc.setFx, acc.setFy⟩, (readFraction env attr.Value).2)
  else if attr.Local = "fx".toList then
    (⟨withFocal acc.grad ⟨(readFraction env attr.Value).1, acc.grad.Focal.Y⟩,
        true, acc.setFy⟩, (readFraction env attr.Value).2)
  else if attr.Local = "fy".toList then
    (⟨withFocal acc.grad ⟨acc.grad.Focal.X, (readFraction env attr.Value).1⟩,
        acc.setFx, true⟩, (readFraction env attr.Value).2)
  else (⟨ReadGradAttr parseMat2 acc.grad attr, acc.setFx, acc.setFy⟩, false)

/-- The attribute loop of `radialGradient`; it stops at the first error. -/
def radialAttrs (env : Env) (parseMat2 : Str → Mat2) : List Attr → RadialAcc → RadialAcc × Bool
  | [], acc => (acc, false)
  | attr :: rest, acc =>
    if (radialAttr env parseMat2 acc attr).2 then ((radialAttr env parseMat2 acc attr).1, true)
    else radialAttrs env parseMat2 rest (radialAttr env parseMat2 acc attr).1

/-- The defaults after the attribute loop: `fx` to `cx` and `fy` to `cy`
unless set. -/
def radialDefaults (acc : RadialAcc) : Gradient :=
  withFocal acc.grad
    ⟨if acc.setFx then acc.grad.Focal.X else acc.grad.Center.X,
      if acc.setFy then acc.grad.Focal.Y else acc.grad.Center.Y⟩

/-- The synthetic attributes parsed from a `style` value. -/
def styleAttrs (sty : Str) : List Attr :=
  (Split sty ";".toList).filterMap (fun s =>
    if IndexByte (TrimSpace s) ':' < 0 then none
    else some ⟨(TrimSpace s).take (IndexByte (TrimSpace s) ':').toNat,
      (TrimSpace s).drop ((IndexByte (TrimSpace s) ':').toNat + 1)⟩)

/-- The body of the `style` loop on one piece of the split value: the synthetic
attribute made from the trimmed piece, or nothing when it holds no `:`. -/
def styleAttrOf (s : Str) : Option Attr :=
  if IndexByte (TrimSpace s) ':' < 0 then none
  else some ⟨(TrimSpace s).take (IndexByte (TrimSpace s) ':').toNat,
    (TrimSpace s).drop ((IndexByte (TrimSpace s) ':').toNat + 1)⟩

/-- One attribute of `stop`: the stop afterwards and whether an error is
returned. -/
def stopAttr (env : Env) (stop : GradientStop) (attr : Attr) : GradientStop × Bool :=
  if attr.Local = "offset".toList then
    (⟨stop.Color, (readFraction env attr.Value).1, stop.Opacity⟩,
      (readFraction env attr.Value).2)
  else if attr.Local = "stop-color".toList then
    match env.FromString attr.Value none with
    | none => (stop, true)
    | some clr => (⟨clr, stop.Offset, stop.Opacity⟩, false)
  else if attr.Local = "stop-opacity".toList then
    (⟨stop.Color, stop.Offset, (env.ParseFloat attr.Value).1⟩, (env.ParseFloat attr.Value).2)
  else (stop, false)

/-- The attribute loop of `stop`; it stops at the first error. -/
def stopAttrs (env : Env) : List Attr → GradientStop → GradientStop × Bool
  | [], stop => (stop, false)
  | attr :: rest, stop =>
    if (stopAttr env stop attr).2 then ((stopAttr env stop attr).1, true)
    else stopAttrs env rest (stopAttr env stop attr).1

/-- The case `stop`, up to the append: the stop read from the attributes and
the `style` pairs after them, and whether an error is returned. -/
def stopElement (env : Env) (attrs : List Attr) : GradientStop × Bool :=
  stopAttrs env
    (if XMLAttr "style".toList attrs = [] then attrs
      else attrs ++ styleAttrs (XMLAttr "style".toList attrs))
    ⟨Black, 0, 1⟩

/-- The case `xml.StartElement` of `UnmarshalXML`: the receiver afterwards and
whether an error is returned. -/
def startElement (env : Env) (parseMat2 : Str → Mat2) (f : Full) (name : Str)
    (attrs : List Attr) : Full × Bool :=
  if name = "linearGradient".toList then
    match f.Gradient with
    | none =>
      (⟨f.Solid, some (linearAttrs env parseMat2 attrs
          (withBounds env.LinearGradient ⟨env.LinearGradient.Bounds.Min, ⟨1, 0⟩⟩)).1⟩,
        (linearAttrs env parseMat2 attrs
          (withBounds env.LinearGradient ⟨env.LinearGradient.Bounds.Min, ⟨1, 0⟩⟩)).2)
    | some g =>
      (⟨f.Solid, some (linearAttrs env parseMat2 attrs (withRadial g false)).1⟩,
        (linearAttrs env parseMat2 attrs (withRadial g false)).2)
  else if name = "radialGradient".toList then
    match (radialAttrs env parseMat2 attrs
      ⟨match f.Gradient with
        | none => env.RadialGradient
        | some g => withRadial g true, false, false⟩) with
    | (acc, true) => (⟨f.Solid, some acc.grad⟩, true)
    | (acc, false) => (⟨f.Solid, some (radialDefaults acc)⟩, false)
  else if name = "stop".toList then
    if (stopElement env attrs).2 then (f, true)
    else
      match f.Gradient with
      | none => (f, false)
      | some g => (⟨f.Solid, some (withStops g (g.Stops ++ [(stopElement env attrs).1]))⟩, false)
  else (f, false)

/-- The token loop of `UnmarshalXML`: the receiver afterwards, whether an
error is returned, and what is left of the decoder. -/
def xmlLoop (env : Env) (parseMat2 : Str → Mat2) : Decoder → Full → Full × Bool × Decoder
  | [], f => (f, false, [])
  | TokenRead.failure :: rest, f => (f, true, rest)
  | TokenRead.token (Token.StartElement name attrs) :: rest, f =>
    if (startElement env parseMat2 f name attrs).2 then
      ((startElement env parseMat2 f name attrs).1, true, rest)
    else xmlLoop env parseMat2 rest (startElement env parseMat2 f name attrs).1
  | TokenRead.token (Token.EndElement name) :: rest, f =>
    if name = "linearGradient".toList ∨ name = "radialGradient".toList then (f, false, rest)
    else xmlLoop env parseMat2 rest f
  | TokenRead.token _ :: rest, f => xmlLoop env parseMat2 rest f

/-- `f.UnmarshalXML(decoder, se)`: the first token is the start element `se`,
the next ones come from the decoder. -/
def UnmarshalXML (env : Env) (parseMat2 : Str → Mat2) (f : Full) (decoder : Decoder)
    (name : Str) (attrs : List Attr) : Full × Bool × Decoder :=
  xmlLoop env parseMat2 (TokenRead.token (Token.StartElement name attrs) :: decoder) f

/-- `f.ReadXML(reader)`: skips to the first start element and hands over to
`UnmarshalXML`. -/
def ReadXML (env : Env) (parseMat2 : Str → Mat2) (f : Full) : Decoder → Full × Bool × Decoder
  | [] => (f, false, [])
  | TokenRead.failure :: rest => (f, true, rest)
  | TokenRead.token (Token.StartElement name attrs) :: rest =>
    UnmarshalXML env parseMat2 f rest name attrs
  | TokenRead.token _ :: rest => ReadXML env parseMat2 f rest

/-- A reader of transforms that knows none: the identity matrix. -/
def sampleParseMat2 (_s : Str) : Mat2 := ⟨1, 0, 0, 1, 0, 0⟩

/-! ## Side specifications, for stating their effect -/

/-- The side keywords. -/
inductive Side where
  | top
  | bottom
  | left
  | right
deriving DecidableEq

/-- The text of a side keyword. -/
def Side.text : Side → Str
  | Side.top => "top".toList
  | Side.bottom => "bottom".toList
  | Side.left => "left".toList
  | Side.right => "right".toList

/-- The effect of a side keyword on the bounds: top sets Min.Y = 1, Max.Y = 0;
bottom Min.Y = 0, Max.Y = 1; left Min.X = 1, Max.X = 0; right Min.X = 0,
Max.X = 1. -/
def applySide (b : Box2) : Side → Box2
  | Side.top => ⟨⟨b.Min.X, 1⟩, ⟨b.Max.X, 0⟩⟩
  | Side.bottom => ⟨⟨b.Min.X, 0⟩, ⟨b.Max.X, 1⟩⟩
  | Side.left => ⟨⟨1, b.Min.Y⟩, ⟨0, b.Max.Y⟩⟩
  | Side.right => ⟨⟨0, b.Min.Y⟩, ⟨1, b.Max.Y⟩⟩

/-- The segment `to s1 ... sm`. -/
def sideSegment (sides : List Side) : Str :=
  "to ".toList ++ joinSep " ".toList (sides.map Side.text)

/-! ## Colour-stop segments, for stating what the segment loops keep -/

/-- The colour-stop segments of a linear argument list: the pieces, trimmed,
that come before the first piece starting with `)` and are neither an angle nor
a side specification. -/
def linearColorSegs : List Str → List Str
  | [] => []
  | raw :: rest =>
    if Contains (TrimRight (TrimSpace raw) ",".toList) "deg".toList then linearColorSegs rest
    else if HasPrefix (TrimRight (TrimSpace raw) ",".toList) "to ".toList then
      linearColorSegs rest
    else if HasPrefix (TrimRight (TrimSpace raw) ",".toList) ")".toList then []
    else TrimRight (TrimSpace raw) ",".toList :: linearColorSegs rest

/-- The colour-stop segments of a radial argument list: the pieces, trimmed,
that come before the first piece starting with `)` and are neither a shape nor
a position. -/
def radialColorSegs : List Str → List Str
  | [] => []
  | raw :: rest =>
    if Contains (TrimRight (TrimSpace raw) ",".toList) "circle".toList then radialColorSegs rest
    else if Contains (TrimRight (TrimSpace raw) ",".toList) "ellipse".toList then
      radialColorSegs rest
    else if HasPrefix (TrimRight (TrimSpace raw) ",".toList) "at ".toList then
      radialColorSegs rest
    else if HasPrefix (TrimRight (TrimSpace raw) ",".toList) ")".toList then []
    else TrimRight (TrimSpace raw) ",".toList :: radialColorSegs rest

/-- The stops of the segments that `parseColorStop` accepts, in order: each
segment is parsed into a new stop (black, opacity 1, no offset) with the colour
of the last accepted stop as previous colour, `prev` for the first; a rejected
segment is passed over. -/
def acceptedStops (env : Env) : RGBA → List Str → List GradientStop
  | _, [] => []
  | prev, par :: rest =>
    if (parseColorStop env ⟨Black, 0, 1⟩ prev par).2 then
      (parseColorStop env ⟨Black, 0, 1⟩ prev par).1
        :: acceptedStops env (parseColorStop env ⟨Black, 0, 1⟩ prev par).1.Color rest
    else acceptedStops env prev rest

/-! ## Linear and radial descriptors, for stating what `SetString` does on them -/

/-- The gradient type that `SetString` reads from a descriptor: the text before
`-gradient` in the trimmed, lower-cased string (`gtyp`). -/
def gradientType (str : Str) : Str :=
  (ToLower (TrimSpace str)).take (Index (ToLower (TrimSpace str)) "-gradient".toList).toNat

/-- The text after `-gradient` in the trimmed, lower-cased string (`rmdr`). -/
def gradientRest (str : Str) : Str :=
  (ToLower (TrimSpace str)).drop
    ((Index (ToLower (TrimSpace str)) "-gradient".toList).toNat + "-gradient".toList.length)

/-- The argument list that `SetString` reads from a descriptor (`pars`). -/
def gradientArgs (str : Str) : Str :=
  TrimSuffix (TrimSuffix ((gradientRest str).drop ((IndexByte (gradientRest str) '(').toNat + 1))
    ");".toList) ")".toList

/-- A linear or radial descriptor: not a `url(` value, with one of the four
supported types before `-gradient` and an opening parenthesis after it. -/
def isLinearOrRadial (str : Str) : Bool :=
  !HasPrefix (TrimSpace str) "url(".toList
  && decide (0 < Index (ToLower (TrimSpace str)) "-gradient".toList)
  && decide (0 ≤ IndexByte (gradientRest str) '(')
  && (gradientType str == "linear".toList || gradientType str == "repeating-linear".toList
    || gradientType str == "radial".toList || gradientType str == "repeating-radial".toList)

/-- The colour stops that are parsed from a descriptor with the base colour
`solid`: the accepted colour-stop segments of its argument list. -/
def descriptorStops (env : Env) (solid : RGBA) (str : Str) : List GradientStop :=
  if gradientType str = "linear".toList ∨ gradientType str = "repeating-linear".toList then
    acceptedStops env solid (linearColorSegs (Split (gradientArgs str) ", ".toList))
  else
    acceptedStops env solid (radialColorSegs (Split (gradientArgs str) ", ".toList))

/-! ## The loop state under another spread, for comparing the repeating variants -/

/-- The loop state with the spread of its gradient replaced. -/
def spreadState (st : ParseState) (v : SpreadMethods) : ParseState :=
  ⟨st.Solid, SetSpread st.grad v, st.prevColor, st.stopIdx⟩

/-! ## The content of a gradient element, for stating which stops are read -/

/-- The attribute lists of the `stop` start elements among the tokens, in
document order. -/
def stopChildren : Decoder → List (List Attr)
  | [] => []
  | TokenRead.token (Token.StartElement name attrs) :: rest =>
    if name = "stop".toList then attrs :: stopChildren rest else stopChildren rest
  | _ :: rest => stopChildren rest

/-- The content of a gradient element: tokens that are read without error,
none of them the start or the end of a gradient element. -/
def isGradientBody : Decoder → Bool
  | [] => true
  | TokenRead.failure :: _ => false
  | TokenRead.token (Token.StartElement name _) :: rest =>
    name != "linearGradient".toList && name != "radialGradient".toList && isGradientBody rest
  | TokenRead.token (Token.EndElement name) :: rest =>
    name != "linearGradient".toList && name != "radialGradient".toList && isGradientBody rest
  | TokenRead.token _ :: rest => isGradientBody rest

/-! ## Basic facts about the slice operations -/

theorem length_setOffset (stops : List GradientStop) (i : Nat) (v : ℚ) :
    (setOffset stops i v).length = stops.length := by
  unfold setOffset
  split <;> simp

theorem offsetAt_setOffset (stops : List GradientStop) (i j : Nat) (v : ℚ) :
    offsetAt (setOffset stops i v) j =
      if j = i ∧ i < stops.length then v else offsetAt stops j := by
  unfold setOffset
  by_cases hi : i < stops.length
  · rw [List.getElem?_eq_getElem hi]
    simp only [offsetAt]
    by_cases hji : j = i
    · subst hji
      simp [hi]
    · have hne : i ≠ j := fun h => hji h.symm
      simp [List.getElem?_set_ne hne, hji]
  · rw [List.getElem?_eq_none (by omega)]
    simp [hi]

theorem length_distribute (per : ℚ) (n j : Nat) (cur : ℚ) (stops : List GradientStop) :
    (distribute per n j cur stops).length = stops.length := by
  induction n generalizing j cur stops with
  | zero => rfl
  | succ n ih => simp [distribute, ih, length_setOffset]

theorem offsetAt_distribute (per : ℚ) (n j : Nat) (cur : ℚ) (stops : List GradientStop)
    (i : Nat) :
    offsetAt (distribute per n j cur stops) i =
      if j ≤ i ∧ i < j + n ∧ i < stops.length then cur + ((i - j : Nat) : ℚ) * per
      else offsetAt stops i := by
  induction n generalizing j cur stops with
  | zero =>
    have h0 : ¬ (j ≤ i ∧ i < j + 0 ∧ i < stops.length) := by omega
    rw [if_neg h0]
    rfl
  | succ n ih =>
    rw [distribute, ih, length_setOffset, offsetAt_setOffset]
    by_cases h1 : j + 1 ≤ i ∧ i < j + 1 + n ∧ i < stops.length
    · have h2 : j ≤ i ∧ i < j + (n + 1) ∧ i < stops.length := by omega
      rw [if_pos h1, if_pos h2]
      have h3 : i - j = (i - (j + 1)) + 1 := by omega
      rw [h3]
      push_cast
      ring
    · rw [if_neg h1]
      by_cases h4 : i = j ∧ j < stops.length
      · have h2 : j ≤ i ∧ i < j + (n + 1) ∧ i < stops.length := by omega
        rw [if_pos h4, if_pos h2]
        have h3 : i - j = 0 := by omega
        simp [h3]
      · have h2 : ¬ (j ≤ i ∧ i < j + (n + 1) ∧ i < stops.length) := by omega
        rw [if_neg h4, if_neg h2]

theorem fixLoop_zero (sz : Nat) (stops : List GradientStop) :
    fixLoop sz stops 0 = ⟨stops, -1, 0⟩ := rfl

theorem fixLoop_succ (sz : Nat) (stops : List GradientStop) (n : Nat) :
    fixLoop sz stops (n + 1) = fixStep sz (fixLoop sz stops n) n := by
  simp [fixLoop, List.range_succ, List.foldl_append]

/-! ## The even-spacing shorthand: every offset but the last unspecified -/

theorem fixLoop_zero_run (stops : List GradientStop) (k : Nat)
    (hlen : stops.length = k + 2)
    (hz : ∀ j, j ≤ k → offsetAt stops j = 0) (n : Nat) (hn : n ≤ k + 1) :
    (fixLoop (k + 2) stops n).stops.length = k + 2 ∧
      (∀ j, offsetAt (fixLoop (k + 2) stops n).stops j = offsetAt stops j) ∧
      (fixLoop (k + 2) stops n).last = 0 ∧
      (n ≤ 1 → (fixLoop (k + 2) stops n).splitSt = -1) ∧
      (2 ≤ n → (fixLoop (k + 2) stops n).splitSt = 1) := by
  induction n with
  | zero =>
    rw [fixLoop_zero]
    refine ⟨hlen, fun _ => rfl, rfl, fun _ => rfl, fun h => by omega⟩
  | succ n ih =>
    obtain ⟨ihlen, ihoff, ihlast, ihs1, ihs2⟩ := ih (by omega)
    rw [fixLoop_succ]
    generalize fixLoop (k + 2) stops n = st at ihlen ihoff ihlast ihs1 ihs2
    have hfin : ¬ (n = k + 2 - 1 ∧ offsetAt st.stops n = 0) := fun h => by omega
    have hzn : offsetAt st.stops n = 0 := by rw [ihoff]; exact hz n (by omega)
    simp only [fixStep, if_neg hfin]
    by_cases hc : 0 < n ∧ offsetAt st.stops n = 0 ∧ st.splitSt < 0
    · rw [if_pos hc]
      have hn1 : n = 1 := by
        by_contra hne
        have h2 : 2 ≤ n := by omega
        have := ihs2 h2
        omega
      subst hn1
      refine ⟨?_, ?_, ihlast, fun h => by omega, fun _ => rfl⟩
      · simp [length_setOffset, ihlen]
      · intro j
        rw [offsetAt_setOffset, ihlast]
        split
        · rename_i h
          rw [h.1, ← ihoff 1, hzn]
        · exact ihoff j
    · rw [if_neg hc]
      by_cases hs : 0 < st.splitSt
      · have h2 : 2 ≤ n := by
          by_contra hne
          have := ihs1 (by omega)
          omega
        have hsp : st.splitSt = 1 := ihs2 h2
        have hst : offsetAt st.stops 1 = 0 := by rw [ihoff]; exact hz 1 (by omega)
        have hd : ∀ j, offsetAt (distribute 0 (n - 1) 1 0 st.stops) j = offsetAt stops j := by
          intro j
          rw [offsetAt_distribute]
          split
          · rename_i h
            rw [hz j (by omega)]
            simp
          · exact ihoff j
        rw [if_pos hs]
        refine ⟨?_, ?_, ?_, fun h => by omega, fun _ => hsp⟩
        · rw [length_distribute, ihlen]
        · simp only [hsp, hzn, hst, Int.toNat_one, sub_self, zero_div, add_zero]
          exact hd
        · simp only [hsp, hzn, hst, Int.toNat_one, sub_self, zero_div, add_zero]
          rw [hd]; exact hz n (by omega)
      · simp only [if_neg hs]
        refine ⟨ihlen, ihoff, hzn, ?_, ?_⟩
        · intro h
          exact ihs1 (by omega)
        · intro h
          exfalso
          by_cases h2 : 2 ≤ n
          · have := ihs2 h2
            omega
          · have h1 := ihs1 (by omega)
            apply hc
            refine ⟨by omega, hzn, by omega⟩

/-- On a list of `k + 2` stops whose first `k + 1` offsets are all 0, the
normalizer puts stop `j` at `j * e / (k + 1)`, where `e` is the last offset,
or 1 when the last offset is 0 as well. -/
theorem fixStops_zero_run (stops : List GradientStop) (k : Nat)
    (hlen : stops.length = k + 2)
    (hz : ∀ j, j ≤ k → offsetAt stops j = 0) (j : Nat) (hj : j ≤ k + 1) :
    offsetAt (fixStops stops) j =
      (j : ℚ) * (if offsetAt stops (k + 1) = 0 then 1 else offsetAt stops (k + 1)) / ((k : ℚ) + 1) := by
  obtain ⟨ihlen, ihoff, ihlast, ihs1, ihs2⟩ := fixLoop_zero_run stops k hlen hz (k + 1) le_rfl
  have hne : ¬ stops.length = 0 := by omega
  rw [fixStops, if_neg hne, hlen, fixLoop_succ]
  generalize fixLoop (k + 2) stops (k + 1) = st at ihlen ihoff ihlast ihs1 ihs2
  have hk1 : (k : ℚ) + 1 ≠ 0 := by positivity
  -- the final-stop fixup
  have hstops1 : ∃ s1 : List GradientStop, s1.length = k + 2 ∧
      (if k + 1 = k + 2 - 1 ∧ offsetAt st.stops (k + 1) = 0 then
        setOffset st.stops (k + 1) (if st.last < 1 then 1 else st.last) else st.stops) = s1 ∧
      (∀ i, i ≤ k → offsetAt s1 i = 0) ∧
      offsetAt s1 (k + 1) = (if offsetAt stops (k + 1) = 0 then 1 else offsetAt stops (k + 1)) := by
    by_cases he : offsetAt stops (k + 1) = 0
    · have he2 : k + 1 = k + 2 - 1 ∧ offsetAt st.stops (k + 1) = 0 := ⟨by omega, by rw [ihoff]; exact he⟩
      refine ⟨_, ?_, rfl, ?_, ?_⟩
      · rw [if_pos he2, length_setOffset, ihlen]
      · intro i hi
        rw [if_pos he2, offsetAt_setOffset, if_neg (by omega), ihoff]
        exact hz i hi
      · rw [if_pos he2, offsetAt_setOffset, if_pos ⟨rfl, by omega⟩, ihlast, if_pos he]
        simp
    · have he2 : ¬ (k + 1 = k + 2 - 1 ∧ offsetAt st.stops (k + 1) = 0) := by
        rw [ihoff]; exact fun h => he h.2
      refine ⟨_, ?_, rfl, ?_, ?_⟩
      · rw [if_neg he2, ihlen]
      · intro i hi
        rw [if_neg he2, ihoff]
        exact hz i hi
      · rw [if_neg he2, ihoff, if_neg he]
  obtain ⟨s1, hs1len, hs1, hs1z, hs1e⟩ := hstops1
  have hene : offsetAt s1 (k + 1) ≠ 0 := by
    rw [hs1e]
    split
    · exact one_ne_zero
    · assumption
  simp only [fixStep, hs1]
  generalize (if offsetAt stops (k + 1) = 0 then 1 else offsetAt stops (k + 1)) = e at hs1e
  have hc : ¬ (0 < k + 1 ∧ offsetAt s1 (k + 1) = 0 ∧ st.splitSt < 0) := fun h => hene h.2.1
  rw [if_neg hc]
  simp only []
  by_cases hk : k = 0
  · subst hk
    have hsp := ihs1 le_rfl
    have hs : ¬ (0 : Int) < st.splitSt := by omega
    rw [if_neg hs]
    have hj2 : j = 0 ∨ j = 1 := by omega
    rcases hj2 with rfl | rfl
    · rw [hs1z 0 le_rfl]; simp
    · rw [hs1e]; simp
  · have hsp := ihs2 (by omega)
    have hs : (0 : Int) < st.splitSt := by omega
    rw [if_pos hs, hsp]
    simp only [Int.toNat_one]
    rw [offsetAt_distribute, hs1len, hs1z 1 (by omega), hs1e]
    have hcast : (((1 + (((k + 1 : Nat) : Int) - 1) : Int)) : ℚ) = (k : ℚ) + 1 := by
      push_cast; ring
    rw [hcast]
    by_cases hjr : 1 ≤ j ∧ j < 1 + (k + 1 - 1) ∧ j < k + 2
    · rw [if_pos hjr]
      have hj1 : ((j - 1 : Nat) : ℚ) = (j : ℚ) - 1 := by
        rw [Nat.cast_sub hjr.1]; simp
      rw [hj1]
      field_simp
      ring
    · rw [if_neg hjr]
      have hj2 : j = 0 ∨ j = k + 1 := by omega
      rcases hj2 with rfl | rfl
      · rw [hs1z 0 (by omega)]; simp
      · rw [hs1e]
        push_cast
        field_simp

/-! ## Length and frame of the normalizer -/

theorem frameOf_setOffset (stops : List GradientStop) (i : Nat) (v : ℚ) :
    frameOf (setOffset stops i v) = frameOf stops := by
  unfold setOffset
  by_cases hi : i < stops.length
  · rw [List.getElem?_eq_getElem hi]
    simp only [frameOf]
    apply List.ext_getElem?
    intro j
    by_cases hji : i = j
    · subst hji
      simp [List.getElem?_map, List.getElem?_set, hi]
    · simp [List.getElem?_map, List.getElem?_set_ne hji]
  · rw [List.getElem?_eq_none (by omega)]

theorem frameOf_distribute (per : ℚ) (n j : Nat) (cur : ℚ) (stops : List GradientStop) :
    frameOf (distribute per n j cur stops) = frameOf stops := by
  induction n generalizing j cur stops with
  | zero => rfl
  | succ n ih => rw [distribute, ih, frameOf_setOffset]

theorem length_fixStep (sz : Nat) (st : FixState) (i : Nat) :
    (fixStep sz st i).stops.length = st.stops.length := by
  simp only [fixStep]
  split_ifs <;> simp [length_setOffset, length_distribute]

theorem frameOf_fixStep (sz : Nat) (st : FixState) (i : Nat) :
    frameOf (fixStep sz st i).stops = frameOf st.stops := by
  simp only [fixStep]
  split_ifs <;> simp [frameOf_setOffset, frameOf_distribute]

theorem length_fixLoop (sz : Nat) (stops : List GradientStop) (n : Nat) :
    (fixLoop sz stops n).stops.length = stops.length := by
  induction n with
  | zero => rfl
  | succ n ih => rw [fixLoop_succ, length_fixStep, ih]

theorem frameOf_fixLoop (sz : Nat) (stops : List GradientStop) (n : Nat) :
    frameOf (fixLoop sz stops n).stops = frameOf stops := by
  induction n with
  | zero => rfl
  | succ n ih => rw [fixLoop_succ, frameOf_fixStep, ih]

theorem length_fixStops (stops : List GradientStop) :
    (fixStops stops).length = stops.length := by
  unfold fixStops
  split
  · rfl
  · exact length_fixLoop _ _ _

theorem frameOf_fixStops (stops : List GradientStop) :
    frameOf (fixStops stops) = frameOf stops := by
  unfold fixStops
  split
  · rfl
  · exact frameOf_fixLoop _ _ _

/-! ## The first stop is outside every write when there are two stops or more -/

theorem offsetAt_zero_fixStep (sz : Nat) (hsz : 2 ≤ sz) (st : FixState) (i : Nat) :
    offsetAt (fixStep sz st i).stops 0 = offsetAt st.stops 0 := by
  have h1 : offsetAt (if i = sz - 1 ∧ offsetAt st.stops i = 0 then
      setOffset st.stops i (if st.last < 1 then 1 else st.last) else st.stops) 0 =
      offsetAt st.stops 0 := by
    split
    · rename_i h
      rw [offsetAt_setOffset, if_neg (by omega)]
    · rfl
  simp only [fixStep]
  generalize (if i = sz - 1 ∧ offsetAt st.stops i = 0 then
      setOffset st.stops i (if st.last < 1 then 1 else st.last) else st.stops) = s1 at h1
  by_cases hc : 0 < i ∧ offsetAt s1 i = 0 ∧ st.splitSt < 0
  · rw [if_pos hc]
    simp only []
    rw [offsetAt_setOffset, if_neg (by omega), h1]
  · rw [if_neg hc]
    simp only []
    by_cases hs : 0 < st.splitSt
    · rw [if_pos hs, offsetAt_distribute, if_neg (by omega), h1]
    · rw [if_neg hs, h1]

theorem offsetAt_zero_fixLoop (sz : Nat) (hsz : 2 ≤ sz) (stops : List GradientStop) (n : Nat) :
    offsetAt (fixLoop sz stops n).stops 0 = offsetAt stops 0 := by
  induction n with
  | zero => rfl
  | succ n ih => rw [fixLoop_succ, offsetAt_zero_fixStep sz hsz, ih]

/-! ## A list without unspecified offsets after the first stop is a fixed point -/

theorem fixLoop_of_nonzero (stops : List GradientStop)
    (hnz : ∀ i, 1 ≤ i → i < stops.length → offsetAt stops i ≠ 0)
    (hfin : offsetAt stops (stops.length - 1) ≠ 0) (n : Nat) (hn : n ≤ stops.length) :
    (fixLoop stops.length stops n).stops = stops ∧ (fixLoop stops.length stops n).splitSt = -1 := by
  induction n with
  | zero => exact ⟨rfl, rfl⟩
  | succ n ih =>
    obtain ⟨ih1, ih2⟩ := ih (by omega)
    rw [fixLoop_succ]
    generalize fixLoop stops.length stops n = st at ih1 ih2
    have h1 : ¬ (n = stops.length - 1 ∧ offsetAt st.stops n = 0) := by
      rintro ⟨ha, hb⟩
      rw [ih1, ha] at hb
      exact hfin hb
    have h2 : ¬ (0 < n ∧ offsetAt st.stops n = 0 ∧ st.splitSt < 0) := by
      rintro ⟨ha, hb, _⟩
      rw [ih1] at hb
      exact hnz n ha (by omega) hb
    have h3 : ¬ (0 : Int) < st.splitSt := by omega
    simp only [fixStep, if_neg h1, if_neg h2, if_neg h3]
    exact ⟨ih1, ih2⟩

theorem fixStops_of_nonzero (stops : List GradientStop)
    (hnz : ∀ i, 1 ≤ i → i < stops.length → offsetAt stops i ≠ 0)
    (hfin : offsetAt stops (stops.length - 1) ≠ 0) :
    fixStops stops = stops := by
  unfold fixStops
  split
  · rfl
  · exact (fixLoop_of_nonzero stops hnz hfin stops.length le_rfl).1

/-! ## Exact arithmetic, non-negative offsets: every offset after the first ends up positive -/

theorem spread_nonneg (a e : ℚ) (m N : Nat) (ha : 0 ≤ a) (he : 0 ≤ e) (hm : m + 1 ≤ N) :
    0 ≤ a + (e - a) / (N : ℚ) + (m : ℚ) * ((e - a) / (N : ℚ)) := by
  have hN : (0 : ℚ) < (N : ℚ) := by
    have : 0 < N := by omega
    exact_mod_cast this
  have hmN : (m : ℚ) + 1 ≤ (N : ℚ) := by exact_mod_cast hm
  have key : a + (e - a) / (N : ℚ) + (m : ℚ) * ((e - a) / (N : ℚ)) =
      (a * ((N : ℚ) - ((m : ℚ) + 1)) + ((m : ℚ) + 1) * e) / (N : ℚ) := by
    field_simp
    ring
  rw [key]
  apply div_nonneg _ hN.le
  have h1 : 0 ≤ a * ((N : ℚ) - ((m : ℚ) + 1)) := mul_nonneg ha (by linarith)
  have h2 : 0 ≤ ((m : ℚ) + 1) * e := mul_nonneg (by positivity) he
  linarith

theorem spread_pos (a e : ℚ) (m N : Nat) (ha : 0 ≤ a) (he : 0 < e) (hm : m + 1 ≤ N) :
    0 < a + (e - a) / (N : ℚ) + (m : ℚ) * ((e - a) / (N : ℚ)) := by
  have hN : (0 : ℚ) < (N : ℚ) := by
    have : 0 < N := by omega
    exact_mod_cast this
  have hmN : (m : ℚ) + 1 ≤ (N : ℚ) := by exact_mod_cast hm
  have key : a + (e - a) / (N : ℚ) + (m : ℚ) * ((e - a) / (N : ℚ)) =
      (a * ((N : ℚ) - ((m : ℚ) + 1)) + ((m : ℚ) + 1) * e) / (N : ℚ) := by
    field_simp
    ring
  rw [key]
  apply div_pos _ hN
  have h1 : 0 ≤ a * ((N : ℚ) - ((m : ℚ) + 1)) := mul_nonneg ha (by linarith)
  have h2 : 0 < ((m : ℚ) + 1) * e := mul_pos (by positivity) he
  linarith

/-- The divisor `float32(1+(i-splitSt))` as a natural number. -/
theorem divisor_cast (i : Nat) (p : Int) (hp : 0 < p) (hpi : p.toNat ≤ i) :
    (((1 + ((i : Int) - p) : Int)) : ℚ) = (((i - p.toNat + 1 : Nat)) : ℚ) := by
  have h : (1 + ((i : Int) - p) : Int) = ((i - p.toNat + 1 : Nat) : Int) := by omega
  rw [h]
  norm_cast

theorem fixLoop_nonneg (stops : List GradientStop) (sz : Nat) (hsz : stops.length = sz)
    (hnn : ∀ j, 0 ≤ offsetAt stops j) (n : Nat) (hn : n + 1 ≤ sz) :
    (∀ j, 0 ≤ offsetAt (fixLoop sz stops n).stops j) ∧ 0 ≤ (fixLoop sz stops n).last ∧
    (((fixLoop sz stops n).splitSt = -1 ∧
        ∀ j, 1 ≤ j → j < n → offsetAt (fixLoop sz stops n).stops j ≠ 0) ∨
     (0 < (fixLoop sz stops n).splitSt ∧ (fixLoop sz stops n).splitSt.toNat < n ∧
        ∀ j, 1 ≤ j → j < (fixLoop sz stops n).splitSt.toNat →
          offsetAt (fixLoop sz stops n).stops j ≠ 0)) := by
  induction n with
  | zero =>
    rw [fixLoop_zero]
    refine ⟨hnn, le_rfl, Or.inl ⟨rfl, fun j h1 h2 => by omega⟩⟩
  | succ n ih =>
    obtain ⟨hnn1, hl, hd⟩ := ih (by omega)
    have hlen := length_fixLoop sz stops n
    rw [fixLoop_succ]
    generalize fixLoop sz stops n = st at hnn1 hl hd hlen
    have hfin : ¬ (n = sz - 1 ∧ offsetAt st.stops n = 0) := fun h => by omega
    simp only [fixStep, if_neg hfin]
    by_cases hc : 0 < n ∧ offsetAt st.stops n = 0 ∧ st.splitSt < 0
    · rw [if_pos hc]
      have hleft : ∀ j, 1 ≤ j → j < n → offsetAt st.stops j ≠ 0 := by
        rcases hd with ⟨_, h⟩ | ⟨h, _⟩
        · exact h
        · omega
      refine ⟨?_, hl, Or.inr ⟨by simp only []; omega, by simp only []; omega, ?_⟩⟩
      · intro j
        rw [offsetAt_setOffset]
        split
        · exact hl
        · exact hnn1 j
      · intro j hj1 hj2
        simp only [Int.toNat_ofNat] at hj2
        rw [offsetAt_setOffset, if_neg (by omega)]
        exact hleft j hj1 hj2
    · rw [if_neg hc]
      by_cases hs : 0 < st.splitSt
      · rw [if_pos hs]
        have hright : st.splitSt.toNat < n ∧
            ∀ j, 1 ≤ j → j < st.splitSt.toNat → offsetAt st.stops j ≠ 0 := by
          rcases hd with ⟨h, _⟩ | ⟨_, h⟩
          · omega
          · exact h
        have hcast := divisor_cast n st.splitSt hs (by omega)
        simp only []
        refine ⟨?_, ?_, Or.inr ⟨hs, by omega, ?_⟩⟩
        · intro j
          rw [offsetAt_distribute]
          split
          · rename_i hr
            rw [hcast]
            exact spread_nonneg _ _ _ _ (hnn1 _) (hnn1 _) (by omega)
          · exact hnn1 j
        · rw [offsetAt_distribute, if_neg (by omega)]
          exact hnn1 n
        · intro j hj1 hj2
          rw [offsetAt_distribute, if_neg (by omega)]
          exact hright.2 j hj1 hj2
      · rw [if_neg hs]
        have hleft : st.splitSt = -1 ∧ ∀ j, 1 ≤ j → j < n → offsetAt st.stops j ≠ 0 := by
          rcases hd with h | ⟨h, _⟩
          · exact h
          · exact absurd h hs
        refine ⟨hnn1, hnn1 n, Or.inl ⟨hleft.1, ?_⟩⟩
        intro j hj1 hj2
        by_cases hjn : j < n
        · exact hleft.2 j hj1 hjn
        · have hjeq : j = n := by omega
          subst hjeq
          intro h0
          exact hc ⟨by omega, h0, by omega⟩

/-- After normalizing a non-empty list of non-negative offsets, every offset
after the first one, and the last one, is positive. -/
theorem fixStops_pos (stops : List GradientStop) (m : Nat) (hsz : stops.length = m + 1)
    (hnn : ∀ j, 0 ≤ offsetAt stops j) (j : Nat) (hj : 1 ≤ j ∨ j = m) (hjm : j ≤ m) :
    0 < offsetAt (fixStops stops) j := by
  obtain ⟨hnn1, hl, hd⟩ := fixLoop_nonneg stops (m + 1) hsz hnn m le_rfl
  have hlen := length_fixLoop (m + 1) stops m
  have hne : ¬ stops.length = 0 := by omega
  rw [fixStops, if_neg hne, hsz, fixLoop_succ]
  generalize fixLoop (m + 1) stops m = st at hnn1 hl hd hlen
  have hs1 : ∃ s1 : List GradientStop,
      (if m = m + 1 - 1 ∧ offsetAt st.stops m = 0 then
        setOffset st.stops m (if st.last < 1 then 1 else st.last) else st.stops) = s1 ∧
      s1.length = m + 1 ∧ (∀ i, 0 ≤ offsetAt s1 i) ∧ 0 < offsetAt s1 m ∧
      (∀ i, i ≠ m → offsetAt s1 i = offsetAt st.stops i) := by
    by_cases he : offsetAt st.stops m = 0
    · have he2 : m = m + 1 - 1 ∧ offsetAt st.stops m = 0 := ⟨by omega, he⟩
      have hv : (0 : ℚ) < (if st.last < 1 then 1 else st.last) := by
        split
        · exact one_pos
        · rename_i h
          linarith
      refine ⟨_, rfl, ?_, ?_, ?_, ?_⟩
      · rw [if_pos he2, length_setOffset, hlen, hsz]
      · intro i
        rw [if_pos he2, offsetAt_setOffset]
        split
        · exact hv.le
        · exact hnn1 i
      · rw [if_pos he2, offsetAt_setOffset, if_pos ⟨rfl, by omega⟩]
        exact hv
      · intro i hi
        rw [if_pos he2, offsetAt_setOffset, if_neg (fun h => hi h.1)]
    · have he2 : ¬ (m = m + 1 - 1 ∧ offsetAt st.stops m = 0) := fun h => he h.2
      refine ⟨_, rfl, ?_, ?_, ?_, ?_⟩
      · rw [if_neg he2, hlen, hsz]
      · rw [if_neg he2]; exact hnn1
      · rw [if_neg he2]
        exact lt_of_le_of_ne (hnn1 m) (Ne.symm he)
      · intro i _
        rw [if_neg he2]
  obtain ⟨s1, hs1eq, hs1len, hs1nn, hs1m, hs1o⟩ := hs1
  simp only [fixStep, hs1eq]
  have hc : ¬ (0 < m ∧ offsetAt s1 m = 0 ∧ st.splitSt < 0) := fun h => by
    have := h.2.1
    linarith
  rw [if_neg hc]
  simp only []
  by_cases hs : 0 < st.splitSt
  · rw [if_pos hs]
    have hright : st.splitSt.toNat < m ∧
        ∀ j, 1 ≤ j → j < st.splitSt.toNat → offsetAt st.stops j ≠ 0 := by
      rcases hd with ⟨h, _⟩ | ⟨_, h⟩
      · omega
      · exact h
    have hcast := divisor_cast m st.splitSt hs (by omega)
    rw [offsetAt_distribute]
    split
    · rw [hcast]
      exact spread_pos _ _ _ _ (hs1nn _) hs1m (by omega)
    · rename_i hr
      by_cases hjeq : j = m
      · rw [hjeq]; exact hs1m
      · have hjp : j < st.splitSt.toNat := by omega
        have h1 : 1 ≤ j := by omega
        rw [hs1o j hjeq]
        exact lt_of_le_of_ne (hnn1 j) (Ne.symm (hright.2 j h1 hjp))
  · rw [if_neg hs]
    have hleft : ∀ j, 1 ≤ j → j < m → offsetAt st.stops j ≠ 0 := by
      rcases hd with ⟨_, h⟩ | ⟨h, _⟩
      · exact h
      · exact absurd h hs
    by_cases hjeq : j = m
    · rw [hjeq]; exact hs1m
    · have h1 : 1 ≤ j := by omega
      rw [hs1o j hjeq]
      exact lt_of_le_of_ne (hnn1 j) (Ne.symm (hleft j h1 (by omega)))

theorem offsetAt_nonneg_of_mem (stops : List GradientStop)
    (h : ∀ s ∈ stops, 0 ≤ s.Offset) (j : Nat) : 0 ≤ offsetAt stops j := by
  unfold offsetAt
  cases hj : stops[j]? with
  | none => exact le_rfl
  | some s => exact h s (List.getElem?_mem hj)

/-- In exact arithmetic a second pass changes nothing on non-negative offsets.
It does not carry over to rounded arithmetic, where a positive offset can be
rounded to 0. -/
theorem fixStops_idem_of_nonneg (stops : List GradientStop)
    (h : ∀ s ∈ stops, 0 ≤ s.Offset) : fixStops (fixStops stops) = fixStops stops := by
  cases hlen : stops.length with
  | zero =>
    have h0 : fixStops stops = stops := by
      unfold fixStops
      rw [if_pos hlen]
    rw [h0, h0]
  | succ m =>
    have hnn := offsetAt_nonneg_of_mem stops h
    have hl : (fixStops stops).length = m + 1 := by rw [length_fixStops, hlen]
    apply fixStops_of_nonzero
    · intro i h1 h2
      exact ne_of_gt (fixStops_pos stops m hlen hnn i (Or.inl h1) (by omega))
    · rw [hl]
      exact ne_of_gt (fixStops_pos stops m hlen hnn m (Or.inr rfl) le_rfl)

/-! ## Claims about `FixGradientStops` -/

/-- C1 (even spacing): on a stop list of length `k + 2` whose first offset is 0,
whose last offset is 1 and whose `k` interior offsets are all 0 (unspecified),
`FixGradientStops` leaves the first offset at 0 and the last at 1 and puts
interior stop `j` (1 ≤ j ≤ k) at exactly `j / (k + 1)`. -/
theorem C1_even_spacing (grad : Gradient) (k : Nat)
    (hlen : grad.Stops.length = k + 2)
    (hfirst : offsetAt grad.Stops 0 = 0)
    (hlast : offsetAt grad.Stops (k + 1) = 1)
    (hmid : ∀ j, 1 ≤ j → j ≤ k → offsetAt grad.Stops j = 0) :
    (FixGradientStops grad).Stops.length = k + 2 ∧
    offsetAt (FixGradientStops grad).Stops 0 = 0 ∧
    offsetAt (FixGradientStops grad).Stops (k + 1) = 1 ∧
    ∀ j, 1 ≤ j → j ≤ k →
      offsetAt (FixGradientStops grad).Stops j = (j : ℚ) / ((k : ℚ) + 1) := by
  have hz : ∀ j, j ≤ k → offsetAt grad.Stops j = 0 := by
    intro j hj
    by_cases h0 : j = 0
    · rw [h0]; exact hfirst
    · exact hmid j (by omega) hj
  have key := fixStops_zero_run grad.Stops k hlen hz
  rw [hlast, if_neg one_ne_zero] at key
  have hk1 : (k : ℚ) + 1 ≠ 0 := by positivity
  refine ⟨?_, ?_, ?_, ?_⟩
  · show (fixStops grad.Stops).length = k + 2
    rw [length_fixStops, hlen]
  · show offsetAt (fixStops grad.Stops) 0 = 0
    rw [key 0 (by omega)]
    simp
  · show offsetAt (fixStops grad.Stops) (k + 1) = 1
    rw [key (k + 1) le_rfl]
    push_cast
    field_simp
  · intro j _ hj
    show offsetAt (fixStops grad.Stops) j = (j : ℚ) / ((k : ℚ) + 1)
    rw [key j (by omega), mul_one]

/-- Witness for C1: the list of offsets `[0, 0, 0, 1]` (`k = 2`). -/
theorem C1_even_spacing_witness :
    (FixGradientStops (gradOf ([0, 0, 0, 1].map stopAt))).Stops.length = 2 + 2 ∧
    offsetAt (FixGradientStops (gradOf ([0, 0, 0, 1].map stopAt))).Stops 0 = 0 ∧
    offsetAt (FixGradientStops (gradOf ([0, 0, 0, 1].map stopAt))).Stops (2 + 1) = 1 ∧
    ∀ j, 1 ≤ j → j ≤ 2 →
      offsetAt (FixGradientStops (gradOf ([0, 0, 0, 1].map stopAt))).Stops j
        = (j : ℚ) / (((2 : Nat) : ℚ) + 1) :=
  C1_even_spacing (gradOf ([0, 0, 0, 1].map stopAt)) 2 rfl rfl rfl
    (by intro j h1 h2; interval_cases j <;> rfl)

/-- C2 (normalization monotonicity), evaluated on the input offsets
`[9/10, 0, 0, 1]`, whose explicit offsets are in order: the normalizer returns
`[9/10, 19/30, 49/60, 1]`, so the second offset is below the first. -/
theorem C2_offsets_decrease :
    offsets (FixGradientStops (gradOf ([9/10, 0, 0, 1].map stopAt)))
        = [9/10, 19/30, 49/60, 1] ∧
      offsetAt (FixGradientStops (gradOf ([9/10, 0, 0, 1].map stopAt))).Stops 1
        < offsetAt (FixGradientStops (gradOf ([9/10, 0, 0, 1].map stopAt))).Stops 0 := by
  constructor <;>
  · simp [offsets, FixGradientStops, fixStops, fixLoop, fixStep, distribute, setOffset,
      offsetAt, gradOf, stopAt, List.range_succ]
    norm_num

/-- C3 (general even distribution), evaluated on the input offsets
`[1/5, 0, 0, 4/5]` (a run of `k = 2` unspecified stops between `a = 1/5` and
`b = 4/5`): the normalizer returns `[1/5, 1/3, 17/30, 4/5]`, not the evenly
distributed `[1/5, 2/5, 3/5, 4/5]`. -/
theorem C3_run_not_even :
    offsets (FixGradientStops (gradOf ([1/5, 0, 0, 4/5].map stopAt)))
        = [1/5, 1/3, 17/30, 4/5] := by
  simp [offsets, FixGradientStops, fixStops, fixLoop, fixStep, distribute, setOffset,
    offsetAt, gradOf, stopAt, List.range_succ]
  norm_num

/-- C4 (explicit positions are kept), evaluated on the input offsets
`[0, 0, 1/2, 4/5, 1]`: the normalizer returns `[0, 23/40, 43/60, 103/120, 1]`,
so the explicit offsets `1/2` and `4/5` are both overwritten. -/
theorem C4_explicit_overwritten :
    offsets (FixGradientStops (gradOf ([0, 0, 1/2, 4/5, 1].map stopAt)))
        = [0, 23/40, 43/60, 103/120, 1] := by
  simp [offsets, FixGradientStops, fixStops, fixLoop, fixStep, distribute, setOffset,
    offsetAt, gradOf, stopAt, List.range_succ]
  norm_num

/-- C5, counterexample: on the input offsets `[-1, 0, 0, 0]` a second
normalization changes the result of the first, from `[-1, 0, 1/2, 1]` to
`[-1, 1/6, 7/12, 1]`. -/
theorem C5_not_idempotent_negative :
    offsets (FixGradientStops (gradOf ([-1, 0, 0, 0].map stopAt))) = [-1, 0, 1/2, 1] ∧
    offsets (FixGradientStops (FixGradientStops (gradOf ([-1, 0, 0, 0].map stopAt))))
      = [-1, 1/6, 7/12, 1] ∧
    FixGradientStops (FixGradientStops (gradOf ([-1, 0, 0, 0].map stopAt)))
      ≠ FixGradientStops (gradOf ([-1, 0, 0, 0].map stopAt)) := by
  have h1 : FixGradientStops (gradOf ([-1, 0, 0, 0].map stopAt))
      = gradOf ([-1, 0, 1/2, 1].map stopAt) := by
    simp [FixGradientStops, fixStops, fixLoop, fixStep, distribute, setOffset,
      offsetAt, gradOf, stopAt, List.range_succ]
    norm_num
  have h2 : offsets (FixGradientStops (gradOf ([-1, 0, 1/2, 1].map stopAt)))
      = [-1, 1/6, 7/12, 1] := by
    simp [offsets, FixGradientStops, fixStops, fixLoop, fixStep, distribute, setOffset,
      offsetAt, gradOf, stopAt, List.range_succ]
    norm_num
  have h3 : offsets (gradOf ([-1, 0, 1/2, 1].map stopAt)) = [-1, 0, 1/2, 1] := by
    simp [offsets, gradOf, stopAt]
  refine ⟨by rw [h1, h3], by rw [h1, h2], ?_⟩
  intro h
  have h4 := congrArg offsets h
  rw [h1, h2, h3] at h4
  norm_num at h4

/-! ## Rounded arithmetic: a list without unspecified offsets is a fixed point -/

theorem distributeR_id (per : ℚ) (n j : Nat) (cur : ℚ) (stops : List GradientStop) :
    distributeR id per n j cur stops = distribute per n j cur stops := by
  induction n generalizing j cur stops with
  | zero => rfl
  | succ n ih =>
    rw [distributeR, distribute, ih]
    rfl

theorem fixStepR_id (sz : Nat) (st : FixState) (i : Nat) :
    fixStepR id sz st i = fixStep sz st i := by
  unfold fixStepR fixStep
  simp only [distributeR_id, id]

theorem fixLoopR_id (sz : Nat) (stops : List GradientStop) (n : Nat) :
    fixLoopR id sz stops n = fixLoop sz stops n := by
  have h : fixStepR id sz = fixStep sz := by
    funext st i
    exact fixStepR_id sz st i
  unfold fixLoopR fixLoop
  rw [h]

/-- With exact arithmetic the rounded loop is `FixGradientStops`. -/
theorem FixGradientStopsR_id (grad : Gradient) :
    FixGradientStopsR id grad = FixGradientStops grad := by
  unfold FixGradientStopsR FixGradientStops fixStopsR fixStops
  simp only [fixLoopR_id]

theorem fixLoopR_succ (rnd : ℚ → ℚ) (sz : Nat) (stops : List GradientStop) (n : Nat) :
    fixLoopR rnd sz stops (n + 1) = fixStepR rnd sz (fixLoopR rnd sz stops n) n := by
  simp [fixLoopR, List.range_succ, List.foldl_append]

theorem fixLoopR_of_nonzero (rnd : ℚ → ℚ) (stops : List GradientStop)
    (hnz : ∀ i, 1 ≤ i → i < stops.length → offsetAt stops i ≠ 0)
    (hfin : offsetAt stops (stops.length - 1) ≠ 0) (n : Nat) (hn : n ≤ stops.length) :
    (fixLoopR rnd stops.length stops n).stops = stops ∧
    (fixLoopR rnd stops.length stops n).splitSt = -1 := by
  induction n with
  | zero => exact ⟨rfl, rfl⟩
  | succ n ih =>
    obtain ⟨ih1, ih2⟩ := ih (by omega)
    rw [fixLoopR_succ]
    generalize fixLoopR rnd stops.length stops n = st at ih1 ih2
    have h1 : ¬ (n = stops.length - 1 ∧ offsetAt st.stops n = 0) := by
      rintro ⟨ha, hb⟩
      rw [ih1, ha] at hb
      exact hfin hb
    have h2 : ¬ (0 < n ∧ offsetAt st.stops n = 0 ∧ st.splitSt < 0) := by
      rintro ⟨ha, hb, _⟩
      rw [ih1] at hb
      exact hnz n ha (by omega) hb
    have h3 : ¬ (0 : Int) < st.splitSt := by omega
    simp only [fixStepR, if_neg h1, if_neg h2, if_neg h3]
    exact ⟨ih1, ih2⟩

/-- Whatever the rounding, the loop writes nothing to a list without
unspecified offsets. -/
theorem fixStopsR_of_zeroFree (rnd : ℚ → ℚ) (stops : List GradientStop)
    (h : zeroFree stops) : fixStopsR rnd stops = stops := by
  unfold fixStopsR
  by_cases hlen : stops.length = 0
  · rw [if_pos hlen]
  · rw [if_neg hlen]
    refine (fixLoopR_of_nonzero rnd stops ?_ ?_ stops.length le_rfl).1
    · intro i h1 h2
      exact h i h2 (Or.inl h1)
    · apply h (stops.length - 1) (by omega)
      by_cases h1 : stops.length = 1
      · exact Or.inr h1
      · exact Or.inl (by omega)

/-- Under rounding a positive offset can be rounded to 0, and idempotence fails
on non-negative offsets as well: with every result rounded to a multiple of
the unit, the offsets `[1, 0, 4, 5, 2, 1]` (in units) are normalized to
`[1, 3, 2, 1, 0, 1]`, and those to `[1, 3, 2, 1, 1, 1]`. -/
theorem fixStopsR_rounded_not_idempotent :
    offsets (FixGradientStopsR roundUnit (gradOf ([1, 0, 4, 5, 2, 1].map stopAt)))
      = [1, 3, 2, 1, 0, 1] ∧
    offsets (FixGradientStopsR roundUnit
        (FixGradientStopsR roundUnit (gradOf ([1, 0, 4, 5, 2, 1].map stopAt))))
      = [1, 3, 2, 1, 1, 1] := by
  have h1 : FixGradientStopsR roundUnit (gradOf ([1, 0, 4, 5, 2, 1].map stopAt))
      = gradOf ([1, 3, 2, 1, 0, 1].map stopAt) := by
    norm_num [FixGradientStopsR, fixStopsR, fixLoopR, fixStepR, distributeR, setOffset,
      offsetAt, gradOf, stopAt, List.range_succ, roundUnit]
  have h4 : Int.toNat 4 = 4 := rfl
  have h2 : offsets (FixGradientStopsR roundUnit (gradOf ([1, 3, 2, 1, 0, 1].map stopAt)))
      = [1, 3, 2, 1, 1, 1] := by
    norm_num [offsets, FixGradientStopsR, fixStopsR, fixLoopR, fixStepR, distributeR, setOffset,
      offsetAt, gradOf, stopAt, List.range_succ, roundUnit, h4]
  have h3 : offsets (gradOf ([1, 3, 2, 1, 0, 1].map stopAt)) = [1, 3, 2, 1, 0, 1] := by
    simp [offsets, gradOf, stopAt]
  exact ⟨by rw [h1, h3], by rw [h1, h2]⟩

/-- C5, amended (idempotence when the first pass leaves no offset 0): whatever
the rounding of the arithmetic, when the stops of the normalized gradient have
no offset 0 (the first stop of a list of two or more stops apart), normalizing
it again changes nothing; more generally the normalizer leaves every gradient
without such an offset unchanged. With exact arithmetic the rounded normalizer
is `FixGradientStops`. -/
theorem C5_idempotent_zero_free (rnd : ℚ → ℚ) (grad : Gradient)
    (h : zeroFree (FixGradientStopsR rnd grad).Stops) :
    FixGradientStopsR rnd (FixGradientStopsR rnd grad) = FixGradientStopsR rnd grad ∧
    (∀ g : Gradient, zeroFree g.Stops → FixGradientStopsR rnd g = g) ∧
    (∀ g : Gradient, FixGradientStopsR id g = FixGradientStops g) := by
  have hfix : ∀ g : Gradient, zeroFree g.Stops → FixGradientStopsR rnd g = g := by
    intro g hg
    unfold FixGradientStopsR
    rw [fixStopsR_of_zeroFree rnd g.Stops hg]
  exact ⟨hfix _ h, hfix, FixGradientStopsR_id⟩

/-- Witness for C5: with exact arithmetic the input offsets `[0, 0, 1]` are
normalized to `[0, 1/2, 1]`, where only the first stop is at offset 0. -/
theorem C5_idempotent_zero_free_witness :
    (FixGradientStopsR id (gradOf ([0, 0, 1].map stopAt))).Stops = [0, 1/2, 1].map stopAt ∧
    zeroFree (FixGradientStopsR id (gradOf ([0, 0, 1].map stopAt))).Stops ∧
    FixGradientStopsR id (FixGradientStopsR id (gradOf ([0, 0, 1].map stopAt)))
      = FixGradientStopsR id (gradOf ([0, 0, 1].map stopAt)) := by
  have h1 : (FixGradientStopsR id (gradOf ([0, 0, 1].map stopAt))).Stops
      = [0, 1/2, 1].map stopAt := by
    simp [FixGradientStopsR, fixStopsR, fixLoopR, fixStepR, distributeR, setOffset,
      offsetAt, gradOf, stopAt, List.range_succ]
    try norm_num
  have h2 : zeroFree (FixGradientStopsR id (gradOf ([0, 0, 1].map stopAt))).Stops := by
    rw [h1]
    intro i hi hpos
    simp only [List.map_cons, List.map_nil, List.length_cons, List.length_nil] at hi hpos
    have hi2 : i = 1 ∨ i = 2 := by omega
    rcases hi2 with rfl | rfl
    · simp [offsetAt, stopAt]
    · simp [offsetAt, stopAt]
  exact ⟨h1, h2, (C5_idempotent_zero_free id (gradOf ([0, 0, 1].map stopAt)) h2).1⟩

/-- C6 (final-stop fixup), evaluated on the input offsets `[0, 3/2, 0, 0, 0]`:
the normalizer returns `[0, 3/2, 5/6, 11/12, 1]`, so the final offset is 1,
below the earlier explicit offset `3/2`. -/
theorem C6_final_regresses :
    offsets (FixGradientStops (gradOf ([0, 3/2, 0, 0, 0].map stopAt)))
        = [0, 3/2, 5/6, 11/12, 1] := by
  simp [offsets, FixGradientStops, fixStops, fixLoop, fixStep, distribute, setOffset,
    offsetAt, gradOf, stopAt, List.range_succ]
  norm_num

/-- C7, counterexample: a list of exactly one stop with offset 0 comes back
with its first (and only) stop at offset 1. -/
theorem C7_single_stop_moves :
    offsetAt (gradOf [stopAt 0]).Stops 0 = 0 ∧
    offsetAt (FixGradientStops (gradOf [stopAt 0])).Stops 0 = 1 ∧
    offsetAt (FixGradientStops (gradOf [stopAt 0])).Stops 0 ≠ 0 := by
  have h : offsetAt (FixGradientStops (gradOf [stopAt 0])).Stops 0 = 1 := by
    simp [FixGradientStops, fixStops, fixLoop, fixStep, setOffset,
      offsetAt, gradOf, stopAt, List.range_succ]
  refine ⟨rfl, h, ?_⟩
  rw [h]
  exact one_ne_zero

/-- C7, amended (first stop is kept): for every stop list of at least two stops,
`FixGradientStops` leaves the first stop's offset as it was on input, so a first
stop with input offset 0 still has offset 0. -/
theorem C7_first_stop_kept (grad : Gradient) (h2 : 2 ≤ grad.Stops.length) :
    offsetAt (FixGradientStops grad).Stops 0 = offsetAt grad.Stops 0 ∧
    (offsetAt grad.Stops 0 = 0 → offsetAt (FixGradientStops grad).Stops 0 = 0) := by
  have h : offsetAt (FixGradientStops grad).Stops 0 = offsetAt grad.Stops 0 := by
    show offsetAt (fixStops grad.Stops) 0 = offsetAt grad.Stops 0
    have hne : ¬ grad.Stops.length = 0 := by omega
    rw [fixStops, if_neg hne]
    exact offsetAt_zero_fixLoop _ h2 _ _
  exact ⟨h, fun h0 => by rw [h, h0]⟩

/-- Witness for C7: the input offsets `[0, 0, 1/2, 4/5, 1]`. -/
theorem C7_first_stop_kept_witness :
    2 ≤ (gradOf ([0, 0, 1/2, 4/5, 1].map stopAt)).Stops.length ∧
    offsetAt (FixGradientStops (gradOf ([0, 0, 1/2, 4/5, 1].map stopAt))).Stops 0
      = offsetAt (gradOf ([0, 0, 1/2, 4/5, 1].map stopAt)).Stops 0 ∧
    (offsetAt (gradOf ([0, 0, 1/2, 4/5, 1].map stopAt)).Stops 0 = 0 →
      offsetAt (FixGradientStops (gradOf ([0, 0, 1/2, 4/5, 1].map stopAt))).Stops 0 = 0) :=
  ⟨by decide, C7_first_stop_kept (gradOf ([0, 0, 1/2, 4/5, 1].map stopAt)) (by decide)⟩

/-! ## Facts about the string functions -/

theorem splitGo_piece (t rest cur : Str) (h : noCommaSpace t = true) :
    splitGo ", ".toList (t ++ ", ".toList ++ rest) cur 0 =
      (cur.reverse ++ t) :: splitGo ", ".toList rest [] 0 := by
  induction t generalizing cur with
  | nil =>
    show splitGo [',', ' '] (',' :: ' ' :: rest) cur 0 = _
    simp [splitGo]
  | cons c t ih =>
    cases t with
    | nil =>
      have h1 : ([c] ++ ", ".toList ++ rest) = c :: ',' :: ' ' :: rest := rfl
      rw [h1]
      have hp : [',', ' '].isPrefixOf (c :: ',' :: ' ' :: rest) = false := by
        simp [List.isPrefixOf]
      have hsep : ", ".toList = [',', ' '] := rfl
      rw [hsep, splitGo, if_neg (by rw [hp]; simp)]
      have := ih (c :: cur) rfl
      simp only [List.nil_append, hsep] at this
      rw [show (',' :: ' ' :: rest) = ([',', ' '] ++ rest) from rfl, this]
      simp
    | cons d r =>
      have hcd : (c == ',' && d == ' ') = false := by
        simp only [noCommaSpace, Bool.and_eq_true, Bool.not_eq_true'] at h
        exact h.1
      have hr : noCommaSpace (d :: r) = true := by
        simp only [noCommaSpace, Bool.and_eq_true] at h
        exact h.2
      have hsep : ", ".toList = [',', ' '] := rfl
      have hp : [',', ' '].isPrefixOf (c :: d :: (r ++ [',', ' '] ++ rest)) = false := by
        simp only [List.isPrefixOf, Bool.and_true]
        rw [Bool.eq_false_iff]
        intro hh
        simp only [Bool.and_eq_true, beq_iff_eq] at hh
        simp [hh.1.symm, hh.2.symm] at hcd
      rw [hsep]
      show splitGo [',', ' '] (c :: d :: (r ++ [',', ' '] ++ rest)) cur 0 = _
      rw [splitGo, if_neg (by rw [hp]; simp)]
      have := ih (c :: cur) hr
      rw [hsep] at this
      simp only [List.cons_append, List.append_assoc] at this ⊢
      rw [this]
      simp

theorem splitGo_last (t cur : Str) (h : noCommaSpace t = true) :
    splitGo ", ".toList t cur 0 = [cur.reverse ++ t] := by
  induction t generalizing cur with
  | nil => simp [splitGo]
  | cons c t ih =>
    have hsep : ", ".toList = [',', ' '] := rfl
    cases t with
    | nil =>
      rw [hsep, splitGo, if_neg (by simp [List.isPrefixOf])]
      simp [splitGo]
    | cons d r =>
      have hcd : (c == ',' && d == ' ') = false := by
        simp only [noCommaSpace, Bool.and_eq_true, Bool.not_eq_true'] at h
        exact h.1
      have hr : noCommaSpace (d :: r) = true := by
        simp only [noCommaSpace, Bool.and_eq_true] at h
        exact h.2
      have hp : [',', ' '].isPrefixOf (c :: d :: r) = false := by
        simp only [List.isPrefixOf, Bool.and_true]
        rw [Bool.eq_false_iff]
        intro hh
        simp only [Bool.and_eq_true, beq_iff_eq] at hh
        simp [hh.1.symm, hh.2.symm] at hcd
      rw [hsep, splitGo, if_neg (by rw [hp]; simp)]
      have := ih (c :: cur) hr
      rw [hsep] at this
      rw [this]
      simp

/-- `Split` undoes `joinSep` on pieces that hold no separator. -/
theorem split_joinSep (ts : List Str) (hne : ts ≠ [])
    (h : ∀ t ∈ ts, noCommaSpace t = true) :
    Split (joinSep ", ".toList ts) ", ".toList = ts := by
  unfold Split
  induction ts with
  | nil => exact absurd rfl hne
  | cons t ts ih =>
    cases ts with
    | nil =>
      rw [joinSep, splitGo_last t [] (h t (List.mem_cons_self _ _))]
      simp
    | cons u us =>
      rw [joinSep, splitGo_piece t _ [] (h t (List.mem_cons_self _ _))]
      rw [ih (by simp) (fun x hx => h x (List.mem_cons_of_mem _ hx))]
      simp

theorem noCommaSpace_of_no_space (t : Str) (h : ∀ c ∈ t, c ≠ ' ') : noCommaSpace t = true := by
  induction t with
  | nil => rfl
  | cons c t ih =>
    cases t with
    | nil => rfl
    | cons d r =>
      have hd : d ≠ ' ' := h d (by simp)
      simp only [noCommaSpace, Bool.and_eq_true, Bool.not_eq_true']
      refine ⟨?_, ih (fun x hx => h x (List.mem_cons_of_mem _ hx))⟩
      simp [hd]

theorem noCommaSpace_append (a b : Str) (ha : ∀ c ∈ a, c ≠ ',') (hb : noCommaSpace b = true) :
    noCommaSpace (a ++ b) = true := by
  induction a with
  | nil => exact hb
  | cons c a ih =>
    have hc : c ≠ ',' := ha c (by simp)
    have ih2 := ih (fun x hx => ha x (List.mem_cons_of_mem _ hx))
    cases hab : a ++ b with
    | nil => simp [hab, noCommaSpace]
    | cons d r =>
      rw [List.cons_append, hab]
      simp only [noCommaSpace, Bool.and_eq_true, Bool.not_eq_true']
      rw [hab] at ih2
      exact ⟨by simp [hc], ih2⟩

/-- The search skips a stretch that does not hold the first character sought. -/
theorem indexFrom_skip (x : Char) (xs a b : Str) (k : Nat) (h : ∀ c ∈ a, c ≠ x) :
    indexFrom (x :: xs) (a ++ b) k = indexFrom (x :: xs) b (k + a.length) := by
  induction a generalizing k with
  | nil => simp
  | cons c a ih =>
    have hc : c ≠ x := h c (by simp)
    have hp : (x :: xs).isPrefixOf (c :: (a ++ b)) = false := by
      simp only [List.isPrefixOf]
      have : (x == c) = false := by
        rw [beq_eq_false_iff_ne]
        exact fun e => hc e.symm
      rw [this]
      rfl
    rw [List.cons_append, indexFrom, if_neg (by rw [hp]; simp),
      ih (k + 1) (fun y hy => h y (List.mem_cons_of_mem _ hy))]
    simp only [List.length_cons]
    congr 1
    omega

theorem indexFrom_none (x : Char) (xs a : Str) (k : Nat) (h : ∀ c ∈ a, c ≠ x) :
    indexFrom (x :: xs) a k = -1 := by
  have := indexFrom_skip x xs a [] k h
  rw [List.append_nil] at this
  rw [this]
  simp [indexFrom, List.isPrefixOf]

theorem trimSpace_ends (c d : Char) (s : Str) (hc : isSpace c = false) (hd : isSpace d = false) :
    TrimSpace (c :: (s ++ [d])) = c :: (s ++ [d]) := by
  unfold TrimSpace
  rw [List.dropWhile_cons_of_neg (by simp [hc])]
  have hrev : (c :: (s ++ [d])).reverse = d :: (s.reverse ++ [c]) := by simp
  rw [hrev, List.dropWhile_cons_of_neg (by simp [hd])]
  simp

theorem trimRight_end (cutset s : Str) (d : Char) (hd : cutset.contains d = false) :
    TrimRight (s ++ [d]) cutset = s ++ [d] := by
  unfold TrimRight
  have hrev : (s ++ [d]).reverse = d :: s.reverse := by simp
  rw [hrev, List.dropWhile_cons_of_neg (by rw [hd]; simp)]
  simp

theorem toLower_append (a b : Str) : ToLower (a ++ b) = ToLower a ++ ToLower b := by
  simp [ToLower]

theorem toLower_joinSep (sep : Str) (ts : List Str) (hsep : ToLower sep = sep)
    (h : ∀ t ∈ ts, ToLower t = t) : ToLower (joinSep sep ts) = joinSep sep ts := by
  induction ts with
  | nil => rfl
  | cons t ts ih =>
    cases ts with
    | nil => exact h t (by simp)
    | cons u us =>
      rw [joinSep, toLower_append, toLower_append, hsep, h t (by simp),
        ih (fun x hx => h x (List.mem_cons_of_mem _ hx))]

/-! ## `SetString` on a descriptor `linear-gradient(<args>)` -/

theorem trimSuffix_paren (args : Str) :
    TrimSuffix (TrimSuffix (args ++ [')']) ");".toList) ")".toList = args := by
  have h1 : HasSuffix (args ++ [')']) ");".toList = false := by
    unfold HasSuffix
    have hrev : (args ++ [')']).reverse = ')' :: args.reverse := by simp
    rw [hrev]
    rfl
  have h2 : HasSuffix (args ++ [')']) ")".toList = true := by
    unfold HasSuffix
    have hrev : (args ++ [')']).reverse = ')' :: args.reverse := by simp
    rw [hrev]
    show [')'].isPrefixOf (')' :: args.reverse) = true
    simp [List.isPrefixOf]
  have h3 : TrimSuffix (args ++ [')']) ");".toList = args ++ [')'] := by
    unfold TrimSuffix
    rw [h1]
    rfl
  rw [h3]
  unfold TrimSuffix
  rw [h2]
  simp

/-- On a cache miss, `SetString` on `linear-gradient(<args>)` with lower-case
arguments creates a linear gradient, parses the arguments into it, normalizes
the stops and stores the result in the cache. -/
theorem SetString_linear (env : Env) (cache : Cache) (f : Full) (args : Str) (ctx : Context)
    (hmiss : cacheGet cache
      (env.AsHex f.Solid ++ ("linear-gradient(".toList ++ args ++ ")".toList)) = none)
    (hlow : ToLower args = args) :
    SetString env cache f ("linear-gradient(".toList ++ args ++ ")".toList) ctx =
      some (true,
        ⟨(parseLinearGrad env f.Solid env.LinearGradient args).Solid,
          some (FixGradientStops (parseLinearGrad env f.Solid env.LinearGradient args).grad)⟩,
        (env.AsHex f.Solid ++ ("linear-gradient(".toList ++ args ++ ")".toList),
          ⟨(parseLinearGrad env f.Solid env.LinearGradient args).Solid,
            some (FixGradientStops (parseLinearGrad env f.Solid env.LinearGradient args).grad)⟩)
          :: cache) := by
  have hd : "linear-gradient(".toList ++ args ++ ")".toList
      = 'l' :: ("inear-gradient(".toList ++ args ++ [')']) := rfl
  have htrim : TrimSpace ("linear-gradient(".toList ++ args ++ ")".toList)
      = "linear-gradient(".toList ++ args ++ ")".toList := by
    rw [hd]
    exact trimSpace_ends _ _ _ (by decide) (by decide)
  have hurl : HasPrefix ("linear-gradient(".toList ++ args ++ ")".toList) "url(".toList = false := by
    rw [hd]
    rfl
  have hlower : ToLower ("linear-gradient(".toList ++ args ++ ")".toList)
      = "linear-gradient(".toList ++ args ++ ")".toList := by
    rw [toLower_append, toLower_append, hlow]
    rfl
  have hsplit : "linear-gradient(".toList ++ args ++ ")".toList
      = "linear".toList ++ ("-gradient(".toList ++ args ++ [')']) := rfl
  have hidx : Index ("linear-gradient(".toList ++ args ++ ")".toList) "-gradient".toList = 6 := by
    rw [hsplit]
    unfold Index
    have hx : "-gradient".toList = '-' :: "gradient".toList := rfl
    rw [hx, indexFrom_skip '-' _ "linear".toList _ 0 (by decide)]
    rfl
  have hpidx : IndexByte ("(".toList ++ args ++ [')']) '(' = 0 := by
    show indexFrom ['('] ('(' :: (args ++ [')'])) 0 = 0
    simp [indexFrom, List.isPrefixOf]
  unfold SetString
  simp only [hmiss, htrim, hurl, hlower, hidx, Bool.false_eq_true, if_false]
  have h6 : (0 : Int) < 6 := by decide
  rw [if_pos h6]
  have htake : List.take (6 : Int).toNat ("linear-gradient(".toList ++ args ++ ")".toList)
      = "linear".toList := by
    rw [hsplit]
    rfl
  have hdrop : List.drop ((6 : Int).toNat + "-gradient".toList.length)
      ("linear-gradient(".toList ++ args ++ ")".toList) = "(".toList ++ args ++ [')'] := rfl
  rw [htake, hdrop, hpidx]
  have h0 : ¬ ((0 : Int) < 0) := by decide
  rw [if_neg h0]
  have hdrop1 : List.drop ((0 : Int).toNat + 1) ("(".toList ++ args ++ [')']) = args ++ [')'] := rfl
  rw [hdrop1, trimSuffix_paren]
  have hg : setGradient env f "linear".toList args
      = ⟨(parseLinearGrad env f.Solid env.LinearGradient args).Solid,
          some (parseLinearGrad env f.Solid env.LinearGradient args).grad⟩ := by
    unfold setGradient
    rw [if_neg (by decide), if_pos rfl]
  rw [hg]

/-! ## Unpositioned colour stops -/

theorem fixStops_all_zero (cols : List RGBA) (h : 2 ≤ cols.length) :
    fixStops (cols.map (fun c => (⟨c, 0, 1⟩ : GradientStop))) = evenStops cols := by
  obtain ⟨k, hk⟩ : ∃ k, cols.length = k + 2 := ⟨cols.length - 2, by omega⟩
  have hlen : (cols.map (fun c => (⟨c, 0, 1⟩ : GradientStop))).length = k + 2 := by
    rw [List.length_map, hk]
  have hoff : ∀ j, offsetAt (cols.map (fun c => (⟨c, 0, 1⟩ : GradientStop))) j = 0 := by
    intro j
    unfold offsetAt
    rw [List.getElem?_map]
    cases cols[j]? <;> rfl
  have key := fixStops_zero_run _ k hlen (fun j _ => hoff j)
  have hfr := frameOf_fixStops (cols.map (fun c => (⟨c, 0, 1⟩ : GradientStop)))
  have hl2 := length_fixStops (cols.map (fun c => (⟨c, 0, 1⟩ : GradientStop)))
  generalize fixStops (cols.map (fun c => (⟨c, 0, 1⟩ : GradientStop))) = r at key hfr hl2
  rw [hoff, if_pos rfl] at key
  apply List.ext_getElem?
  intro j
  unfold evenStops
  rw [List.getElem?_map]
  by_cases hj : j < cols.length
  · have hjr : j < r.length := by rw [hl2, hlen]; omega
    rw [List.getElem?_range hj, List.getElem?_eq_getElem hjr]
    simp only [Option.map_some']
    have ho := key j (by omega)
    simp only [offsetAt, List.getElem?_eq_getElem hjr] at ho
    have hf := congrArg (fun l => l[j]?) hfr
    simp only [frameOf, List.getElem?_map, List.getElem?_eq_getElem hjr,
      List.getElem?_eq_getElem hj, Option.map_some', Option.some.injEq, Prod.mk.injEq] at hf
    have hgd : cols.getD j Black = cols[j] := by
      rw [List.getD_eq_getElem?_getD, List.getElem?_eq_getElem hj]
      rfl
    have hden : ((cols.length : ℚ) - 1) = (k : ℚ) + 1 := by
      rw [hk]; push_cast; ring
    rw [hgd, hden]
    cases hx : r[j] with
    | mk c o p =>
      rw [hx] at ho hf
      simp only at ho hf
      rw [ho, hf.1, hf.2, mul_one]
  · have hjr : ¬ j < r.length := by rw [hl2, hlen]; omega
    rw [List.getElem?_eq_none (by omega), List.getElem?_eq_none (by simp; omega)]
    rfl

theorem hasPrefix_to_false (t : Str) (h : ∀ c ∈ t, c ≠ ' ') :
    HasPrefix t "to ".toList = false := by
  rw [Bool.eq_false_iff]
  intro hp
  unfold HasPrefix at hp
  rw [List.isPrefixOf_iff_prefix] at hp
  exact h ' ' (hp.subset (by decide)) rfl

theorem plainToken_spec (t : Str) (h : plainToken t = true) :
    (∀ c ∈ t, c ≠ ' ') ∧ TrimSpace t = t ∧ ToLower t = t ∧ TrimRight t ",".toList = t ∧
    Contains t "deg".toList = false ∧ HasPrefix t ")".toList = false ∧
    HasPrefix t "clearer-".toList = false ∧ (t == "transparent".toList) = false := by
  simp only [plainToken, Bool.and_eq_true, List.all_eq_true, bne_iff_ne, ne_eq, beq_iff_eq,
    Bool.not_eq_true', decide_eq_true_eq] at h
  obtain ⟨⟨⟨⟨⟨⟨⟨h1, h2⟩, h3⟩, h4⟩, h5⟩, h6⟩, h7⟩, h8⟩ := h
  refine ⟨fun c hc => (h1 c hc).1, h2, h3, h4, h5, h6, h7, ?_⟩
  rw [beq_eq_false_iff_ne]
  exact h8

/-- A plain token that the resolver accepts adds one stop with that colour,
offset 0 (unspecified) and opacity 1. -/
theorem linearSeg_plain (env : Env) (st : ParseState) (t : Str) (c : RGBA)
    (hidx : st.stopIdx = st.grad.Stops.length)
    (hplain : plainToken t = true)
    (hc : env.FromString t (some (if st.stopIdx = 0 then st.Solid else st.prevColor)) = some c) :
    linearSeg env st t =
      some ⟨if st.stopIdx = 0 then AsRGBA c else st.Solid,
        withStops st.grad (st.grad.Stops ++ [⟨c, 0, 1⟩]), c, st.stopIdx + 1⟩ := by
  obtain ⟨h1, h2, h3, h4, h5, h6, h7, h8⟩ := plainToken_spec t hplain
  have hto := hasPrefix_to_false t h1
  have hsp : Index t " ".toList = -1 := indexFrom_none ' ' [] t 0 h1
  have hslot : st.grad.Stops[st.stopIdx]? = none := by
    rw [List.getElem?_eq_none (by omega)]
  have hpcs : parseColorStop env ⟨Black, 0, 1⟩ (if st.stopIdx = 0 then st.Solid else st.prevColor) t
      = (⟨c, 0, 1⟩, true) := by
    have h7e : HasPrefix t ['c', 'l', 'e', 'a', 'r', 'e', 'r', '-'] = false := h7
    have h8e : ¬ t = ['t', 'r', 'a', 'n', 's', 'p', 'a', 'r', 'e', 'n', 't'] := by
      intro e
      rw [e] at h8
      exact absurd h8 (by decide)
    have hspe : Index t [' '] = -1 := hsp
    unfold parseColorStop
    simp [hspe, h7e, h8e, hc]
  unfold linearSeg
  simp only [h2, h4, h5, hto, h6, Bool.false_eq_true, if_false]
  unfold colorStopSeg
  simp only [hslot, hpcs, if_true]
  have hlt : ¬ st.stopIdx < st.grad.Stops.length := by omega
  have hle : st.grad.Stops.length ≤ st.stopIdx := by omega
  simp only [if_neg hlt, if_pos hle]

theorem resolveChain_length (env : Env) (prev : RGBA) (toks : List Str) (cols : List RGBA)
    (h : resolveChain env prev toks = some cols) : cols.length = toks.length := by
  induction toks generalizing prev cols with
  | nil =>
    simp only [resolveChain, Option.some.injEq] at h
    rw [← h]
    rfl
  | cons t ts ih =>
    rw [resolveChain] at h
    cases hc : env.FromString t (some prev) with
    | none => rw [hc] at h; simp at h
    | some c =>
      rw [hc] at h
      simp only [] at h
      cases hr : resolveChain env c ts with
      | none => rw [hr] at h; simp at h
      | some cs =>
        rw [hr] at h
        simp only [Option.some.injEq] at h
        rw [← h, List.length_cons, List.length_cons, ih c cs hr]

/-- The segment loop on plain tokens that the resolver accepts appends one
unpositioned stop per token. -/
theorem linearLoop_plain (env : Env) (toks : List Str) (st : ParseState) (cols : List RGBA)
    (hidx : st.stopIdx = st.grad.Stops.length)
    (hplain : ∀ t ∈ toks, plainToken t = true)
    (hres : resolveChain env (if st.stopIdx = 0 then st.Solid else st.prevColor) toks
      = some cols) :
    (linearLoop env toks st).Solid
        = (if st.stopIdx = 0 then (cols.map AsRGBA).headD st.Solid else st.Solid) ∧
      (linearLoop env toks st).grad
        = withStops st.grad (st.grad.Stops ++ cols.map (fun c => (⟨c, 0, 1⟩ : GradientStop))) ∧
      (linearLoop env toks st).stopIdx = (linearLoop env toks st).grad.Stops.length := by
  induction toks generalizing st cols with
  | nil =>
    simp only [resolveChain, Option.some.injEq] at hres
    subst hres
    refine ⟨by simp [linearLoop], ?_, ?_⟩
    · simp [linearLoop, withStops]
    · simpa [linearLoop] using hidx
  | cons t ts ih =>
    rw [resolveChain] at hres
    cases hc : env.FromString t (some (if st.stopIdx = 0 then st.Solid else st.prevColor)) with
    | none => rw [hc] at hres; simp at hres
    | some c =>
      rw [hc] at hres
      simp only [] at hres
      cases hr : resolveChain env c ts with
      | none => rw [hr] at hres; simp at hres
      | some cs =>
        rw [hr] at hres
        simp only [Option.some.injEq] at hres
        subst hres
        have hseg := linearSeg_plain env st t c hidx (hplain t (by simp)) hc
        rw [linearLoop, hseg]
        simp only []
        have hidx1 : (⟨if st.stopIdx = 0 then AsRGBA c else st.Solid,
            withStops st.grad (st.grad.Stops ++ [⟨c, 0, 1⟩]), c, st.stopIdx + 1⟩ : ParseState).stopIdx
            = (⟨if st.stopIdx = 0 then AsRGBA c else st.Solid,
            withStops st.grad (st.grad.Stops ++ [⟨c, 0, 1⟩]), c, st.stopIdx + 1⟩ : ParseState).grad.Stops.length := by
          simp [withStops, hidx]
        have hne : ¬ (st.stopIdx + 1 = 0) := by omega
        have ih1 := ih _ cs hidx1 (fun x hx => hplain x (List.mem_cons_of_mem _ hx))
          (by simp only [if_neg hne]; exact hr)
        obtain ⟨i1, i2, i3⟩ := ih1
        refine ⟨?_, ?_, i3⟩
        · rw [i1]
          simp
        · rw [i2]
          simp [withStops]

theorem linearSeg_45deg (env : Env) (st : ParseState) :
    linearSeg env st "45deg".toList =
      some ⟨st.Solid, withBounds st.grad ⟨⟨0, 1⟩, ⟨1, 0⟩⟩, st.prevColor, st.stopIdx⟩ := rfl

theorem truncStops_of_eq (st : ParseState) (h : st.stopIdx = st.grad.Stops.length) :
    truncStops st = st := by
  unfold truncStops
  rw [if_neg (by omega)]

theorem bounds_colorStopSeg (env : Env) (st : ParseState) (par : Str) :
    (colorStopSeg env st par).grad.Bounds = st.grad.Bounds := by
  unfold colorStopSeg
  simp only []
  split_ifs <;> rfl

theorem colorStopSeg_withBounds (env : Env) (st : ParseState) (b : Box2) (par : Str) :
    colorStopSeg env ⟨st.Solid, withBounds st.grad b, st.prevColor, st.stopIdx⟩ par
      = ⟨(colorStopSeg env st par).Solid, withBounds (colorStopSeg env st par).grad b,
          (colorStopSeg env st par).prevColor, (colorStopSeg env st par).stopIdx⟩ := by
  unfold colorStopSeg
  simp only [withBounds, withStops]
  split_ifs <;> rfl

theorem truncStops_withBounds (st : ParseState) (b : Box2) :
    truncStops ⟨st.Solid, withBounds st.grad b, st.prevColor, st.stopIdx⟩
      = ⟨(truncStops st).Solid, withBounds (truncStops st).grad b,
          (truncStops st).prevColor, (truncStops st).stopIdx⟩ := by
  unfold truncStops
  simp only [withBounds, withStops]
  split_ifs <;> rfl

theorem bounds_truncStops (st : ParseState) : (truncStops st).grad.Bounds = st.grad.Bounds := by
  unfold truncStops
  split <;> rfl

theorem drop_length_succ (a : Str) (x : Char) (b : Str) :
    List.drop (a.length + 1) (a ++ x :: b) = b := by
  induction a with
  | nil => rfl
  | cons c a ih => simp

theorem digit_ne (c x : Char) (h : isDigitChar c = true) (hx : isDigitChar x = false) : c ≠ x := by
  intro e
  rw [e, hx] at h
  exact absurd h (by decide)

theorem toLower_digits (ds : Str) (h : ∀ c ∈ ds, isDigitChar c = true) : ToLower ds = ds := by
  unfold ToLower
  conv_rhs => rw [← List.map_id ds]
  apply List.map_congr_left
  intro c hc
  have hd := h c hc
  simp only [isDigitChar, decide_eq_true_eq] at hd
  simp only [Char.toLower, id]
  rw [if_neg (by omega)]

/-- The segment `clearer-N red` is not a colour stop: the text after its first
space is read as the offset, and `red` is not a number. -/
theorem linearSeg_clearer_red (env : Env) (st : ParseState) (ds : Str)
    (hidx : st.stopIdx = st.grad.Stops.length)
    (hds : ∀ c ∈ ds, isDigitChar c = true)
    (hnum : (env.ParseFloat "red".toList).2 = true) :
    linearSeg env st ("clearer-".toList ++ ds ++ " red".toList) =
      some ⟨st.Solid, st.grad, if st.stopIdx = 0 then st.Solid else st.prevColor, st.stopIdx⟩ := by
  have hform : "clearer-".toList ++ ds ++ " red".toList
      = 'c' :: (("learer-".toList ++ ds ++ " re".toList) ++ ['d']) := by
    simp
  have hform2 : "clearer-".toList ++ ds ++ " red".toList
      = ("clearer-".toList ++ ds ++ " re".toList) ++ ['d'] := by
    simp
  have htrim : TrimSpace ("clearer-".toList ++ ds ++ " red".toList)
      = "clearer-".toList ++ ds ++ " red".toList := by
    rw [hform]
    exact trimSpace_ends _ _ _ (by decide) (by decide)
  have htr : TrimRight ("clearer-".toList ++ ds ++ " red".toList) ",".toList
      = "clearer-".toList ++ ds ++ " red".toList := by
    rw [hform2]
    exact trimRight_end _ _ _ (by decide)
  have hdeg : Contains ("clearer-".toList ++ ds ++ " red".toList) "deg".toList = false := by
    unfold Contains Index
    rw [hform2]
    have hx : "deg".toList = 'd' :: "eg".toList := rfl
    rw [hx, indexFrom_skip 'd' _ _ _ 0]
    · simp [indexFrom, List.isPrefixOf]
    · intro c hc
      simp only [List.mem_append] at hc
      rcases hc with (hc | hc) | hc
      · revert c; decide
      · exact digit_ne c 'd' (hds c hc) (by decide)
      · revert c; decide
  have hto : HasPrefix ("clearer-".toList ++ ds ++ " red".toList) "to ".toList = false := by
    rw [hform]; rfl
  have hpar : HasPrefix ("clearer-".toList ++ ds ++ " red".toList) ")".toList = false := by
    rw [hform]; rfl
  have hsp : Index ("clearer-".toList ++ ds ++ " red".toList) [' ']
      = ((0 + ("clearer-".toList ++ ds).length : Nat) : Int) := by
    unfold Index
    rw [indexFrom_skip ' ' [] ("clearer-".toList ++ ds) " red".toList 0]
    · simp [indexFrom, List.isPrefixOf]
    · intro c hc
      simp only [List.mem_append] at hc
      rcases hc with hc | hc
      · revert c; decide
      · exact digit_ne c ' ' (hds c hc) (by decide)
  have hpos : (0 : Int) < ((0 + ("clearer-".toList ++ ds).length : Nat) : Int) := by
    simp only [List.length_append]
    have : 0 < "clearer-".toList.length := by decide
    omega
  have hdrop : List.drop (((0 + ("clearer-".toList ++ ds).length : Nat) : Int).toNat + 1)
      ("clearer-".toList ++ ds ++ " red".toList) = "red".toList := by
    rw [Int.toNat_ofNat, Nat.zero_add]
    have : "clearer-".toList ++ ds ++ " red".toList
        = ("clearer-".toList ++ ds) ++ (' ' :: "red".toList) := by simp
    rw [this]
    exact drop_length_succ _ _ _
  have hrf : (readFraction env (TrimSpace "red".toList)).2 = true := by
    have h1 : TrimSpace "red".toList = "red".toList := rfl
    have h2 : HasSuffix "red".toList "%".toList = false := rfl
    unfold readFraction
    simp only [h1, h2, Bool.false_eq_true, if_false]
    exact hnum
  have hslot : st.grad.Stops[st.stopIdx]? = none := by
    rw [List.getElem?_eq_none (by omega)]
  have hpcs : (parseColorStop env ⟨Black, 0, 1⟩ (if st.stopIdx = 0 then st.Solid else st.prevColor)
      ("clearer-".toList ++ ds ++ " red".toList)).2 = false := by
    unfold parseColorStop
    have hspe : Index ("clearer-".toList ++ ds ++ " red".toList) " ".toList
      = ((0 + ("clearer-".toList ++ ds).length : Nat) : Int) := hsp
    simp only [hspe, if_pos hpos, hdrop, hrf, if_true]
  unfold linearSeg
  simp only [htrim, htr, hdeg, hto, hpar, Bool.false_eq_true, if_false]
  unfold colorStopSeg
  simp only [hslot, hpcs, Bool.false_eq_true, if_false]
  have hlt : ¬ st.stopIdx < st.grad.Stops.length := by omega
  simp only [if_neg hlt]
  rfl

/-! ## Claims about the CSS descriptor parser -/

/-- C8, counterexample: with an unset (zero) base colour the descriptor
`linear-gradient(45deg, transparent, blue)`, whose tokens hold no space and are
both accepted by the resolver, gives a first stop of opacity 0, not 1. -/
theorem C8_transparent_on_unset_base :
    sampleEnv.FromString "transparent".toList (some ⟨0, 0, 0, 0⟩) = some ⟨0, 0, 0, 0⟩ ∧
    sampleEnv.FromString "blue".toList (some ⟨0, 0, 0, 0⟩) = some blue ∧
    (SetString sampleEnv [] ⟨⟨0, 0, 0, 0⟩, none⟩
        "linear-gradient(45deg, transparent, blue)".toList none).map
      (fun r => (r.1, r.2.1.Gradient.map (fun g => g.Stops)))
      = some (true, some [⟨⟨0, 0, 0, 0⟩, 0, 0⟩, ⟨blue, 1, 1⟩]) := by
  refine ⟨rfl, rfl, ?_⟩
  have hd : "linear-gradient(45deg, transparent, blue)".toList
      = "linear-gradient(".toList ++ "45deg, transparent, blue".toList ++ ")".toList := rfl
  have hp : parseLinearGrad sampleEnv ⟨0, 0, 0, 0⟩ sampleEnv.LinearGradient
      "45deg, transparent, blue".toList
      = ⟨⟨0, 0, 0, 0⟩, withStops (withBounds sampleEnv.LinearGradient ⟨⟨0, 1⟩, ⟨1, 0⟩⟩)
          [⟨⟨0, 0, 0, 0⟩, 0, 0⟩, ⟨blue, 0, 1⟩], blue, 2⟩ := rfl
  rw [hd, SetString_linear sampleEnv [] _ _ none rfl rfl, hp]
  simp [FixGradientStops, withStops, fixStops, fixLoop, fixStep, distribute, setOffset,
    offsetAt, List.range_succ]

/-- C8, amended (CSS linear parse of unpositioned stops): on a cache miss, for
`n ≥ 2` plain colour tokens `c1 .. cn` (lower case, no white space, no trailing
comma, no `deg` inside, no leading `)`, not a relative keyword) that the
resolver accepts, each with the colour before it as base, and a constructor
`LinearGradient()` that returns no stops, `SetString` on
`linear-gradient(45deg, c1, ..., cn)` returns true, sets the solid colour to
the first colour and produces the linear gradient with bounds Min = (0,1),
Max = (1,0) and exactly `n` stops in input order, stop `j` (from 0) having the
resolver's colour, opacity 1 and offset `j / (n - 1)`. -/
theorem C8_linear_unpositioned (env : Env) (cache : Cache) (f : Full) (ctx : Context)
    (toks : List Str) (cols : List RGBA)
    (hn : 2 ≤ toks.length)
    (hplain : ∀ t ∈ toks, plainToken t = true)
    (hres : resolveChain env f.Solid toks = some cols)
    (hfresh : env.LinearGradient.Stops = [])
    (hmiss : cacheGet cache (env.AsHex f.Solid ++
      ("linear-gradient(".toList ++ joinSep ", ".toList ("45deg".toList :: toks) ++ ")".toList))
        = none) :
    (evenStops cols).length = toks.length ∧
    ∃ cache1, SetString env cache f
      ("linear-gradient(".toList ++ joinSep ", ".toList ("45deg".toList :: toks) ++ ")".toList) ctx
      = some (true,
          ⟨(cols.map AsRGBA).headD f.Solid,
            some (withStops (withBounds env.LinearGradient ⟨⟨0, 1⟩, ⟨1, 0⟩⟩) (evenStops cols))⟩,
          cache1) := by
  have hlen := resolveChain_length env f.Solid toks cols hres
  refine ⟨by simp [evenStops, hlen], ?_⟩
  have hall : ∀ t ∈ "45deg".toList :: toks, ToLower t = t := by
    intro t ht
    rcases List.mem_cons.1 ht with rfl | ht
    · rfl
    · exact (plainToken_spec t (hplain t ht)).2.2.1
  have hlow := toLower_joinSep ", ".toList ("45deg".toList :: toks) rfl hall
  have hncs : ∀ t ∈ "45deg".toList :: toks, noCommaSpace t = true := by
    intro t ht
    rcases List.mem_cons.1 ht with rfl | ht
    · rfl
    · exact noCommaSpace_of_no_space t (plainToken_spec t (hplain t ht)).1
  have hsplit := split_joinSep ("45deg".toList :: toks) (by simp) hncs
  have hidx : (⟨f.Solid, withBounds env.LinearGradient ⟨⟨0, 1⟩, ⟨1, 0⟩⟩, ⟨0, 0, 0, 0⟩, 0⟩
      : ParseState).stopIdx
      = (⟨f.Solid, withBounds env.LinearGradient ⟨⟨0, 1⟩, ⟨1, 0⟩⟩, ⟨0, 0, 0, 0⟩, 0⟩
      : ParseState).grad.Stops.length := by
    simp [withBounds, hfresh]
  obtain ⟨l1, l2, l3⟩ := linearLoop_plain env toks _ cols hidx hplain (by simpa using hres)
  have hparse : parseLinearGrad env f.Solid env.LinearGradient
      (joinSep ", ".toList ("45deg".toList :: toks))
      = linearLoop env toks
          ⟨f.Solid, withBounds env.LinearGradient ⟨⟨0, 1⟩, ⟨1, 0⟩⟩, ⟨0, 0, 0, 0⟩, 0⟩ := by
    unfold parseLinearGrad
    rw [hsplit, linearLoop, linearSeg_45deg]
    exact truncStops_of_eq _ l3
  have hset := SetString_linear env cache f _ ctx hmiss hlow
  rw [hparse, l1, l2] at hset
  have hfix : FixGradientStops (withStops (withBounds env.LinearGradient ⟨⟨0, 1⟩, ⟨1, 0⟩⟩)
      ((withBounds env.LinearGradient ⟨⟨0, 1⟩, ⟨1, 0⟩⟩).Stops
        ++ cols.map (fun c => (⟨c, 0, 1⟩ : GradientStop))))
      = withStops (withBounds env.LinearGradient ⟨⟨0, 1⟩, ⟨1, 0⟩⟩) (evenStops cols) := by
    simp only [FixGradientStops, withStops, withBounds, hfresh, List.nil_append]
    rw [fixStops_all_zero cols (by omega)]
  simp only [hfix, if_true] at hset
  exact ⟨_, hset⟩

/-- Witness for C8: `linear-gradient(45deg, red, blue)` with base colour red
gives red at offset 0 and blue at offset 1, bounds Min = (0,1), Max = (1,0). -/
theorem C8_linear_unpositioned_witness :
    (evenStops [red, blue]).length = ["red".toList, "blue".toList].length ∧
    ∃ cache1, SetString sampleEnv [] ⟨red, none⟩
      ("linear-gradient(".toList
        ++ joinSep ", ".toList ("45deg".toList :: ["red".toList, "blue".toList])
        ++ ")".toList) none
      = some (true,
          ⟨([red, blue].map AsRGBA).headD red,
            some (withStops (withBounds sampleEnv.LinearGradient ⟨⟨0, 1⟩, ⟨1, 0⟩⟩)
              (evenStops [red, blue]))⟩,
          cache1) :=
  C8_linear_unpositioned sampleEnv [] ⟨red, none⟩ none ["red".toList, "blue".toList]
    [red, blue] (by decide) (by decide) rfl rfl rfl

/-- C9 (malformed angle is ignored), evaluated for every receiver: after
`parseLinearGrad` on the argument list `37deg, red, blue` the bounds are the
all-zero box, whatever they were before; on `to right, 37deg, red, blue` the
bounds are the all-zero box as well, while with the angle segment removed
(`to right, red, blue`) they are (0,0), (1,0). The stops are those of the
argument list without the angle segment. -/
theorem C9_malformed_angle_zeroes_bounds (env : Env) (solid : RGBA) (grad : Gradient) :
    (parseLinearGrad env solid grad "37deg, red, blue".toList).grad.Bounds
        = ⟨⟨0, 0⟩, ⟨0, 0⟩⟩ ∧
    (parseLinearGrad env solid grad "to right, 37deg, red, blue".toList).grad.Bounds
        = ⟨⟨0, 0⟩, ⟨0, 0⟩⟩ ∧
    (parseLinearGrad env solid grad "to right, red, blue".toList).grad.Bounds
        = ⟨⟨0, 0⟩, ⟨1, 0⟩⟩ ∧
    (parseLinearGrad env solid grad "37deg, red, blue".toList).grad.Stops
        = (parseLinearGrad env solid grad "red, blue".toList).grad.Stops := by
  have hsplit : Split "37deg, red, blue".toList ", ".toList
      = ["37deg".toList, "red".toList, "blue".toList] := rfl
  have hsplit2 : Split "red, blue".toList ", ".toList = ["red".toList, "blue".toList] := rfl
  have hsplit3 : Split "to right, 37deg, red, blue".toList ", ".toList
      = ["to right".toList, "37deg".toList, "red".toList, "blue".toList] := rfl
  have hsplit4 : Split "to right, red, blue".toList ", ".toList
      = ["to right".toList, "red".toList, "blue".toList] := rfl
  have hseg : ∀ st : ParseState, linearSeg env st "37deg".toList
      = some ⟨st.Solid, withBounds st.grad ⟨⟨0, 0⟩, ⟨0, 0⟩⟩, st.prevColor, st.stopIdx⟩ :=
    fun _ => rfl
  have hright : ∀ st : ParseState, linearSeg env st "to right".toList
      = some ⟨st.Solid, withBounds st.grad ⟨⟨0, 0⟩, ⟨1, 0⟩⟩, st.prevColor, st.stopIdx⟩ :=
    fun _ => rfl
  have hcol : ∀ (st : ParseState) (t : Str), t = "red".toList ∨ t = "blue".toList →
      linearSeg env st t = some (colorStopSeg env st t) := by
    intro st t ht
    rcases ht with rfl | rfl <;> rfl
  refine ⟨?_, ?_, ?_, ?_⟩
  · unfold parseLinearGrad
    rw [hsplit]
    simp only [linearLoop, hseg, hcol _ _ (Or.inl rfl), hcol _ _ (Or.inr rfl)]
    rw [bounds_truncStops, bounds_colorStopSeg, bounds_colorStopSeg]
    rfl
  · unfold parseLinearGrad
    rw [hsplit3]
    simp only [linearLoop, hseg, hright, hcol _ _ (Or.inl rfl), hcol _ _ (Or.inr rfl)]
    rw [bounds_truncStops, bounds_colorStopSeg, bounds_colorStopSeg]
    rfl
  · unfold parseLinearGrad
    rw [hsplit4]
    simp only [linearLoop, hright, hcol _ _ (Or.inl rfl), hcol _ _ (Or.inr rfl)]
    rw [bounds_truncStops, bounds_colorStopSeg, bounds_colorStopSeg]
    rfl
  · unfold parseLinearGrad
    rw [hsplit, hsplit2]
    simp only [linearLoop, hseg, hcol _ _ (Or.inl rfl), hcol _ _ (Or.inr rfl)]
    rw [colorStopSeg_withBounds env ⟨solid, grad, ⟨0, 0, 0, 0⟩, 0⟩, colorStopSeg_withBounds,
      truncStops_withBounds]
    rfl

/-- C10, counterexample: with base colour red,
`linear-gradient(to right, red, clearer-50 red)` gives one stop only, red with
opacity 1 (normalized to offset 1): the segment `clearer-50 red` is rejected. -/
theorem C10_clearer_scenario_one_stop :
    (SetString sampleEnv [] ⟨red, none⟩
        "linear-gradient(to right, red, clearer-50 red)".toList none).map
      (fun r => (r.1, r.2.1.Gradient.map (fun g => g.Stops)))
      = some (true, some [⟨red, 1, 1⟩]) := by
  have hd : "linear-gradient(to right, red, clearer-50 red)".toList
      = "linear-gradient(".toList ++ "to right, red, clearer-50 red".toList ++ ")".toList := rfl
  have hp : parseLinearGrad sampleEnv red sampleEnv.LinearGradient
      "to right, red, clearer-50 red".toList
      = ⟨red, withStops (withBounds sampleEnv.LinearGradient ⟨⟨0, 0⟩, ⟨1, 0⟩⟩)
          [⟨red, 0, 1⟩], red, 1⟩ := rfl
  rw [hd, SetString_linear sampleEnv [] _ _ none rfl rfl, hp]
  simp [FixGradientStops, withStops, fixStops, fixLoop, fixStep, setOffset,
    offsetAt, List.range_succ]

/-- C10, amended (relative-keyword scenario): on a cache miss, with a resolver
that accepts `red`, a number reader that rejects the text `red`, and a
constructor `LinearGradient()` that returns no stops, `SetString` on
`linear-gradient(to right, red, clearer-N red)`, for every run of decimal
digits `N`, returns true and produces exactly one stop, the resolver's red
with opacity 1 (at offset 1 after normalization), in the gradient with bounds
(0,0), (1,0): the segment `clearer-N red` is rejected, because the text after
its first space is read as the stop's offset. -/
theorem C10_clearer_segment_rejected (env : Env) (cache : Cache) (f : Full) (ctx : Context)
    (ds : Str) (c : RGBA)
    (hds : ∀ ch ∈ ds, isDigitChar ch = true)
    (hred : env.FromString "red".toList (some f.Solid) = some c)
    (hnum : (env.ParseFloat "red".toList).2 = true)
    (hfresh : env.LinearGradient.Stops = [])
    (hmiss : cacheGet cache (env.AsHex f.Solid ++
      ("linear-gradient(".toList ++ ("to right, red, clearer-".toList ++ ds ++ " red".toList)
        ++ ")".toList)) = none) :
    ∃ cache1, SetString env cache f
      ("linear-gradient(".toList ++ ("to right, red, clearer-".toList ++ ds ++ " red".toList)
        ++ ")".toList) ctx
      = some (true,
          ⟨AsRGBA c,
            some (withStops (withBounds env.LinearGradient ⟨⟨0, 0⟩, ⟨1, 0⟩⟩) [⟨c, 1, 1⟩])⟩,
          cache1) := by
  have hdl := toLower_digits ds hds
  have hlow : ToLower ("to right, red, clearer-".toList ++ ds ++ " red".toList)
      = "to right, red, clearer-".toList ++ ds ++ " red".toList := by
    rw [toLower_append, toLower_append, hdl]
    rfl
  have hargs : "to right, red, clearer-".toList ++ ds ++ " red".toList
      = "to right".toList ++ ", ".toList ++ ("red".toList ++ ", ".toList
          ++ ("clearer-".toList ++ ds ++ " red".toList)) := by
    simp
  have hncs : noCommaSpace ("clearer-".toList ++ ds ++ " red".toList) = true := by
    apply noCommaSpace_append ("clearer-".toList ++ ds) " red".toList _ rfl
    intro x hx
    simp only [List.mem_append] at hx
    rcases hx with hx | hx
    · revert x; decide
    · exact digit_ne x ',' (hds x hx) (by decide)
  have hsplit : Split ("to right, red, clearer-".toList ++ ds ++ " red".toList) ", ".toList
      = ["to right".toList, "red".toList, "clearer-".toList ++ ds ++ " red".toList] := by
    unfold Split
    rw [hargs, splitGo_piece "to right".toList _ _ rfl, splitGo_piece "red".toList _ _ rfl,
      splitGo_last _ _ hncs]
    rfl
  have hseg1 : linearSeg env ⟨f.Solid, env.LinearGradient, ⟨0, 0, 0, 0⟩, 0⟩ "to right".toList
      = some ⟨f.Solid, withBounds env.LinearGradient ⟨⟨0, 0⟩, ⟨1, 0⟩⟩, ⟨0, 0, 0, 0⟩, 0⟩ := rfl
  have hseg2 : linearSeg env
      ⟨f.Solid, withBounds env.LinearGradient ⟨⟨0, 0⟩, ⟨1, 0⟩⟩, ⟨0, 0, 0, 0⟩, 0⟩ "red".toList
      = some ⟨AsRGBA c, withStops (withBounds env.LinearGradient ⟨⟨0, 0⟩, ⟨1, 0⟩⟩) [⟨c, 0, 1⟩],
          c, 1⟩ := by
    rw [linearSeg_plain env _ "red".toList c (by simp [withBounds, hfresh]) (by decide)
      (by simpa using hred)]
    simp [withBounds, withStops, hfresh]
  have hseg3 : linearSeg env
      ⟨AsRGBA c, withStops (withBounds env.LinearGradient ⟨⟨0, 0⟩, ⟨1, 0⟩⟩) [⟨c, 0, 1⟩], c, 1⟩
      ("clearer-".toList ++ ds ++ " red".toList)
      = some ⟨AsRGBA c, withStops (withBounds env.LinearGradient ⟨⟨0, 0⟩, ⟨1, 0⟩⟩) [⟨c, 0, 1⟩],
          c, 1⟩ := by
    rw [linearSeg_clearer_red env _ ds (by simp [withStops]) hds hnum]
    simp
  have hparse : parseLinearGrad env f.Solid env.LinearGradient
      ("to right, red, clearer-".toList ++ ds ++ " red".toList)
      = ⟨AsRGBA c, withStops (withBounds env.LinearGradient ⟨⟨0, 0⟩, ⟨1, 0⟩⟩) [⟨c, 0, 1⟩], c, 1⟩ := by
    unfold parseLinearGrad
    rw [hsplit]
    simp only [linearLoop, hseg1, hseg2, hseg3]
    exact truncStops_of_eq _ rfl
  have hset := SetString_linear env cache f _ ctx hmiss hlow
  rw [hparse] at hset
  have hfix : FixGradientStops
      (withStops (withBounds env.LinearGradient ⟨⟨0, 0⟩, ⟨1, 0⟩⟩) [⟨c, 0, 1⟩])
      = withStops (withBounds env.LinearGradient ⟨⟨0, 0⟩, ⟨1, 0⟩⟩) [⟨c, 1, 1⟩] := by
    simp [FixGradientStops, withStops, withBounds, fixStops, fixLoop, fixStep, setOffset,
      offsetAt, List.range_succ]
  rw [hfix] at hset
  exact ⟨_, hset⟩

/-- Witness for C10: the descriptor of the scenario, `N = 50`, base colour red. -/
theorem C10_clearer_segment_rejected_witness :
    ∃ cache1, SetString sampleEnv [] ⟨red, none⟩
      ("linear-gradient(".toList ++ ("to right, red, clearer-".toList ++ "50".toList
        ++ " red".toList) ++ ")".toList) none
      = some (true,
          ⟨AsRGBA red,
            some (withStops (withBounds sampleEnv.LinearGradient ⟨⟨0, 0⟩, ⟨1, 0⟩⟩)
              [⟨red, 1, 1⟩])⟩,
          cache1) :=
  C10_clearer_segment_rejected sampleEnv [] ⟨red, none⟩ none "50".toList red
    (by decide) rfl rfl rfl rfl

/-! ## Unsupported gradient types and `url()` values -/

theorem cacheGet_none_of_keys (cache : Cache) (key : Str) (h : ∀ kv ∈ cache, kv.1 ≠ key) :
    cacheGet cache key = none := by
  induction cache with
  | nil => rfl
  | cons kv rest ih =>
    obtain ⟨k, v⟩ := kv
    have hk : k ≠ key := h (k, v) (List.mem_cons_self _ _)
    rw [cacheGet, if_neg hk]
    exact ih (fun x hx => h x (List.mem_cons_of_mem _ hx))

/-- A stored cache has no entry under the key of a `url(` value. -/
theorem cacheGet_url (env : Env) (cache : Cache) (solid : RGBA) (str : Str)
    (hhex : ∀ a b : RGBA, (env.AsHex a).length = (env.AsHex b).length)
    (hcache : cacheStored env cache)
    (hurl : HasPrefix (TrimSpace str) "url(".toList = true) :
    cacheGet cache (env.AsHex solid ++ str) = none := by
  apply cacheGet_none_of_keys
  intro kv hkv heq
  obtain ⟨s1, str1, hk, hn⟩ := hcache kv hkv
  rw [hk] at heq
  have := (List.append_inj heq (hhex s1 solid)).2
  rw [this, hurl] at hn
  exact absurd hn (by decide)

/-- `SetString` keeps the cache stored. -/
theorem cacheStored_SetString (env : Env) (cache : Cache) (f : Full) (str : Str) (ctx : Context)
    (ok : Bool) (f1 : Full) (cache1 : Cache)
    (hcache : cacheStored env cache)
    (h : SetString env cache f str ctx = some (ok, f1, cache1)) :
    cacheStored env cache1 := by
  unfold SetString at h
  simp only [] at h
  split at h
  · simp only [Option.some.injEq, Prod.mk.injEq] at h
    rw [← h.2.2]; exact hcache
  · split at h
    · split at h
      · simp only [Option.some.injEq, Prod.mk.injEq] at h
        rw [← h.2.2]; exact hcache
      · simp only [Option.some.injEq, Prod.mk.injEq] at h
        rw [← h.2.2]; exact hcache
    · rename_i hnurl
      split at h
      · split at h
        · simp only [Option.some.injEq, Prod.mk.injEq] at h
          rw [← h.2.2]; exact hcache
        · split at h
          · exact absurd h (by simp)
          · simp only [Option.some.injEq, Prod.mk.injEq] at h
            rw [← h.2.2]
            intro kv hkv
            rcases List.mem_cons.1 hkv with rfl | hkv
            · exact ⟨f.Solid, str, rfl, by simpa using hnurl⟩
            · exact hcache kv hkv
      · simp only [Option.some.injEq, Prod.mk.injEq] at h
        rw [← h.2.2]; exact hcache

/-- C11 (unsupported gradient type is harmless), evaluated on
`conic-gradient(red, blue)`: on a receiver without a gradient `SetString`
does not complete (the call of `FixGradientStops` on the nil gradient is a
run-time panic); on a receiver with a gradient it returns true with that
gradient normalized, so stop offsets `[0, 0, 1]` become `[0, 1/2, 1]`. -/
theorem C11_unsupported_type_not_harmless (env : Env) (solid : RGBA) (ctx : Context) :
    SetString env [] ⟨solid, none⟩ "conic-gradient(red, blue)".toList ctx = none ∧
    (∀ g : Gradient, SetString env [] ⟨solid, some g⟩ "conic-gradient(red, blue)".toList ctx
      = some (true, ⟨solid, some (FixGradientStops g)⟩,
          [(env.AsHex solid ++ "conic-gradient(red, blue)".toList,
            ⟨solid, some (FixGradientStops g)⟩)])) ∧
    offsets (gradOf ([0, 0, 1].map stopAt)) = [0, 0, 1] ∧
    offsets (FixGradientStops (gradOf ([0, 0, 1].map stopAt))) = [0, 1/2, 1] := by
  refine ⟨rfl, fun _ => rfl, ?_, ?_⟩
  · simp [offsets, gradOf, stopAt]
  · simp [offsets, FixGradientStops, fixStops, fixLoop, fixStep, distribute, setOffset,
      offsetAt, gradOf, stopAt, List.range_succ]

/-- C12 (`url()` handling): when the cache holds stored keys only, for every
string that starts with `url(` after trimming, `SetString` hands the trimmed
string to the context's URL resolver; without a context, or when the resolver
returns nothing, it returns false and leaves the receiver with no gradient and
the solid colour Black; when the resolver returns a value, the receiver becomes
that value and it returns true. The cache is left as it was. -/
theorem C12_url_handling (env : Env) (cache : Cache) (f : Full) (str : Str) (ctx : Context)
    (hhex : ∀ a b : RGBA, (env.AsHex a).length = (env.AsHex b).length)
    (hcache : cacheStored env cache)
    (hurl : HasPrefix (TrimSpace str) "url(".toList = true) :
    SetString env cache f str ctx =
      match ctx with
      | none => some (false, ⟨Black, none⟩, cache)
      | some fullByURL =>
        match fullByURL (TrimSpace str) with
        | none => some (false, ⟨Black, none⟩, cache)
        | some full => some (true, full, cache) := by
  have hmiss := cacheGet_url env cache f.Solid str hhex hcache hurl
  unfold SetString
  simp only [hmiss, hurl, if_true]
  cases ctx with
  | none => rfl
  | some r =>
    simp only []
    cases r (TrimSpace str) <;> rfl

/-- Witness for C12: ` url(#g1)` with a resolver that knows `url(#g1)`. -/
theorem C12_url_handling_witness :
    (∀ a b : RGBA, (sampleEnv.AsHex a).length = (sampleEnv.AsHex b).length) ∧
    cacheStored sampleEnv [] ∧
    HasPrefix (TrimSpace " url(#g1)".toList) "url(".toList = true ∧
    SetString sampleEnv [] ⟨red, none⟩ " url(#g1)".toList
        (some (fun s => if s = "url(#g1)".toList then some ⟨blue, none⟩ else none)) =
      match (some (fun s => if s = "url(#g1)".toList then some ⟨blue, none⟩ else none)
          : Context) with
      | none => some (false, ⟨Black, none⟩, [])
      | some fullByURL =>
        match fullByURL (TrimSpace " url(#g1)".toList) with
        | none => some (false, ⟨Black, none⟩, [])
        | some full => some (true, full, []) :=
  ⟨fun _ _ => rfl, fun _ h => absurd h (List.not_mem_nil _), rfl,
    C12_url_handling sampleEnv [] ⟨red, none⟩ " url(#g1)".toList
      (some (fun s => if s = "url(#g1)".toList then some ⟨blue, none⟩ else none))
      (fun _ _ => rfl) (fun _ h => absurd h (List.not_mem_nil _)) rfl⟩

/-! ## The degree table -/

/-- C16 (degree table correctness): `GradientDegToSides` has exactly 16 keys,
all different, the keys `Ndeg` of 16 angles `N` that are multiples of 45 between
-315 and 360; each value is a valid side combination and is the side notation
of `N mod 360`: 0 top, 45 top right, 90 right, 135 bottom right, 180 bottom,
225 bottom left, 270 left, 315 top left. -/
theorem C16_degree_table :
    GradientDegToSides.length = 16 ∧
    (GradientDegToSides.map (fun kv => kv.1)).Nodup ∧
    GradientDegToSides = tableAngles.map (fun n => (degKey n, sidesOfAngle (n % 360))) ∧
    (∀ n ∈ tableAngles, (45 : Int) ∣ n ∧ -315 ≤ n ∧ n ≤ 360 ∧
      validSides (sidesOfAngle (n % 360)) = true) ∧
    (∀ kv ∈ GradientDegToSides, validSides kv.2 = true) ∧
    [0, 45, 90, 135, 180, 225, 270, 315].map sidesOfAngle
      = ["top", "top right", "right", "bottom right", "bottom", "bottom left", "left",
          "top left"] := by
  refine ⟨rfl, by decide, by decide, by decide, by decide, by decide⟩

/-! ## The fraction reader -/

theorem hasSuffix_percent (body : Str) : HasSuffix (body ++ "%".toList) "%".toList = true := by
  unfold HasSuffix
  have hrev : (body ++ "%".toList).reverse = '%' :: body.reverse := by simp
  rw [hrev]
  show ['%'].isPrefixOf ('%' :: body.reverse) = true
  simp [List.isPrefixOf]

theorem trimSuffix_percent (body : Str) : TrimSuffix (body ++ "%".toList) "%".toList = body := by
  unfold TrimSuffix
  rw [hasSuffix_percent]
  simp

theorem clamp_eq_max (q : ℚ) : (if q < 0 then 0 else q) = max 0 q := by
  by_cases h : q < 0
  · rw [if_pos h, max_eq_left h.le]
  · rw [if_neg h, max_eq_right (not_lt.1 h)]

/-- C20 (fraction reader): with `v` trimmed, if it ends in `%` and the text
before that `%` parses as the number `x`, `readFraction` returns no error and
`max(0, x / 100)`; if it does not end in `%` and parses as `x`, it returns no
error and `max(0, x)`; the value is never negative and is not clamped above 1
(`150%` gives 3/2); when the numeric text does not parse, an error is
returned. -/
theorem C20_fraction_reader (env : Env) (v : Str) :
    (∀ (body : Str) (x : ℚ), TrimSpace v = body ++ "%".toList →
      env.ParseFloat body = (x, false) → readFraction env v = (max 0 (x / 100), false)) ∧
    (∀ x : ℚ, HasSuffix (TrimSpace v) "%".toList = false →
      env.ParseFloat (TrimSpace v) = (x, false) → readFraction env v = (max 0 x, false)) ∧
    0 ≤ (readFraction env v).1 ∧
    (∀ body : Str, TrimSpace v = body ++ "%".toList →
      (env.ParseFloat body).2 = true → (readFraction env v).2 = true) ∧
    (HasSuffix (TrimSpace v) "%".toList = false →
      (env.ParseFloat (TrimSpace v)).2 = true → (readFraction env v).2 = true) ∧
    readFraction sampleEnv " 150% ".toList = (3 / 2, false) ∧
    readFraction sampleEnv "0.25".toList = (1 / 4, false) ∧
    (readFraction sampleEnv "abc".toList).2 = true := by
  refine ⟨?_, ?_, ?_, ?_, ?_, ?_, ?_, ?_⟩
  · intro body x hb hp
    unfold readFraction
    simp only [hb, hasSuffix_percent, trimSuffix_percent, hp, if_true]
    rw [clamp_eq_max]
  · intro x hs hp
    unfold readFraction
    simp only [hs, hp, Bool.false_eq_true, if_false, div_one]
    rw [clamp_eq_max]
  · unfold readFraction
    simp only []
    rw [clamp_eq_max]
    exact le_max_left _ _
  · intro body hb hp
    unfold readFraction
    simp only [hb, hasSuffix_percent, trimSuffix_percent, hp, if_true]
  · intro hs hp
    unfold readFraction
    simp only [hs, hp, Bool.false_eq_true, if_false]
  · have h1 : TrimSpace " 150% ".toList = "150".toList ++ "%".toList := rfl
    have h2 : sampleEnv.ParseFloat "150".toList = (150, false) := by
      simp [sampleEnv, sampleParseFloat, digitsVal, digitVal]
    unfold readFraction
    simp only [h1, hasSuffix_percent, trimSuffix_percent, h2, if_true]
    try norm_num
  · have h1 : TrimSpace "0.25".toList = "0.25".toList := rfl
    have h3 : HasSuffix "0.25".toList "%".toList = false := rfl
    have h2 : sampleEnv.ParseFloat "0.25".toList = (1 / 4, false) := by
      simp [sampleEnv, sampleParseFloat, digitsVal, digitVal]
      norm_num
    unfold readFraction
    simp only [h1, h3, h2, Bool.false_eq_true, if_false]
    try norm_num
  · rfl

/-- Witness for C20: ` 150% ` is trimmed to `150%`, the text `150` parses as
150, and the value is max(0, 150/100). -/
theorem C20_fraction_reader_witness :
    readFraction sampleEnv " 150% ".toList = (max 0 (150 / 100), false) :=
  (C20_fraction_reader sampleEnv " 150% ".toList).1 "150".toList 150 rfl
    (by simp [sampleEnv, sampleParseFloat, digitsVal, digitVal])

/-! ## The XML reader: focal point, stops, style -/

theorem radialAttr_setFx (env : Env) (pm : Str → Mat2) (acc : RadialAcc) (attr : Attr)
    (h : attr.Local ≠ "fx".toList) : (radialAttr env pm acc attr).1.setFx = acc.setFx := by
  unfold radialAttr
  split_ifs <;> rfl

theorem radialAttr_setFy (env : Env) (pm : Str → Mat2) (acc : RadialAcc) (attr : Attr)
    (h : attr.Local ≠ "fy".toList) : (radialAttr env pm acc attr).1.setFy = acc.setFy := by
  unfold radialAttr
  split_ifs <;> rfl

theorem radialAttrs_setFx (env : Env) (pm : Str → Mat2) (attrs : List Attr) (acc : RadialAcc)
    (h : ∀ a ∈ attrs, a.Local ≠ "fx".toList) :
    (radialAttrs env pm attrs acc).1.setFx = acc.setFx := by
  induction attrs generalizing acc with
  | nil => rfl
  | cons a rest ih =>
    have ha := radialAttr_setFx env pm acc a (h a (List.mem_cons_self _ _))
    rw [radialAttrs]
    split
    · exact ha
    · rw [ih _ (fun x hx => h x (List.mem_cons_of_mem _ hx)), ha]

theorem radialAttrs_setFy (env : Env) (pm : Str → Mat2) (attrs : List Attr) (acc : RadialAcc)
    (h : ∀ a ∈ attrs, a.Local ≠ "fy".toList) :
    (radialAttrs env pm attrs acc).1.setFy = acc.setFy := by
  induction attrs generalizing acc with
  | nil => rfl
  | cons a rest ih =>
    have ha := radialAttr_setFy env pm acc a (h a (List.mem_cons_self _ _))
    rw [radialAttrs]
    split
    · exact ha
    · rw [ih _ (fun x hx => h x (List.mem_cons_of_mem _ hx)), ha]

/-- C13 (XML default focal point): when the attributes of a `radialGradient`
start element all parse (the element is processed without error), in whatever
order they come, `UnmarshalXML` on the childless element returns the receiver
with a gradient whose `Focal.X` equals `Center.X` when no `fx` attribute is
present and whose `Focal.Y` equals `Center.Y` when no `fy` attribute is present,
`Center` being the value after all attributes were read. -/
theorem C13_default_focal (env : Env) (pm : Str → Mat2) (f f1 : Full) (attrs : List Attr)
    (rest : Decoder)
    (h : startElement env pm f "radialGradient".toList attrs = (f1, false)) :
    UnmarshalXML env pm f
        (TokenRead.token (Token.EndElement "radialGradient".toList) :: rest)
        "radialGradient".toList attrs = (f1, false, rest) ∧
    ∃ g, f1.Gradient = some g ∧
      ((∀ a ∈ attrs, a.Local ≠ "fx".toList) → g.Focal.X = g.Center.X) ∧
      ((∀ a ∈ attrs, a.Local ≠ "fy".toList) → g.Focal.Y = g.Center.Y) := by
  constructor
  · unfold UnmarshalXML
    rw [xmlLoop, h]
    simp [xmlLoop]
  · unfold startElement at h
    rw [if_neg (by decide), if_pos rfl] at h
    generalize hacc0 : (⟨match f.Gradient with
        | none => env.RadialGradient
        | some g => withRadial g true, false, false⟩ : RadialAcc) = acc0 at h
    have hfx := radialAttrs_setFx env pm attrs acc0
    have hfy := radialAttrs_setFy env pm attrs acc0
    have hs0 : acc0.setFx = false ∧ acc0.setFy = false := by
      rw [← hacc0]; exact ⟨rfl, rfl⟩
    cases hr : radialAttrs env pm attrs acc0 with
    | mk acc e =>
      rw [hr] at h hfx hfy
      cases e with
      | true => simp at h
      | false =>
        simp only [Prod.mk.injEq, and_true] at h
        refine ⟨radialDefaults acc, by rw [← h], ?_, ?_⟩
        · intro hno
          have := hfx hno
          simp only [] at this
          simp [radialDefaults, withFocal, this, hs0.1]
        · intro hno
          have := hfy hno
          simp only [] at this
          simp [radialDefaults, withFocal, this, hs0.2]

/-- Witness for C13: `<radialGradient cx="0.3" cy="0.4" r="0.2"/>` has the
focal point (0.3, 0.4). -/
theorem C13_default_focal_witness :
    startElement sampleEnv sampleParseMat2 ⟨Black, none⟩ "radialGradient".toList
        [⟨"cx".toList, "0.3".toList⟩, ⟨"cy".toList, "0.4".toList⟩, ⟨"r".toList, "0.2".toList⟩]
      = (⟨Black, some ⟨true, ⟨⟨0, 0⟩, ⟨1, 0⟩⟩, ⟨3/10, 2/5⟩, ⟨3/10, 2/5⟩, 1/5, [],
          SpreadMethods.PadSpread, GradientUnits.ObjectBoundingBox, ⟨1, 0, 0, 1, 0, 0⟩⟩⟩, false) ∧
    (UnmarshalXML sampleEnv sampleParseMat2 ⟨Black, none⟩
        (TokenRead.token (Token.EndElement "radialGradient".toList) :: [])
        "radialGradient".toList
        [⟨"cx".toList, "0.3".toList⟩, ⟨"cy".toList, "0.4".toList⟩, ⟨"r".toList, "0.2".toList⟩]
      = (⟨Black, some ⟨true, ⟨⟨0, 0⟩, ⟨1, 0⟩⟩, ⟨3/10, 2/5⟩, ⟨3/10, 2/5⟩, 1/5, [],
          SpreadMethods.PadSpread, GradientUnits.ObjectBoundingBox, ⟨1, 0, 0, 1, 0, 0⟩⟩⟩,
          false, []) ∧
    ∃ g, (⟨Black, some ⟨true, ⟨⟨0, 0⟩, ⟨1, 0⟩⟩, ⟨3/10, 2/5⟩, ⟨3/10, 2/5⟩, 1/5, [],
          SpreadMethods.PadSpread, GradientUnits.ObjectBoundingBox, ⟨1, 0, 0, 1, 0, 0⟩⟩⟩
          : Full).Gradient = some g ∧
      ((∀ a ∈ [(⟨"cx".toList, "0.3".toList⟩ : Attr), ⟨"cy".toList, "0.4".toList⟩,
          ⟨"r".toList, "0.2".toList⟩], a.Local ≠ "fx".toList) → g.Focal.X = g.Center.X) ∧
      ((∀ a ∈ [(⟨"cx".toList, "0.3".toList⟩ : Attr), ⟨"cy".toList, "0.4".toList⟩,
          ⟨"r".toList, "0.2".toList⟩], a.Local ≠ "fy".toList) → g.Focal.Y = g.Center.Y)) := by
  have h : startElement sampleEnv sampleParseMat2 ⟨Black, none⟩ "radialGradient".toList
        [⟨"cx".toList, "0.3".toList⟩, ⟨"cy".toList, "0.4".toList⟩, ⟨"r".toList, "0.2".toList⟩]
      = (⟨Black, some ⟨true, ⟨⟨0, 0⟩, ⟨1, 0⟩⟩, ⟨3/10, 2/5⟩, ⟨3/10, 2/5⟩, 1/5, [],
          SpreadMethods.PadSpread, GradientUnits.ObjectBoundingBox, ⟨1, 0, 0, 1, 0, 0⟩⟩⟩, false) := by
    have p3 : readFraction sampleEnv ['0', '.', '3'] = (3/10, false) := by
      simp [readFraction, TrimSpace, HasSuffix, isSpace, sampleEnv, sampleParseFloat, digitsVal,
        digitVal]
      norm_num
    have p4 : readFraction sampleEnv ['0', '.', '4'] = (2/5, false) := by
      simp [readFraction, TrimSpace, HasSuffix, isSpace, sampleEnv, sampleParseFloat, digitsVal,
        digitVal]
      norm_num
    have p2 : readFraction sampleEnv ['0', '.', '2'] = (1/5, false) := by
      simp [readFraction, TrimSpace, HasSuffix, isSpace, sampleEnv, sampleParseFloat, digitsVal,
        digitVal]
      norm_num
    have hr : sampleEnv.RadialGradient = ⟨true, ⟨⟨0, 0⟩, ⟨1, 0⟩⟩, ⟨1/2, 1/2⟩, ⟨1/2, 1/2⟩, 1/2, [],
        SpreadMethods.PadSpread, GradientUnits.ObjectBoundingBox, ⟨1, 0, 0, 1, 0, 0⟩⟩ := rfl
    simp [startElement, radialAttrs, radialAttr, p3, p4, p2, radialDefaults, withFocal,
      withCenter, withRadius, hr]
  exact ⟨h, C13_default_focal sampleEnv sampleParseMat2 ⟨Black, none⟩ _ _ [] h⟩

/-- On `<linearGradient><stop/><stop/><stop/></linearGradient>`, `UnmarshalXML`
and `ReadXML` return without error and with the three stops appended as they were
read, all at offset 0; with a constructor that returns no stops the offsets are
`[0, 0, 0]`, which `FixGradientStops` would change to `[0, 1/2, 1]`. -/
theorem xml_three_stops_as_read (env : Env) (pm : Str → Mat2) (solid : RGBA) :
    UnmarshalXML env pm ⟨solid, none⟩
        [TokenRead.token (Token.StartElement "stop".toList []),
          TokenRead.token (Token.EndElement "stop".toList),
          TokenRead.token (Token.StartElement "stop".toList []),
          TokenRead.token (Token.EndElement "stop".toList),
          TokenRead.token (Token.StartElement "stop".toList []),
          TokenRead.token (Token.EndElement "stop".toList),
          TokenRead.token (Token.EndElement "linearGradient".toList)]
        "linearGradient".toList []
      = (⟨solid, some (withStops
            (withBounds env.LinearGradient ⟨env.LinearGradient.Bounds.Min, ⟨1, 0⟩⟩)
            (env.LinearGradient.Stops ++ [⟨Black, 0, 1⟩, ⟨Black, 0, 1⟩, ⟨Black, 0, 1⟩]))⟩,
          false, []) ∧
    ReadXML env pm ⟨solid, none⟩
        [TokenRead.token (Token.StartElement "linearGradient".toList []),
          TokenRead.token (Token.StartElement "stop".toList []),
          TokenRead.token (Token.EndElement "stop".toList),
          TokenRead.token (Token.StartElement "stop".toList []),
          TokenRead.token (Token.EndElement "stop".toList),
          TokenRead.token (Token.StartElement "stop".toList []),
          TokenRead.token (Token.EndElement "stop".toList),
          TokenRead.token (Token.EndElement "linearGradient".toList)]
      = (⟨solid, some (withStops
            (withBounds env.LinearGradient ⟨env.LinearGradient.Bounds.Min, ⟨1, 0⟩⟩)
            (env.LinearGradient.Stops ++ [⟨Black, 0, 1⟩, ⟨Black, 0, 1⟩, ⟨Black, 0, 1⟩]))⟩,
          false, []) ∧
    offsets (withStops (withBounds sampleEnv.LinearGradient
        ⟨sampleEnv.LinearGradient.Bounds.Min, ⟨1, 0⟩⟩)
        (sampleEnv.LinearGradient.Stops ++ [⟨Black, 0, 1⟩, ⟨Black, 0, 1⟩, ⟨Black, 0, 1⟩]))
      = [0, 0, 0] ∧
    offsets (FixGradientStops (withStops (withBounds sampleEnv.LinearGradient
        ⟨sampleEnv.LinearGradient.Bounds.Min, ⟨1, 0⟩⟩)
        (sampleEnv.LinearGradient.Stops ++ [⟨Black, 0, 1⟩, ⟨Black, 0, 1⟩, ⟨Black, 0, 1⟩])))
      = [0, 1/2, 1] := by
  have hstop : stopElement env [] = (⟨Black, 0, 1⟩, false) := rfl
  have hstart : ∀ g : Gradient, startElement env pm ⟨solid, some g⟩ "stop".toList []
      = (⟨solid, some (withStops g (g.Stops ++ [⟨Black, 0, 1⟩]))⟩, false) := by
    intro g
    unfold startElement
    rw [if_neg (by decide), if_neg (by decide), if_pos rfl, hstop]
    rfl
  have hlin : startElement env pm ⟨solid, none⟩ "linearGradient".toList []
      = (⟨solid, some (withBounds env.LinearGradient ⟨env.LinearGradient.Bounds.Min, ⟨1, 0⟩⟩)⟩,
          false) := rfl
  have hu : UnmarshalXML env pm ⟨solid, none⟩
        [TokenRead.token (Token.StartElement "stop".toList []),
          TokenRead.token (Token.EndElement "stop".toList),
          TokenRead.token (Token.StartElement "stop".toList []),
          TokenRead.token (Token.EndElement "stop".toList),
          TokenRead.token (Token.StartElement "stop".toList []),
          TokenRead.token (Token.EndElement "stop".toList),
          TokenRead.token (Token.EndElement "linearGradient".toList)]
        "linearGradient".toList []
      = (⟨solid, some (withStops
            (withBounds env.LinearGradient ⟨env.LinearGradient.Bounds.Min, ⟨1, 0⟩⟩)
            (env.LinearGradient.Stops ++ [⟨Black, 0, 1⟩, ⟨Black, 0, 1⟩, ⟨Black, 0, 1⟩]))⟩,
          false, []) := by
    unfold UnmarshalXML
    simp only [xmlLoop, hlin, hstart, Bool.false_eq_true, if_false]
    simp [withStops, withBounds]
  refine ⟨hu, ?_, ?_, ?_⟩
  · rw [ReadXML]
    exact hu
  · rfl
  · simp [offsets, FixGradientStops, withStops, withBounds, sampleEnv, fixStops, fixLoop,
      fixStep, distribute, setOffset, offsetAt, List.range_succ]

/-- C14, counterexample: `<linearGradient><stop/><stop/><stop/></linearGradient>`
is read by `UnmarshalXML` and by `ReadXML` without error, the three stops of
the returned gradient are all at offset 0, and the returned gradient is not
normalized: `FixGradientStops` changes its offsets to `[0, 1/2, 1]`. -/
theorem C14_xml_stops_not_normalized :
    UnmarshalXML sampleEnv sampleParseMat2 ⟨Black, none⟩
        [TokenRead.token (Token.StartElement "stop".toList []),
          TokenRead.token (Token.EndElement "stop".toList),
          TokenRead.token (Token.StartElement "stop".toList []),
          TokenRead.token (Token.EndElement "stop".toList),
          TokenRead.token (Token.StartElement "stop".toList []),
          TokenRead.token (Token.EndElement "stop".toList),
          TokenRead.token (Token.EndElement "linearGradient".toList)]
        "linearGradient".toList []
      = (⟨Black, some (gradOf ([0, 0, 0].map stopAt))⟩, false, []) ∧
    ReadXML sampleEnv sampleParseMat2 ⟨Black, none⟩
        [TokenRead.token (Token.StartElement "linearGradient".toList []),
          TokenRead.token (Token.StartElement "stop".toList []),
          TokenRead.token (Token.EndElement "stop".toList),
          TokenRead.token (Token.StartElement "stop".toList []),
          TokenRead.token (Token.EndElement "stop".toList),
          TokenRead.token (Token.StartElement "stop".toList []),
          TokenRead.token (Token.EndElement "stop".toList),
          TokenRead.token (Token.EndElement "linearGradient".toList)]
      = (⟨Black, some (gradOf ([0, 0, 0].map stopAt))⟩, false, []) ∧
    offsets (gradOf ([0, 0, 0].map stopAt)) = [0, 0, 0] ∧
    offsets (FixGradientStops (gradOf ([0, 0, 0].map stopAt))) = [0, 1/2, 1] ∧
    FixGradientStops (gradOf ([0, 0, 0].map stopAt)) ≠ gradOf ([0, 0, 0].map stopAt) := by
  have h := xml_three_stops_as_read sampleEnv sampleParseMat2 Black
  have hg : withStops (withBounds sampleEnv.LinearGradient
        ⟨sampleEnv.LinearGradient.Bounds.Min, ⟨1, 0⟩⟩)
        (sampleEnv.LinearGradient.Stops ++ [⟨Black, 0, 1⟩, ⟨Black, 0, 1⟩, ⟨Black, 0, 1⟩])
      = gradOf ([0, 0, 0].map stopAt) := by
    simp [withStops, withBounds, sampleEnv, gradOf, stopAt]
  rw [hg] at h
  refine ⟨h.1, h.2.1, h.2.2.1, h.2.2.2, ?_⟩
  intro he
  have h4 := congrArg offsets he
  rw [h.2.2.1, h.2.2.2] at h4
  norm_num at h4

/-! ## `Split` on a one-character separator -/

theorem splitGo_single_piece (x : Char) (t rest cur : Str) (h : ∀ c ∈ t, c ≠ x) :
    splitGo [x] (t ++ x :: rest) cur 0 = (cur.reverse ++ t) :: splitGo [x] rest [] 0 := by
  induction t generalizing cur with
  | nil =>
    simp [splitGo, List.isPrefixOf]
  | cons c t ih =>
    have hc : c ≠ x := h c (by simp)
    have hp : [x].isPrefixOf (c :: (t ++ x :: rest)) = false := by
      simp only [List.isPrefixOf]
      have : (x == c) = false := by
        rw [beq_eq_false_iff_ne]
        exact fun e => hc e.symm
      rw [this]
      rfl
    rw [List.cons_append, splitGo, if_neg (by rw [hp]; simp),
      ih (c :: cur) (fun y hy => h y (List.mem_cons_of_mem _ hy))]
    simp

theorem splitGo_single_last (x : Char) (t cur : Str) (h : ∀ c ∈ t, c ≠ x) :
    splitGo [x] t cur 0 = [cur.reverse ++ t] := by
  induction t generalizing cur with
  | nil => simp [splitGo]
  | cons c t ih =>
    have hc : c ≠ x := h c (by simp)
    have hp : [x].isPrefixOf (c :: t) = false := by
      simp only [List.isPrefixOf]
      have : (x == c) = false := by
        rw [beq_eq_false_iff_ne]
        exact fun e => hc e.symm
      rw [this]
      rfl
    rw [splitGo, if_neg (by rw [hp]; simp),
      ih (c :: cur) (fun y hy => h y (List.mem_cons_of_mem _ hy))]
    simp

/-- `Split` on a one-character separator undoes `joinSep` on pieces that do
not hold the separator. -/
theorem split_joinSep_single (x : Char) (ts : List Str) (hne : ts ≠ [])
    (h : ∀ t ∈ ts, ∀ c ∈ t, c ≠ x) :
    Split (joinSep [x] ts) [x] = ts := by
  unfold Split
  induction ts with
  | nil => exact absurd rfl hne
  | cons t ts ih =>
    cases ts with
    | nil =>
      rw [joinSep, splitGo_single_last x t [] (h t (List.mem_cons_self _ _))]
      simp
    | cons u us =>
      rw [joinSep]
      have hform : t ++ [x] ++ joinSep [x] (u :: us) = t ++ x :: joinSep [x] (u :: us) := by
        simp
      rw [hform, splitGo_single_piece x t _ [] (h t (List.mem_cons_self _ _)),
        ih (by simp) (fun y hy => h y (List.mem_cons_of_mem _ hy))]
      simp

/-! ## The `style` attribute of a stop -/

theorem take_length_append (a b : Str) : List.take a.length (a ++ b) = a := by
  simp

/-! ## The attribute loop of a stop -/

theorem stopAttrs_append (env : Env) (l1 l2 : List Attr) (s0 s : GradientStop)
    (h : stopAttrs env (l1 ++ l2) s0 = (s, false)) :
    ∃ s1, stopAttrs env l1 s0 = (s1, false) ∧ stopAttrs env l2 s1 = (s, false) := by
  induction l1 generalizing s0 with
  | nil => exact ⟨s0, rfl, h⟩
  | cons a rest ih =>
    rw [List.cons_append, stopAttrs] at h
    rw [stopAttrs]
    by_cases he : (stopAttr env s0 a).2 = true
    · rw [if_pos he] at h
      simp at h
    · rw [if_neg he] at h
      rw [if_neg he]
      exact ih _ h

theorem stopAttr_other_offset (env : Env) (s : GradientStop) (a : Attr)
    (h : a.Local ≠ "offset".toList) : (stopAttr env s a).1.Offset = s.Offset := by
  unfold stopAttr
  rw [if_neg h]
  split_ifs
  · split <;> rfl
  · rfl
  · rfl

theorem stopAttr_other_color (env : Env) (s : GradientStop) (a : Attr)
    (h : a.Local ≠ "stop-color".toList) : (stopAttr env s a).1.Color = s.Color := by
  unfold stopAttr
  split_ifs <;> rfl

theorem stopAttr_other_opacity (env : Env) (s : GradientStop) (a : Attr)
    (h : a.Local ≠ "stop-opacity".toList) : (stopAttr env s a).1.Opacity = s.Opacity := by
  unfold stopAttr
  split_ifs
  · rfl
  · split <;> rfl
  · rfl

theorem stopAttrs_keep (env : Env) (p : Str) (l : List Attr) (s0 : GradientStop)
    (h : ∀ a ∈ l, a.Local ≠ p) :
    (p = "offset".toList → (stopAttrs env l s0).1.Offset = s0.Offset) ∧
    (p = "stop-color".toList → (stopAttrs env l s0).1.Color = s0.Color) ∧
    (p = "stop-opacity".toList → (stopAttrs env l s0).1.Opacity = s0.Opacity) := by
  induction l generalizing s0 with
  | nil => exact ⟨fun _ => rfl, fun _ => rfl, fun _ => rfl⟩
  | cons a rest ih =>
    have ha : a.Local ≠ p := h a (List.mem_cons_self _ _)
    have ih1 := ih (stopAttr env s0 a).1 (fun x hx => h x (List.mem_cons_of_mem _ hx))
    rw [stopAttrs]
    refine ⟨?_, ?_, ?_⟩
    · intro hp
      have hk := stopAttr_other_offset env s0 a (by rw [← hp]; exact ha)
      split
      · exact hk
      · rw [ih1.1 hp, hk]
    · intro hp
      have hk := stopAttr_other_color env s0 a (by rw [← hp]; exact ha)
      split
      · exact hk
      · rw [ih1.2.1 hp, hk]
    · intro hp
      have hk := stopAttr_other_opacity env s0 a (by rw [← hp]; exact ha)
      split
      · exact hk
      · rw [ih1.2.2 hp, hk]

theorem stopAttr_value (env : Env) (s0 s1 : GradientStop) (p v : Str)
    (h : stopAttrs env [⟨p, v⟩] s0 = (s1, false)) :
    (p = "offset".toList → s1.Offset = (readFraction env v).1) ∧
    (p = "stop-color".toList → env.FromString v none = some s1.Color) ∧
    (p = "stop-opacity".toList → s1.Opacity = (env.ParseFloat v).1) := by
  rw [stopAttrs] at h
  by_cases he : (stopAttr env s0 ⟨p, v⟩).2 = true
  · rw [if_pos he] at h
    simp at h
  · rw [if_neg he, stopAttrs] at h
    simp only [Prod.mk.injEq, and_true] at h
    refine ⟨?_, ?_, ?_⟩
    · intro hp
      rw [← h]
      unfold stopAttr
      rw [if_pos hp]
    · intro hp
      subst hp
      rw [← h]
      have h1 : ¬ ("stop-color".toList = "offset".toList) := by decide
      unfold stopAttr at he ⊢
      simp only [if_neg h1, if_true] at he ⊢
      cases hc : env.FromString v none with
      | none => rw [hc] at he; simp at he
      | some c => rfl
    · intro hp
      subst hp
      rw [← h]
      have h1 : ¬ ("stop-opacity".toList = "offset".toList) := by decide
      have h2 : ¬ ("stop-opacity".toList = "stop-color".toList) := by decide
      unfold stopAttr
      simp only [if_neg h1, if_neg h2, if_true]

/-! ## The `style` attribute of a stop, for every style value -/

theorem styleAttrs_eq (sty : Str) :
    styleAttrs sty = (Split sty ";".toList).filterMap styleAttrOf := rfl

/-- Where `IndexByte` finds the character: the text before it and after it. -/
theorem indexFrom_single_spec (c : Char) (s : Str) (k : Nat) :
    indexFrom [c] s k < 0 ∨
    ∃ a b : Str, s = a ++ c :: b ∧ indexFrom [c] s k = ((k + a.length : Nat) : Int) := by
  induction s generalizing k with
  | nil =>
    left
    simp [indexFrom, List.isPrefixOf]
  | cons d s ih =>
    by_cases hd : c = d
    · right
      refine ⟨[], s, by rw [hd]; rfl, ?_⟩
      subst hd
      simp [indexFrom, List.isPrefixOf]
    · have hp : [c].isPrefixOf (d :: s) = false := by
        simp only [List.isPrefixOf]
        have : (c == d) = false := by simpa using hd
        rw [this]
        rfl
      rw [indexFrom, hp]
      simp only [Bool.false_eq_true, if_false]
      rcases ih (k + 1) with h | ⟨a, b, hs, hi⟩
      · exact Or.inl h
      · right
        refine ⟨d :: a, b, by rw [hs]; rfl, ?_⟩
        rw [hi]
        simp only [List.length_cons]
        congr 1
        omega

/-- A piece that is `name:value` after trimming, with no `:` in the name, is
made into the attribute of that name and value. -/
theorem styleAttrOf_pair (piece p v : Str) (hp : ∀ c ∈ p, c ≠ ':')
    (hpiece : TrimSpace piece = p ++ ":".toList ++ v) :
    styleAttrOf piece = some ⟨p, v⟩ := by
  have hform : p ++ ":".toList ++ v = p ++ (':' :: v) := by simp
  have hidx : IndexByte (p ++ (':' :: v)) ':' = ((0 + p.length : Nat) : Int) := by
    unfold IndexByte
    rw [indexFrom_skip ':' [] p (':' :: v) 0 hp]
    simp [indexFrom, List.isPrefixOf]
  unfold styleAttrOf
  rw [hpiece, hform, hidx]
  have hnn : ¬ (((0 + p.length : Nat) : Int) < 0) := by omega
  rw [if_neg hnn, Int.toNat_ofNat, Nat.zero_add, take_length_append, drop_length_succ]

/-- The attribute made from a piece has the name `p` only when the trimmed
piece starts with `p:`. -/
theorem styleAttrOf_name (q p : Str) (a : Attr) (h : styleAttrOf q = some a)
    (ha : a.Local = p) : HasPrefix (TrimSpace q) (p ++ ":".toList) = true := by
  unfold styleAttrOf at h
  by_cases hneg : IndexByte (TrimSpace q) ':' < 0
  · rw [if_pos hneg] at h
    exact absurd h (by simp)
  · rw [if_neg hneg] at h
    simp only [Option.some.injEq] at h
    rcases indexFrom_single_spec ':' (TrimSpace q) 0 with hlt | ⟨x, y, hs, hi⟩
    · exact absurd hlt hneg
    · have hidx : IndexByte (TrimSpace q) ':' = ((0 + x.length : Nat) : Int) := hi
      rw [hidx, Int.toNat_ofNat, Nat.zero_add] at h
      have hloc : a.Local = x := by
        rw [← h]
        show List.take x.length (TrimSpace q) = x
        rw [hs, take_length_append]
      have hx : x = p := by rw [← hloc, ha]
      unfold HasPrefix
      rw [List.isPrefixOf_iff_prefix, hs, hx]
      exact ⟨y, by simp⟩

theorem joinSep_ne_nil_of_mem (x : Char) (ts : List Str) (t : Str) (ht : t ∈ ts)
    (hne : t ≠ []) : joinSep [x] ts ≠ [] := by
  cases ts with
  | nil => simp at ht
  | cons u rest =>
    cases rest with
    | nil =>
      simp only [List.mem_singleton] at ht
      rw [joinSep, ← ht]
      exact hne
    | cons r rs => simp [joinSep]

theorem trimSpace_nil : TrimSpace [] = [] := rfl

/-- C15 (style overrides attributes): for every `stop` element that is read
without error and whose `style` value, cut at its `;`, has a piece that is
`p:v` after trimming white space, with `p` one of `offset`, `stop-color` and
`stop-opacity` and no later piece starting with `p:` (the pieces may have
white space around them, be empty or hold no `:`, as after a trailing `;`),
the attributes are processed as the explicit attribute list followed by the
attributes made from the pieces in order, the piece gives the attribute `p`
with value `v`, and the stop's value for `p` is the one parsed from `v`,
whatever the explicit attributes say. -/
theorem C15_style_overrides (env : Env) (attrs : List Attr)
    (before after : List Str) (piece p v : Str) (stop : GradientStop)
    (hp : p = "offset".toList ∨ p = "stop-color".toList ∨ p = "stop-opacity".toList)
    (hsemi : ∀ t ∈ before ++ piece :: after, ∀ c ∈ t, c ≠ ';')
    (hsty : XMLAttr "style".toList attrs = joinSep ";".toList (before ++ piece :: after))
    (hpiece : TrimSpace piece = p ++ ":".toList ++ v)
    (hlast : ∀ q ∈ after, HasPrefix (TrimSpace q) (p ++ ":".toList) = false)
    (hok : stopElement env attrs = (stop, false)) :
    stopElement env attrs
      = stopAttrs env (attrs ++ (before ++ piece :: after).filterMap styleAttrOf)
          ⟨Black, 0, 1⟩ ∧
    styleAttrOf piece = some ⟨p, v⟩ ∧
    (p = "offset".toList → stop.Offset = (readFraction env v).1) ∧
    (p = "stop-color".toList → env.FromString v none = some stop.Color) ∧
    (p = "stop-opacity".toList → stop.Opacity = (env.ParseFloat v).1) := by
  have hpc : ∀ c ∈ p, c ≠ ':' := by
    rcases hp with h | h | h <;> (subst h; decide)
  have hpa := styleAttrOf_pair piece p v hpc hpiece
  have hpne : piece ≠ [] := by
    intro he
    rw [he, trimSpace_nil] at hpiece
    have := congrArg List.length hpiece
    simp at this
    omega
  have hstyne : joinSep ";".toList (before ++ piece :: after) ≠ [] :=
    joinSep_ne_nil_of_mem ';' _ piece (by simp) hpne
  have hsplit : Split (joinSep ";".toList (before ++ piece :: after)) ";".toList
      = before ++ piece :: after :=
    split_joinSep_single ';' _ (by simp) hsemi
  have hel : stopElement env attrs
      = stopAttrs env (attrs ++ (before ++ piece :: after).filterMap styleAttrOf)
          ⟨Black, 0, 1⟩ := by
    unfold stopElement
    rw [hsty, if_neg hstyne, styleAttrs_eq, hsplit]
  refine ⟨hel, hpa, ?_⟩
  rw [hel] at hok
  have hlist : attrs ++ (before ++ piece :: after).filterMap styleAttrOf
      = (attrs ++ before.filterMap styleAttrOf)
        ++ ([(⟨p, v⟩ : Attr)] ++ after.filterMap styleAttrOf) := by
    rw [List.filterMap_append, List.filterMap_cons_some hpa]
    simp
  rw [hlist] at hok
  obtain ⟨s1, _, h2⟩ := stopAttrs_append env _ _ _ _ hok
  obtain ⟨s2, h3, h4⟩ := stopAttrs_append env _ _ _ _ h2
  have hval := stopAttr_value env s1 s2 p v h3
  have hkeep := stopAttrs_keep env p (after.filterMap styleAttrOf) s2 (by
    intro a ha hap
    obtain ⟨q, hq, hqa⟩ := List.mem_filterMap.1 ha
    have := styleAttrOf_name q p a hqa hap
    rw [hlast q hq] at this
    exact absurd this (by decide))
  rw [h4] at hkeep
  refine ⟨?_, ?_, ?_⟩
  · intro h
    rw [hkeep.1 h]
    exact hval.1 h
  · intro h
    rw [hkeep.2.1 h]
    exact hval.2.1 h
  · intro h
    rw [hkeep.2.2 h]
    exact hval.2.2 h

/-- Witness for C15: `<stop offset="0.2" stop-color="red"
style="stop-color:blue; offset:0.7;"/>`, with white space before the second
pair and a trailing `;`, is read as the stop at offset 7/10. -/
theorem C15_style_overrides_witness :
    XMLAttr "style".toList
        [⟨"offset".toList, "0.2".toList⟩, ⟨"stop-color".toList, "red".toList⟩,
          ⟨"style".toList, "stop-color:blue; offset:0.7;".toList⟩]
      = joinSep ";".toList (["stop-color:blue".toList] ++ " offset:0.7".toList :: [[]]) ∧
    TrimSpace " offset:0.7".toList = "offset".toList ++ ":".toList ++ "0.7".toList ∧
    stopElement sampleEnv
        [⟨"offset".toList, "0.2".toList⟩, ⟨"stop-color".toList, "red".toList⟩,
          ⟨"style".toList, "stop-color:blue; offset:0.7;".toList⟩]
      = (⟨blue, 7/10, 1⟩, false) ∧
    (stopElement sampleEnv
        [⟨"offset".toList, "0.2".toList⟩, ⟨"stop-color".toList, "red".toList⟩,
          ⟨"style".toList, "stop-color:blue; offset:0.7;".toList⟩]
      = stopAttrs sampleEnv
          ([⟨"offset".toList, "0.2".toList⟩, ⟨"stop-color".toList, "red".toList⟩,
              ⟨"style".toList, "stop-color:blue; offset:0.7;".toList⟩]
            ++ (["stop-color:blue".toList] ++ " offset:0.7".toList :: [[]]).filterMap
              styleAttrOf)
          ⟨Black, 0, 1⟩ ∧
      styleAttrOf " offset:0.7".toList = some ⟨"offset".toList, "0.7".toList⟩ ∧
      ("offset".toList = "offset".toList →
        (⟨blue, 7/10, 1⟩ : GradientStop).Offset = (readFraction sampleEnv "0.7".toList).1) ∧
      ("offset".toList = "stop-color".toList →
        sampleEnv.FromString "0.7".toList none = some (⟨blue, 7/10, 1⟩ : GradientStop).Color) ∧
      ("offset".toList = "stop-opacity".toList →
        (⟨blue, 7/10, 1⟩ : GradientStop).Opacity = (sampleEnv.ParseFloat "0.7".toList).1)) := by
  have hsemi : ∀ t ∈ ["stop-color:blue".toList] ++ " offset:0.7".toList :: [[]],
      ∀ c ∈ t, c ≠ ';' := by decide
  have hlast : ∀ q ∈ ([[]] : List Str),
      HasPrefix (TrimSpace q) ("offset".toList ++ ":".toList) = false := by decide
  have hok : stopElement sampleEnv
        [⟨"offset".toList, "0.2".toList⟩, ⟨"stop-color".toList, "red".toList⟩,
          ⟨"style".toList, "stop-color:blue; offset:0.7;".toList⟩]
      = (⟨blue, 7/10, 1⟩, false) := by
    have hsa : styleAttrs "stop-color:blue; offset:0.7;".toList
        = [⟨"stop-color".toList, "blue".toList⟩, ⟨"offset".toList, "0.7".toList⟩] := by
      decide
    have p2 : readFraction sampleEnv "0.2".toList = (1/5, false) := by
      simp [readFraction, TrimSpace, HasSuffix, isSpace, sampleEnv, sampleParseFloat, digitsVal,
        digitVal]
      norm_num
    have p7 : readFraction sampleEnv "0.7".toList = (7/10, false) := by
      simp [readFraction, TrimSpace, HasSuffix, isSpace, sampleEnv, sampleParseFloat, digitsVal,
        digitVal]
      norm_num
    have hx : XMLAttr "style".toList
        [⟨"offset".toList, "0.2".toList⟩, ⟨"stop-color".toList, "red".toList⟩,
          ⟨"style".toList, "stop-color:blue; offset:0.7;".toList⟩]
        = "stop-color:blue; offset:0.7;".toList := rfl
    have hr : sampleEnv.FromString "red".toList none = some red := rfl
    have hb : sampleEnv.FromString "blue".toList none = some blue := rfl
    have n1 : ¬ ("stop-color".toList = "offset".toList) := by decide
    have n2 : ¬ ("style".toList = "offset".toList) := by decide
    have n3 : ¬ ("style".toList = "stop-color".toList) := by decide
    have n4 : ¬ ("style".toList = "stop-opacity".toList) := by decide
    have n5 : ¬ ("stop-color:blue; offset:0.7;".toList = []) := by decide
    unfold stopElement
    rw [hx, if_neg n5, hsa]
    simp only [List.cons_append, List.nil_append, stopAttrs, stopAttr, p2, p7, hr, hb, if_true,
      if_neg n1, if_neg n2, if_neg n3, if_neg n4, Bool.false_eq_true, if_false]
  exact ⟨rfl, rfl, hok, C15_style_overrides sampleEnv _ ["stop-color:blue".toList] [[]]
    " offset:0.7".toList "offset".toList "0.7".toList _ (Or.inl rfl) hsemi rfl rfl hlast hok⟩

/-! ## Side specifications -/

theorem linearSide_text (b : Box2) (s : Side) : linearSide b s.text = applySide b s := by
  cases s <;> rfl

theorem side_chars (s : Side) :
    ∀ c ∈ s.text, c ≠ ' ' ∧ c ≠ 'd' ∧ c ≠ ',' ∧ isSpace c = false := by
  cases s <;> decide

/-- The side keywords joined by blanks end in a character that is neither
white space nor a comma, and hold no `d` and no comma. -/
theorem joinSides_shape (sides : List Side) (hne : sides ≠ []) :
    (∃ (s : Str) (d : Char), joinSep " ".toList (sides.map Side.text) = s ++ [d] ∧
      isSpace d = false ∧ d ≠ ',') ∧
    (∀ c ∈ joinSep " ".toList (sides.map Side.text), c ≠ 'd' ∧ c ≠ ',') := by
  induction sides with
  | nil => exact absurd rfl hne
  | cons x rest ih =>
    cases rest with
    | nil =>
      refine ⟨?_, ?_⟩
      · cases x
        · exact ⟨"to".toList, 'p', rfl, by decide, by decide⟩
        · exact ⟨"botto".toList, 'm', rfl, by decide, by decide⟩
        · exact ⟨"lef".toList, 't', rfl, by decide, by decide⟩
        · exact ⟨"righ".toList, 't', rfl, by decide, by decide⟩
      · intro c hc
        have := side_chars x c (by simpa [joinSep] using hc)
        exact ⟨this.2.1, this.2.2.1⟩
    | cons y ys =>
      obtain ⟨⟨s, d, hs, hd1, hd2⟩, hall⟩ := ih (by simp)
      refine ⟨⟨x.text ++ " ".toList ++ s, d, ?_, hd1, hd2⟩, ?_⟩
      · simp only [List.map_cons, joinSep] at hs ⊢
        rw [hs]
        simp
      · intro c hc
        simp only [List.map_cons, joinSep, List.mem_append] at hc hall
        rcases hc with (hc | hc) | hc
        · have := side_chars x c hc
          exact ⟨this.2.1, this.2.2.1⟩
        · have hc2 : c = ' ' := by simpa using hc
          rw [hc2]
          exact ⟨by decide, by decide⟩
        · exact hall c hc

theorem foldl_linearSide (sides : List Side) (b : Box2) :
    (sides.map Side.text).foldl linearSide b = sides.foldl applySide b := by
  induction sides generalizing b with
  | nil => rfl
  | cons s rest ih =>
    simp only [List.map_cons, List.foldl_cons, linearSide_text, ih]

/-- The loop body of `parseLinearGrad` on a segment `to s1 ... sm`: only the
bounds change. -/
theorem linearSeg_sides (env : Env) (st : ParseState) (sides : List Side)
    (hne : sides ≠ []) :
    linearSeg env st (sideSegment sides)
      = some ⟨st.Solid, withBounds st.grad (sides.foldl applySide ⟨⟨0, 0⟩, ⟨0, 0⟩⟩),
          st.prevColor, st.stopIdx⟩ := by
  obtain ⟨⟨s, d, hs, hd1, hd2⟩, hall⟩ := joinSides_shape sides hne
  have hform : sideSegment sides = 't' :: (("o ".toList ++ s) ++ [d]) := by
    unfold sideSegment
    rw [hs]
    simp
  have hform2 : sideSegment sides = ("to ".toList ++ s) ++ [d] := by
    unfold sideSegment
    rw [hs]
    simp
  have htrim : TrimSpace (sideSegment sides) = sideSegment sides := by
    rw [hform]
    exact trimSpace_ends _ _ _ (by decide) hd1
  have htr : TrimRight (sideSegment sides) ",".toList = sideSegment sides := by
    rw [hform2]
    apply trimRight_end
    show [','].contains d = false
    simp [hd2]
  have hdeg : Contains (sideSegment sides) "deg".toList = false := by
    unfold Contains Index
    have hx : "deg".toList = 'd' :: "eg".toList := rfl
    rw [hx, indexFrom_none 'd' _ _ 0]
    · rfl
    · intro c hc
      unfold sideSegment at hc
      simp only [List.mem_append] at hc
      rcases hc with hc | hc
      · revert c; decide
      · exact (hall c hc).1
  have hto : HasPrefix (sideSegment sides) "to ".toList = true := by
    unfold HasPrefix sideSegment
    rw [List.isPrefixOf_iff_prefix]
    exact List.prefix_append _ _
  have hdrop : (sideSegment sides).drop 3 = joinSep " ".toList (sides.map Side.text) := rfl
  have hsplit : Split (joinSep " ".toList (sides.map Side.text)) " ".toList
      = sides.map Side.text := by
    apply split_joinSep_single ' ' _ (by simpa using hne)
    intro t ht c hc
    obtain ⟨x, _, rfl⟩ := List.mem_map.1 ht
    exact (side_chars x c hc).1
  unfold linearSeg
  simp only [htrim, htr, hdeg, hto, Bool.false_eq_true, if_false, if_true]
  unfold linearSidesSeg
  rw [hdrop, hsplit, foldl_linearSide]

/-- A segment of side keywords is one piece for `Split` on `", "`. -/
theorem split_sideSegment (sides : List Side) (hne : sides ≠ []) :
    Split (sideSegment sides) ", ".toList = [sideSegment sides] := by
  have hnc : noCommaSpace (sideSegment sides) = true := by
    have h := noCommaSpace_append (sideSegment sides) [] (by
      intro c hc
      unfold sideSegment at hc
      simp only [List.mem_append] at hc
      rcases hc with hc | hc
      · revert c; decide
      · exact ((joinSides_shape sides hne).2 c hc).2) rfl
    rw [List.append_nil] at h
    exact h
  have h := split_joinSep [sideSegment sides] (by simp) (by
    intro t ht
    rw [List.mem_singleton] at ht
    rw [ht]
    exact hnc)
  exact h

/-- C17 (side specification): for every segment `to s1 ... sm` (m ≥ 1) of side
keywords, the loop of `parseLinearGrad` sets the bounds to the result of
starting from the all-zero box and applying the keywords in order, and leaves
the solid colour, the stops, the previous colour and the stop index as they
were; `to right` gives Min = (0,0), Max = (1,0) and `to bottom right` gives
Min = (0,0), Max = (1,1). With the segment as the whole argument list and a
gradient without stops, that is the result of `parseLinearGrad`. -/
theorem C17_side_specification (env : Env) (st : ParseState) (sides : List Side)
    (hne : sides ≠ []) :
    linearSeg env st (sideSegment sides)
      = some ⟨st.Solid, withBounds st.grad (sides.foldl applySide ⟨⟨0, 0⟩, ⟨0, 0⟩⟩),
          st.prevColor, st.stopIdx⟩ ∧
    (withBounds st.grad (sides.foldl applySide ⟨⟨0, 0⟩, ⟨0, 0⟩⟩)).Stops = st.grad.Stops ∧
    [Side.right].foldl applySide ⟨⟨0, 0⟩, ⟨0, 0⟩⟩ = ⟨⟨0, 0⟩, ⟨1, 0⟩⟩ ∧
    [Side.bottom, Side.right].foldl applySide ⟨⟨0, 0⟩, ⟨0, 0⟩⟩ = ⟨⟨0, 0⟩, ⟨1, 1⟩⟩ ∧
    sideSegment [Side.bottom, Side.right] = "to bottom right".toList ∧
    (st.grad.Stops = [] →
      parseLinearGrad env st.Solid st.grad (sideSegment sides)
        = ⟨st.Solid, withBounds st.grad (sides.foldl applySide ⟨⟨0, 0⟩, ⟨0, 0⟩⟩),
            ⟨0, 0, 0, 0⟩, 0⟩) := by
  refine ⟨linearSeg_sides env st sides hne, rfl, rfl, rfl, rfl, ?_⟩
  intro hfresh
  unfold parseLinearGrad
  rw [split_sideSegment sides hne, linearLoop,
    linearSeg_sides env ⟨st.Solid, st.grad, ⟨0, 0, 0, 0⟩, 0⟩ sides hne]
  simp only [linearLoop]
  apply truncStops_of_eq
  show 0 = st.grad.Stops.length
  rw [hfresh]
  rfl

/-- Witness for C17: the segment `to bottom right`. -/
theorem C17_side_specification_witness :
    [Side.bottom, Side.right] ≠ [] ∧
    (linearSeg sampleEnv ⟨red, sampleEnv.LinearGradient, ⟨0, 0, 0, 0⟩, 0⟩
        (sideSegment [Side.bottom, Side.right])
      = some ⟨red, withBounds sampleEnv.LinearGradient
          ([Side.bottom, Side.right].foldl applySide ⟨⟨0, 0⟩, ⟨0, 0⟩⟩), ⟨0, 0, 0, 0⟩, 0⟩ ∧
    (withBounds sampleEnv.LinearGradient
        ([Side.bottom, Side.right].foldl applySide ⟨⟨0, 0⟩, ⟨0, 0⟩⟩)).Stops
      = sampleEnv.LinearGradient.Stops ∧
    [Side.right].foldl applySide ⟨⟨0, 0⟩, ⟨0, 0⟩⟩ = ⟨⟨0, 0⟩, ⟨1, 0⟩⟩ ∧
    [Side.bottom, Side.right].foldl applySide ⟨⟨0, 0⟩, ⟨0, 0⟩⟩ = ⟨⟨0, 0⟩, ⟨1, 1⟩⟩ ∧
    sideSegment [Side.bottom, Side.right] = "to bottom right".toList ∧
    (sampleEnv.LinearGradient.Stops = [] →
      parseLinearGrad sampleEnv red sampleEnv.LinearGradient
          (sideSegment [Side.bottom, Side.right])
        = ⟨red, withBounds sampleEnv.LinearGradient
            ([Side.bottom, Side.right].foldl applySide ⟨⟨0, 0⟩, ⟨0, 0⟩⟩), ⟨0, 0, 0, 0⟩, 0⟩)) :=
  ⟨by decide, C17_side_specification sampleEnv
    ⟨red, sampleEnv.LinearGradient, ⟨0, 0, 0, 0⟩, 0⟩ [Side.bottom, Side.right] (by decide)⟩

/-! ## The segment loops on a gradient without spare stops -/

/-- With no stop at `stopIdx` yet, a colour-stop segment is parsed into a new
stop, which is appended when `parseColorStop` accepts it. -/
theorem colorStopSeg_fresh (env : Env) (st : ParseState) (par : Str)
    (hidx : st.stopIdx = st.grad.Stops.length) :
    colorStopSeg env st par =
      if (parseColorStop env ⟨Black, 0, 1⟩
          (if st.stopIdx = 0 then st.Solid else st.prevColor) par).2 then
        ⟨if st.stopIdx = 0 then AsRGBA (parseColorStop env ⟨Black, 0, 1⟩
            (if st.stopIdx = 0 then st.Solid else st.prevColor) par).1.Color else st.Solid,
          withStops st.grad (st.grad.Stops ++ [(parseColorStop env ⟨Black, 0, 1⟩
            (if st.stopIdx = 0 then st.Solid else st.prevColor) par).1]),
          (parseColorStop env ⟨Black, 0, 1⟩
            (if st.stopIdx = 0 then st.Solid else st.prevColor) par).1.Color,
          st.stopIdx + 1⟩
      else ⟨st.Solid, st.grad, if st.stopIdx = 0 then st.Solid else st.prevColor,
        st.stopIdx⟩ := by
  have hslot : st.grad.Stops[st.stopIdx]? = none := by
    rw [List.getElem?_eq_none (by omega)]
  have hlt : ¬ st.stopIdx < st.grad.Stops.length := by omega
  have hle : st.grad.Stops.length ≤ st.stopIdx := by omega
  unfold colorStopSeg
  simp only [hslot, if_neg hlt, if_pos hle]
  split <;> rfl

/-- The invariant of both segment loops on a gradient without spare stops:
what one colour-stop segment does to the stops, the stop index, the solid
colour and the previous colour. -/
theorem colorStopSeg_inv (env : Env) (st : ParseState) (par : Str) (rest : List Str)
    (hidx : st.stopIdx = st.grad.Stops.length) :
    (colorStopSeg env st par).stopIdx = (colorStopSeg env st par).grad.Stops.length ∧
    (colorStopSeg env st par).grad.Stops ++ acceptedStops env
        (if (colorStopSeg env st par).stopIdx = 0 then (colorStopSeg env st par).Solid
          else (colorStopSeg env st par).prevColor) rest
      = st.grad.Stops ++ acceptedStops env
        (if st.stopIdx = 0 then st.Solid else st.prevColor) (par :: rest) ∧
    (colorStopSeg env st par).grad
      = withStops st.grad (colorStopSeg env st par).grad.Stops ∧
    (st.stopIdx ≠ 0 → (colorStopSeg env st par).stopIdx ≠ 0 ∧
      (colorStopSeg env st par).Solid = st.Solid) ∧
    (st.stopIdx = 0 → (colorStopSeg env st par).stopIdx = 0 →
      (colorStopSeg env st par).Solid = st.Solid) ∧
    (st.stopIdx = 0 → (colorStopSeg env st par).stopIdx ≠ 0 →
      ∃ s, (colorStopSeg env st par).grad.Stops.head? = some s ∧
        (colorStopSeg env st par).Solid = s.Color) := by
  rw [colorStopSeg_fresh env st par hidx]
  rw [acceptedStops]
  by_cases hacc : (parseColorStop env ⟨Black, 0, 1⟩
      (if st.stopIdx = 0 then st.Solid else st.prevColor) par).2 = true
  · rw [if_pos hacc, if_pos hacc]
    have hne : ¬ (st.stopIdx + 1 = 0) := by omega
    refine ⟨?_, ?_, ?_, ?_, ?_, ?_⟩
    · simp [withStops, hidx]
    · simp [withStops, hne]
    · rfl
    · intro h
      exact ⟨hne, by simp [h]⟩
    · intro _ h
      exact absurd h hne
    · intro h0 _
      have hnil : st.grad.Stops = [] := by
        apply List.eq_nil_of_length_eq_zero
        rw [← hidx, h0]
      refine ⟨(parseColorStop env ⟨Black, 0, 1⟩
        (if st.stopIdx = 0 then st.Solid else st.prevColor) par).1, ?_, ?_⟩
      · simp [withStops, hnil]
      · simp [h0, AsRGBA]
  · rw [if_neg hacc, if_neg hacc]
    refine ⟨?_, ?_, ?_, ?_, ?_, ?_⟩
    · exact hidx
    · by_cases h0 : st.stopIdx = 0
      · simp [h0]
      · simp [h0]
    · rfl
    · intro h
      exact ⟨h, rfl⟩
    · intro _ _
      rfl
    · intro h0 h
      exact absurd h0 h

/-- What the loop of `parseLinearGrad` leaves on a gradient without spare
stops: the stops it had, followed by the accepted colour-stop segments. -/
theorem linearLoop_fresh (env : Env) (segs : List Str) (st : ParseState)
    (hidx : st.stopIdx = st.grad.Stops.length) :
    (linearLoop env segs st).stopIdx = (linearLoop env segs st).grad.Stops.length ∧
    (linearLoop env segs st).grad.Stops
      = st.grad.Stops ++ acceptedStops env
        (if st.stopIdx = 0 then st.Solid else st.prevColor) (linearColorSegs segs) ∧
    (st.stopIdx ≠ 0 → (linearLoop env segs st).Solid = st.Solid) ∧
    (st.stopIdx = 0 → (linearLoop env segs st).grad.Stops = [] →
      (linearLoop env segs st).Solid = st.Solid) ∧
    (st.stopIdx = 0 → ∀ s, (linearLoop env segs st).grad.Stops.head? = some s →
      (linearLoop env segs st).Solid = s.Color) := by
  induction segs generalizing st with
  | nil =>
    refine ⟨hidx, by simp [linearLoop, linearColorSegs, acceptedStops], fun _ => rfl,
      fun _ _ => rfl, ?_⟩
    intro h0 s hs
    have hnil : st.grad.Stops = [] := by
      apply List.eq_nil_of_length_eq_zero
      rw [← hidx, h0]
    simp [linearLoop, hnil] at hs
  | cons raw rest ih =>
    rw [linearLoop, linearColorSegs]
    unfold linearSeg
    simp only []
    by_cases h1 : Contains (TrimRight (TrimSpace raw) ",".toList) "deg".toList = true
    · simp only [if_pos h1]
      exact ih _ hidx
    · simp only [if_neg h1]
      by_cases h2 : HasPrefix (TrimRight (TrimSpace raw) ",".toList) "to ".toList = true
      · simp only [if_pos h2]
        exact ih _ hidx
      · simp only [if_neg h2]
        by_cases h3 : HasPrefix (TrimRight (TrimSpace raw) ",".toList) ")".toList = true
        · simp only [if_pos h3]
          refine ⟨hidx, by simp [acceptedStops], fun _ => trivial, fun _ _ => trivial, ?_⟩
          intro h0 s hs
          have hnil : st.grad.Stops = [] := by
            apply List.eq_nil_of_length_eq_zero
            rw [← hidx, h0]
          simp [hnil] at hs
        · simp only [if_neg h3]
          obtain ⟨c1, c2, _, c4, c5, c6⟩ :=
            colorStopSeg_inv env st (TrimRight (TrimSpace raw) ",".toList)
              (linearColorSegs rest) hidx
          obtain ⟨i1, i2, i3, i4, i5⟩ :=
            ih (colorStopSeg env st (TrimRight (TrimSpace raw) ",".toList)) c1
          refine ⟨i1, by rw [i2, c2], ?_, ?_, ?_⟩
          · intro hne
            rw [i3 (c4 hne).1, (c4 hne).2]
          · intro h0 hnil
            by_cases hz : (colorStopSeg env st (TrimRight (TrimSpace raw) ",".toList)).stopIdx = 0
            · rw [i4 hz hnil, c5 h0 hz]
            · exfalso
              obtain ⟨s, hs, _⟩ := c6 h0 hz
              rw [i2] at hnil
              have := (List.append_eq_nil.1 hnil).1
              rw [this] at hs
              simp at hs
          · intro h0 s hs
            by_cases hz : (colorStopSeg env st (TrimRight (TrimSpace raw) ",".toList)).stopIdx = 0
            · exact i5 hz s hs
            · obtain ⟨s1, hs1, hsol⟩ := c6 h0 hz
              rw [i3 hz, hsol]
              rw [i2] at hs
              cases hst : (colorStopSeg env st (TrimRight (TrimSpace raw) ",".toList)).grad.Stops with
              | nil => rw [hst] at hs1; simp at hs1
              | cons a as =>
                rw [hst] at hs hs1
                simp only [List.cons_append, List.head?_cons, Option.some.injEq] at hs hs1
                rw [← hs, hs1]

/-- What the loop of `parseRadialGrad` leaves on a gradient without spare
stops: the stops it had, followed by the accepted colour-stop segments. -/
theorem radialLoop_fresh (env : Env) (segs : List Str) (st : ParseState)
    (hidx : st.stopIdx = st.grad.Stops.length) :
    (radialLoop env segs st).stopIdx = (radialLoop env segs st).grad.Stops.length ∧
    (radialLoop env segs st).grad.Stops
      = st.grad.Stops ++ acceptedStops env
        (if st.stopIdx = 0 then st.Solid else st.prevColor) (radialColorSegs segs) ∧
    (st.stopIdx ≠ 0 → (radialLoop env segs st).Solid = st.Solid) ∧
    (st.stopIdx = 0 → (radialLoop env segs st).grad.Stops = [] →
      (radialLoop env segs st).Solid = st.Solid) ∧
    (st.stopIdx = 0 → ∀ s, (radialLoop env segs st).grad.Stops.head? = some s →
      (radialLoop env segs st).Solid = s.Color) := by
  induction segs generalizing st with
  | nil =>
    refine ⟨hidx, by simp [radialLoop, radialColorSegs, acceptedStops], fun _ => rfl,
      fun _ _ => rfl, ?_⟩
    intro h0 s hs
    have hnil : st.grad.Stops = [] := by
      apply List.eq_nil_of_length_eq_zero
      rw [← hidx, h0]
    simp [radialLoop, hnil] at hs
  | cons raw rest ih =>
    rw [radialLoop, radialColorSegs]
    unfold radialSeg
    simp only []
    by_cases h1 : Contains (TrimRight (TrimSpace raw) ",".toList) "circle".toList = true
    · simp only [if_pos h1]
      exact ih _ hidx
    · simp only [if_neg h1]
      by_cases h1b : Contains (TrimRight (TrimSpace raw) ",".toList) "ellipse".toList = true
      · simp only [if_pos h1b]
        exact ih _ hidx
      · simp only [if_neg h1b]
        by_cases h2 : HasPrefix (TrimRight (TrimSpace raw) ",".toList) "at ".toList = true
        · simp only [if_pos h2]
          exact ih _ hidx
        · simp only [if_neg h2]
          by_cases h3 : HasPrefix (TrimRight (TrimSpace raw) ",".toList) ")".toList = true
          · simp only [if_pos h3]
            refine ⟨hidx, by simp [acceptedStops], fun _ => trivial, fun _ _ => trivial, ?_⟩
            intro h0 s hs
            have hnil : st.grad.Stops = [] := by
              apply List.eq_nil_of_length_eq_zero
              rw [← hidx, h0]
            simp [hnil] at hs
          · simp only [if_neg h3]
            obtain ⟨c1, c2, _, c4, c5, c6⟩ :=
              colorStopSeg_inv env st (TrimRight (TrimSpace raw) ",".toList)
                (radialColorSegs rest) hidx
            obtain ⟨i1, i2, i3, i4, i5⟩ :=
              ih (colorStopSeg env st (TrimRight (TrimSpace raw) ",".toList)) c1
            refine ⟨i1, by rw [i2, c2], ?_, ?_, ?_⟩
            · intro hne
              rw [i3 (c4 hne).1, (c4 hne).2]
            · intro h0 hnil
              by_cases hz :
                  (colorStopSeg env st (TrimRight (TrimSpace raw) ",".toList)).stopIdx = 0
              · rw [i4 hz hnil, c5 h0 hz]
              · exfalso
                obtain ⟨s, hs, _⟩ := c6 h0 hz
                rw [i2] at hnil
                have := (List.append_eq_nil.1 hnil).1
                rw [this] at hs
                simp at hs
            · intro h0 s hs
              by_cases hz :
                  (colorStopSeg env st (TrimRight (TrimSpace raw) ",".toList)).stopIdx = 0
              · exact i5 hz s hs
              · obtain ⟨s1, hs1, hsol⟩ := c6 h0 hz
                rw [i3 hz, hsol]
                rw [i2] at hs
                cases hst :
                    (colorStopSeg env st (TrimRight (TrimSpace raw) ",".toList)).grad.Stops with
                | nil => rw [hst] at hs1; simp at hs1
                | cons a as =>
                  rw [hst] at hs hs1
                  simp only [List.cons_append, List.head?_cons, Option.some.injEq] at hs hs1
                  rw [← hs, hs1]

/-- On a gradient without stops `parseLinearGrad` keeps the stops of the loop. -/
theorem parseLinearGrad_fresh (env : Env) (solid : RGBA) (grad : Gradient) (pars : Str)
    (hfresh : grad.Stops = []) :
    parseLinearGrad env solid grad pars
      = linearLoop env (Split pars ", ".toList) ⟨solid, grad, ⟨0, 0, 0, 0⟩, 0⟩ := by
  unfold parseLinearGrad
  apply truncStops_of_eq
  exact (linearLoop_fresh env _ ⟨solid, grad, ⟨0, 0, 0, 0⟩, 0⟩ (by simp [hfresh])).1

/-- On a gradient without stops `parseRadialGrad` keeps the stops of the loop. -/
theorem parseRadialGrad_fresh (env : Env) (solid : RGBA) (grad : Gradient) (pars : Str)
    (hfresh : grad.Stops = []) :
    parseRadialGrad env solid grad pars
      = radialLoop env (Split pars ", ".toList) ⟨solid, grad, ⟨0, 0, 0, 0⟩, 0⟩ := by
  unfold parseRadialGrad
  apply truncStops_of_eq
  exact (radialLoop_fresh env _ ⟨solid, grad, ⟨0, 0, 0, 0⟩, 0⟩ (by simp [hfresh])).1

/-! ## Claims about the segment loops -/

/-- C18 (rejected stops are skipped, not fatal): for every argument list given
to `parseLinearGrad` or `parseRadialGrad` on a fresh gradient (no stops), the
resulting stop list is exactly the list of the colour-stop segments that
`parseColorStop` accepts, in input order, each parsed into a new stop with the
colour of the last accepted stop as previous colour and the base solid colour
for the first; a rejected segment adds no stop and the stop index is the number
of accepted stops. The colour-stop segments are the pieces that the loop hands
to `parseColorStop`: those before the first piece starting with `)`, without
the angle, side, shape and position pieces. -/
theorem C18_rejected_stops_skipped (env : Env) (solid : RGBA) (grad : Gradient) (pars : Str)
    (hfresh : grad.Stops = []) :
    (parseLinearGrad env solid grad pars).grad.Stops
      = acceptedStops env solid (linearColorSegs (Split pars ", ".toList)) ∧
    (parseLinearGrad env solid grad pars).stopIdx
      = (acceptedStops env solid (linearColorSegs (Split pars ", ".toList))).length ∧
    (parseRadialGrad env solid grad pars).grad.Stops
      = acceptedStops env solid (radialColorSegs (Split pars ", ".toList)) ∧
    (parseRadialGrad env solid grad pars).stopIdx
      = (acceptedStops env solid (radialColorSegs (Split pars ", ".toList))).length := by
  have hl := linearLoop_fresh env (Split pars ", ".toList) ⟨solid, grad, ⟨0, 0, 0, 0⟩, 0⟩
    (by simp [hfresh])
  have hr := radialLoop_fresh env (Split pars ", ".toList) ⟨solid, grad, ⟨0, 0, 0, 0⟩, 0⟩
    (by simp [hfresh])
  rw [parseLinearGrad_fresh env solid grad pars hfresh,
    parseRadialGrad_fresh env solid grad pars hfresh]
  have hl2 := hl.2.1
  have hr2 := hr.2.1
  simp only [hfresh, List.nil_append, if_true] at hl2 hr2
  refine ⟨hl2, ?_, hr2, ?_⟩
  · rw [hl.1, hl2]
  · rw [hr.1, hr2]

/-- Witness for C18: in `red, blue 1x, nocolour, blue` the second segment is
rejected for its offset text and the third for its colour token; the stops are
red and blue, and blue is parsed with red as previous colour. -/
theorem C18_rejected_stops_skipped_witness :
    sampleEnv.LinearGradient.Stops = [] ∧
    acceptedStops sampleEnv Black
        (linearColorSegs (Split "red, blue 1x, nocolour, blue".toList ", ".toList))
      = [⟨red, 0, 1⟩, ⟨blue, 0, 1⟩] ∧
    ((parseLinearGrad sampleEnv Black sampleEnv.LinearGradient
          "red, blue 1x, nocolour, blue".toList).grad.Stops
      = acceptedStops sampleEnv Black
          (linearColorSegs (Split "red, blue 1x, nocolour, blue".toList ", ".toList)) ∧
    (parseLinearGrad sampleEnv Black sampleEnv.LinearGradient
          "red, blue 1x, nocolour, blue".toList).stopIdx
      = (acceptedStops sampleEnv Black
          (linearColorSegs (Split "red, blue 1x, nocolour, blue".toList ", ".toList))).length ∧
    (parseRadialGrad sampleEnv Black sampleEnv.LinearGradient
          "red, blue 1x, nocolour, blue".toList).grad.Stops
      = acceptedStops sampleEnv Black
          (radialColorSegs (Split "red, blue 1x, nocolour, blue".toList ", ".toList)) ∧
    (parseRadialGrad sampleEnv Black sampleEnv.LinearGradient
          "red, blue 1x, nocolour, blue".toList).stopIdx
      = (acceptedStops sampleEnv Black
          (radialColorSegs (Split "red, blue 1x, nocolour, blue".toList ", ".toList))).length) :=
  ⟨rfl, rfl, C18_rejected_stops_skipped sampleEnv Black sampleEnv.LinearGradient
    "red, blue 1x, nocolour, blue".toList rfl⟩

/-! ## The solid colour after a linear or radial descriptor -/

/-- What `parseLinearGrad` leaves as solid colour on a gradient without stops. -/
theorem parseLinearGrad_solid (env : Env) (solid : RGBA) (grad : Gradient) (pars : Str)
    (hfresh : grad.Stops = []) :
    (parseLinearGrad env solid grad pars).grad.Stops
      = acceptedStops env solid (linearColorSegs (Split pars ", ".toList)) ∧
    ((parseLinearGrad env solid grad pars).grad.Stops = [] →
      (parseLinearGrad env solid grad pars).Solid = solid) ∧
    (∀ s, (parseLinearGrad env solid grad pars).grad.Stops.head? = some s →
      (parseLinearGrad env solid grad pars).Solid = s.Color) := by
  have hl := linearLoop_fresh env (Split pars ", ".toList) ⟨solid, grad, ⟨0, 0, 0, 0⟩, 0⟩
    (by simp [hfresh])
  rw [parseLinearGrad_fresh env solid grad pars hfresh]
  have hl2 := hl.2.1
  simp only [hfresh, List.nil_append, if_true] at hl2
  exact ⟨hl2, hl.2.2.2.1 rfl, hl.2.2.2.2 rfl⟩

/-- What `parseRadialGrad` leaves as solid colour on a gradient without stops. -/
theorem parseRadialGrad_solid (env : Env) (solid : RGBA) (grad : Gradient) (pars : Str)
    (hfresh : grad.Stops = []) :
    (parseRadialGrad env solid grad pars).grad.Stops
      = acceptedStops env solid (radialColorSegs (Split pars ", ".toList)) ∧
    ((parseRadialGrad env solid grad pars).grad.Stops = [] →
      (parseRadialGrad env solid grad pars).Solid = solid) ∧
    (∀ s, (parseRadialGrad env solid grad pars).grad.Stops.head? = some s →
      (parseRadialGrad env solid grad pars).Solid = s.Color) := by
  have hl := radialLoop_fresh env (Split pars ", ".toList) ⟨solid, grad, ⟨0, 0, 0, 0⟩, 0⟩
    (by simp [hfresh])
  rw [parseRadialGrad_fresh env solid grad pars hfresh]
  have hl2 := hl.2.1
  simp only [hfresh, List.nil_append, if_true] at hl2
  exact ⟨hl2, hl.2.2.2.1 rfl, hl.2.2.2.2 rfl⟩

/-- `FixGradientStops` keeps the colour of the first stop. -/
theorem head_fixStops (stops : List GradientStop) (s : GradientStop)
    (h : (fixStops stops).head? = some s) :
    ∃ s0, stops.head? = some s0 ∧ s0.Color = s.Color := by
  have hf := frameOf_fixStops stops
  cases stops with
  | nil =>
    have : fixStops [] = [] := rfl
    rw [this] at h
    simp at h
  | cons a as =>
    cases hx : fixStops (a :: as) with
    | nil => rw [hx] at h; simp at h
    | cons b bs =>
      rw [hx] at h hf
      simp only [List.head?_cons, Option.some.injEq] at h
      simp only [frameOf, List.map_cons, List.cons.injEq, Prod.mk.injEq] at hf
      exact ⟨a, rfl, by rw [← h]; exact hf.1.1.symm⟩

/-- On a cache miss, `SetString` on a linear or radial descriptor parses the
arguments into a gradient of the type read and normalizes its stops. -/
theorem SetString_descriptor (env : Env) (cache : Cache) (f : Full) (str : Str) (ctx : Context)
    (hdesc : isLinearOrRadial str = true)
    (hmiss : cacheGet cache (env.AsHex f.Solid ++ str) = none) :
    ∃ g, (setGradient env f (gradientType str) (gradientArgs str)).Gradient = some g ∧
      SetString env cache f str ctx = some (true,
        ⟨(setGradient env f (gradientType str) (gradientArgs str)).Solid,
          some (FixGradientStops g)⟩,
        (env.AsHex f.Solid ++ str,
          ⟨(setGradient env f (gradientType str) (gradientArgs str)).Solid,
            some (FixGradientStops g)⟩) :: cache) := by
  unfold isLinearOrRadial at hdesc
  simp only [Bool.and_eq_true, Bool.not_eq_true', decide_eq_true_eq, Bool.or_eq_true,
    beq_iff_eq] at hdesc
  obtain ⟨⟨⟨hurl, hgidx⟩, hpidx⟩, htyp⟩ := hdesc
  have hg : ∃ g, (setGradient env f (gradientType str) (gradientArgs str)).Gradient = some g := by
    unfold setGradient
    rcases htyp with ((h | h) | h) | h
    · rw [h, if_neg (by decide), if_pos rfl]; exact ⟨_, rfl⟩
    · rw [h, if_pos rfl]; exact ⟨_, rfl⟩
    · rw [h, if_neg (by decide), if_neg (by decide), if_neg (by decide), if_pos rfl]
      exact ⟨_, rfl⟩
    · rw [h, if_neg (by decide), if_neg (by decide), if_pos rfl]; exact ⟨_, rfl⟩
  obtain ⟨g, hg⟩ := hg
  refine ⟨g, hg, ?_⟩
  unfold SetString
  simp only [hmiss, hurl, Bool.false_eq_true, if_false, if_pos hgidx]
  have hp : ¬ (IndexByte (gradientRest str) '(' < 0) := not_lt.2 hpidx
  unfold gradientRest at hp
  rw [if_neg hp]
  unfold gradientType gradientArgs gradientRest at hg
  rw [hg]
  rfl

/-- The stops and the solid colour of a receiver built from the result of
`parseLinearGrad` on a gradient without stops. -/
theorem linearBranch_solid (env : Env) (solid : RGBA) (grad g : Gradient) (pars : Str)
    (hfresh : grad.Stops = [])
    (hg : some (parseLinearGrad env solid grad pars).grad = some g) :
    g.Stops = acceptedStops env solid (linearColorSegs (Split pars ", ".toList)) ∧
    (g.Stops = [] → (parseLinearGrad env solid grad pars).Solid = solid) ∧
    (∀ s, g.Stops.head? = some s → (parseLinearGrad env solid grad pars).Solid = s.Color) := by
  have hgeq := Option.some.inj hg
  rw [← hgeq]
  exact parseLinearGrad_solid env solid grad pars hfresh

/-- The stops and the solid colour of a receiver built from the result of
`parseRadialGrad` on a gradient without stops. -/
theorem radialBranch_solid (env : Env) (solid : RGBA) (grad g : Gradient) (pars : Str)
    (hfresh : grad.Stops = [])
    (hg : some (parseRadialGrad env solid grad pars).grad = some g) :
    g.Stops = acceptedStops env solid (radialColorSegs (Split pars ", ".toList)) ∧
    (g.Stops = [] → (parseRadialGrad env solid grad pars).Solid = solid) ∧
    (∀ s, g.Stops.head? = some s → (parseRadialGrad env solid grad pars).Solid = s.Color) := by
  have hgeq := Option.some.inj hg
  rw [← hgeq]
  exact parseRadialGrad_solid env solid grad pars hfresh

theorem setGradient_linear (env : Env) (f : Full) (pars : Str) :
    setGradient env f "linear".toList pars
      = ⟨(parseLinearGrad env f.Solid env.LinearGradient pars).Solid,
          some (parseLinearGrad env f.Solid env.LinearGradient pars).grad⟩ := by
  unfold setGradient
  rw [if_neg (by decide), if_pos rfl]

theorem setGradient_repeating_linear (env : Env) (f : Full) (pars : Str) :
    setGradient env f "repeating-linear".toList pars
      = ⟨(parseLinearGrad env f.Solid
            (SetSpread env.LinearGradient SpreadMethods.RepeatSpread) pars).Solid,
          some (parseLinearGrad env f.Solid
            (SetSpread env.LinearGradient SpreadMethods.RepeatSpread) pars).grad⟩ := by
  unfold setGradient
  rw [if_pos rfl]

theorem setGradient_radial (env : Env) (f : Full) (pars : Str) :
    setGradient env f "radial".toList pars
      = ⟨(parseRadialGrad env f.Solid env.RadialGradient pars).Solid,
          some (parseRadialGrad env f.Solid env.RadialGradient pars).grad⟩ := by
  unfold setGradient
  rw [if_neg (by decide), if_neg (by decide), if_neg (by decide), if_pos rfl]

theorem setGradient_repeating_radial (env : Env) (f : Full) (pars : Str) :
    setGradient env f "repeating-radial".toList pars
      = ⟨(parseRadialGrad env f.Solid
            (SetSpread env.RadialGradient SpreadMethods.RepeatSpread) pars).Solid,
          some (parseRadialGrad env f.Solid
            (SetSpread env.RadialGradient SpreadMethods.RepeatSpread) pars).grad⟩ := by
  unfold setGradient
  rw [if_neg (by decide), if_neg (by decide), if_pos rfl]

/-- The stops and the solid colour that the `switch` of `SetString` leaves for
one of the four supported types, when the constructors return no stops. -/
theorem setGradient_solid (env : Env) (f : Full) (gtyp pars : Str) (g : Gradient)
    (hlin : env.LinearGradient.Stops = []) (hrad : env.RadialGradient.Stops = [])
    (htyp : ((gtyp = "linear".toList ∨ gtyp = "repeating-linear".toList)
      ∨ gtyp = "radial".toList) ∨ gtyp = "repeating-radial".toList)
    (hg : (setGradient env f gtyp pars).Gradient = some g) :
    g.Stops = (if gtyp = "linear".toList ∨ gtyp = "repeating-linear".toList then
        acceptedStops env f.Solid (linearColorSegs (Split pars ", ".toList))
      else acceptedStops env f.Solid (radialColorSegs (Split pars ", ".toList))) ∧
    (g.Stops = [] → (setGradient env f gtyp pars).Solid = f.Solid) ∧
    (∀ s, g.Stops.head? = some s → (setGradient env f gtyp pars).Solid = s.Color) := by
  rcases htyp with ((h | h) | h) | h
  · subst h
    rw [setGradient_linear] at hg ⊢
    rw [if_pos (Or.inl rfl)]
    exact linearBranch_solid env f.Solid env.LinearGradient g pars hlin hg
  · subst h
    rw [setGradient_repeating_linear] at hg ⊢
    rw [if_pos (Or.inr rfl)]
    exact linearBranch_solid env f.Solid
      (SetSpread env.LinearGradient SpreadMethods.RepeatSpread) g pars hlin hg
  · subst h
    rw [setGradient_radial] at hg ⊢
    rw [if_neg (by decide)]
    exact radialBranch_solid env f.Solid env.RadialGradient g pars hrad hg
  · subst h
    rw [setGradient_repeating_radial] at hg ⊢
    rw [if_neg (by decide)]
    exact radialBranch_solid env f.Solid
      (SetSpread env.RadialGradient SpreadMethods.RepeatSpread) g pars hrad hg

/-- C19 (solid colour tracks the first stop): for every linear or radial
descriptor (one of the four supported types before `-gradient`, an opening
parenthesis after it) that is not answered from the cache, with constructors
that return gradients without stops, `SetString` returns true with a gradient
that has one stop for each colour stop parsed from the descriptor; when there
is at least one, the receiver's solid colour is the colour of the gradient's
first stop, and when there is none the solid colour is unchanged. -/
theorem C19_solid_tracks_first_stop (env : Env) (cache : Cache) (f : Full) (str : Str)
    (ctx : Context)
    (hlin : env.LinearGradient.Stops = []) (hrad : env.RadialGradient.Stops = [])
    (hdesc : isLinearOrRadial str = true)
    (hmiss : cacheGet cache (env.AsHex f.Solid ++ str) = none) :
    ∃ (S : RGBA) (g : Gradient) (cache1 : Cache),
      SetString env cache f str ctx = some (true, ⟨S, some g⟩, cache1) ∧
      g.Stops.length = (descriptorStops env f.Solid str).length ∧
      (∀ s, g.Stops.head? = some s → S = s.Color) ∧
      (descriptorStops env f.Solid str = [] → S = f.Solid) := by
  obtain ⟨g0, hg0, hset⟩ := SetString_descriptor env cache f str ctx hdesc hmiss
  have htyp : ((gradientType str = "linear".toList ∨ gradientType str = "repeating-linear".toList)
      ∨ gradientType str = "radial".toList) ∨ gradientType str = "repeating-radial".toList := by
    unfold isLinearOrRadial at hdesc
    simp only [Bool.and_eq_true, Bool.not_eq_true', decide_eq_true_eq, Bool.or_eq_true,
      beq_iff_eq] at hdesc
    exact hdesc.2
  obtain ⟨hstops, hnil, hhead⟩ :=
    setGradient_solid env f (gradientType str) (gradientArgs str) g0 hlin hrad htyp hg0
  have hds : descriptorStops env f.Solid str = g0.Stops := by
    rw [hstops]
    rfl
  refine ⟨_, _, _, hset, ?_, ?_, ?_⟩
  · show (fixStops g0.Stops).length = _
    rw [length_fixStops, hds]
  · intro s hs
    obtain ⟨s0, hs0, hc⟩ := head_fixStops g0.Stops s hs
    rw [hhead s0 hs0, hc]
  · intro hno
    exact hnil (by rw [← hds, hno])

/-- Witness for C19: ` Radial-Gradient(circle, red 1x, blue, red)` on an empty
cache and a black receiver; the first segment that is accepted is `blue`, and
the solid colour becomes blue. -/
theorem C19_solid_tracks_first_stop_witness :
    isLinearOrRadial " Radial-Gradient(circle, red 1x, blue, red)".toList = true ∧
    descriptorStops sampleEnv Black " Radial-Gradient(circle, red 1x, blue, red)".toList
      = [⟨blue, 0, 1⟩, ⟨red, 0, 1⟩] ∧
    ∃ (S : RGBA) (g : Gradient) (cache1 : Cache),
      SetString sampleEnv [] ⟨Black, none⟩ " Radial-Gradient(circle, red 1x, blue, red)".toList
          none = some (true, ⟨S, some g⟩, cache1) ∧
      g.Stops.length
        = (descriptorStops sampleEnv Black
            " Radial-Gradient(circle, red 1x, blue, red)".toList).length ∧
      (∀ s, g.Stops.head? = some s → S = s.Color) ∧
      (descriptorStops sampleEnv Black " Radial-Gradient(circle, red 1x, blue, red)".toList = []
        → S = Black) :=
  ⟨by decide, rfl, C19_solid_tracks_first_stop sampleEnv [] ⟨Black, none⟩
    " Radial-Gradient(circle, red 1x, blue, red)".toList none rfl rfl (by decide) rfl⟩

/-! ## What the normalizer leaves alone -/

/-- C21 (normalization touches offsets only): for every gradient,
`FixGradientStops` keeps the number of stops, leaves the colour and the opacity
of the stop at every index as they were (so the stops keep their order), and
changes no other field of the gradient: putting the old stops back gives the
gradient it started from. On an empty stop list it does nothing. -/
theorem C21_normalization_touches_offsets_only (grad : Gradient) :
    (FixGradientStops grad).Stops.length = grad.Stops.length ∧
    (FixGradientStops grad).Stops.map (fun s => (s.Color, s.Opacity))
      = grad.Stops.map (fun s => (s.Color, s.Opacity)) ∧
    (∀ i : Nat, ((FixGradientStops grad).Stops[i]?).map (fun s => (s.Color, s.Opacity))
      = (grad.Stops[i]?).map (fun s => (s.Color, s.Opacity))) ∧
    withStops (FixGradientStops grad) grad.Stops = grad ∧
    FixGradientStops (withStops grad []) = withStops grad [] := by
  have hframe : (FixGradientStops grad).Stops.map (fun s => (s.Color, s.Opacity))
      = grad.Stops.map (fun s => (s.Color, s.Opacity)) := frameOf_fixStops grad.Stops
  refine ⟨length_fixStops grad.Stops, hframe, ?_, rfl, rfl⟩
  intro i
  rw [← List.getElem?_map, ← List.getElem?_map, hframe]

/-! ## The repeating variants -/

theorem colorStopSeg_spread (env : Env) (st : ParseState) (par : Str) (v : SpreadMethods) :
    colorStopSeg env (spreadState st v) par = spreadState (colorStopSeg env st par) v := by
  unfold colorStopSeg
  simp only [spreadState, SetSpread, withStops]
  split_ifs <;> rfl

theorem linearSeg_spread (env : Env) (st : ParseState) (raw : Str) (v : SpreadMethods) :
    linearSeg env (spreadState st v) raw
      = (linearSeg env st raw).map (fun s => spreadState s v) := by
  unfold linearSeg
  simp only []
  split_ifs
  · rfl
  · rfl
  · rfl
  · rw [colorStopSeg_spread]
    rfl

theorem radialSeg_spread (env : Env) (st : ParseState) (raw : Str) (v : SpreadMethods) :
    radialSeg env (spreadState st v) raw
      = (radialSeg env st raw).map (fun s => spreadState s v) := by
  unfold radialSeg
  simp only []
  split_ifs
  · rfl
  · rfl
  · rfl
  · rfl
  · rw [colorStopSeg_spread]
    rfl

theorem linearLoop_spread (env : Env) (segs : List Str) (st : ParseState) (v : SpreadMethods) :
    linearLoop env segs (spreadState st v) = spreadState (linearLoop env segs st) v := by
  induction segs generalizing st with
  | nil => rfl
  | cons raw rest ih =>
    rw [linearLoop, linearLoop, linearSeg_spread]
    cases linearSeg env st raw with
    | none => rfl
    | some st1 => exact ih st1

theorem radialLoop_spread (env : Env) (segs : List Str) (st : ParseState) (v : SpreadMethods) :
    radialLoop env segs (spreadState st v) = spreadState (radialLoop env segs st) v := by
  induction segs generalizing st with
  | nil => rfl
  | cons raw rest ih =>
    rw [radialLoop, radialLoop, radialSeg_spread]
    cases radialSeg env st raw with
    | none => rfl
    | some st1 => exact ih st1

theorem truncStops_spread (st : ParseState) (v : SpreadMethods) :
    truncStops (spreadState st v) = spreadState (truncStops st) v := by
  unfold truncStops
  by_cases h : st.stopIdx < st.grad.Stops.length
  · have h2 : (spreadState st v).stopIdx < (spreadState st v).grad.Stops.length := h
    rw [if_pos h, if_pos h2]
    rfl
  · have h2 : ¬ (spreadState st v).stopIdx < (spreadState st v).grad.Stops.length := h
    rw [if_neg h, if_neg h2]

/-- The spread of the gradient passes through `parseLinearGrad` untouched. -/
theorem parseLinearGrad_spread (env : Env) (solid : RGBA) (grad : Gradient) (pars : Str)
    (v : SpreadMethods) :
    parseLinearGrad env solid (SetSpread grad v) pars
      = spreadState (parseLinearGrad env solid grad pars) v := by
  unfold parseLinearGrad
  rw [← truncStops_spread, ← linearLoop_spread]
  rfl

/-- The spread of the gradient passes through `parseRadialGrad` untouched. -/
theorem parseRadialGrad_spread (env : Env) (solid : RGBA) (grad : Gradient) (pars : Str)
    (v : SpreadMethods) :
    parseRadialGrad env solid (SetSpread grad v) pars
      = spreadState (parseRadialGrad env solid grad pars) v := by
  unfold parseRadialGrad
  rw [← truncStops_spread, ← radialLoop_spread]
  rfl

/-- On a cache miss, `SetString` on `T-gradient(A)` reads the type `T` and the
lower-cased arguments, for a type `T` that is in lower case, does not start
with white space or `url(`, and before whose end no `-gradient` starts. -/
theorem SetString_typed (env : Env) (cache : Cache) (f : Full) (ctx : Context)
    (T A : Str) (c : Char) (t : Str) (S : RGBA) (g : Gradient)
    (hT : T = c :: t) (hc : isSpace c = false) (hlow : ToLower T = T)
    (hurl : ∀ rest, HasPrefix (T ++ rest) "url(".toList = false)
    (hidx : ∀ rest, Index (T ++ ("-gradient(".toList ++ rest)) "-gradient".toList
      = (T.length : Int))
    (hset : setGradient env f T (ToLower A) = ⟨S, some g⟩)
    (hmiss : cacheGet cache
      (env.AsHex f.Solid ++ (T ++ "-gradient(".toList ++ A ++ ")".toList)) = none) :
    SetString env cache f (T ++ "-gradient(".toList ++ A ++ ")".toList) ctx =
      some (true, ⟨S, some (FixGradientStops g)⟩,
        (env.AsHex f.Solid ++ (T ++ "-gradient(".toList ++ A ++ ")".toList),
          ⟨S, some (FixGradientStops g)⟩) :: cache) := by
  have hd : T ++ "-gradient(".toList ++ A ++ ")".toList
      = c :: ((t ++ "-gradient(".toList ++ A) ++ [')']) := by
    rw [hT]
    simp
  have htrim : TrimSpace (T ++ "-gradient(".toList ++ A ++ ")".toList)
      = T ++ "-gradient(".toList ++ A ++ ")".toList := by
    rw [hd]
    exact trimSpace_ends _ _ _ hc (by decide)
  have hassoc : T ++ "-gradient(".toList ++ A ++ ")".toList
      = T ++ ("-gradient(".toList ++ A ++ ")".toList) := by
    simp
  have hu : HasPrefix (T ++ "-gradient(".toList ++ A ++ ")".toList) "url(".toList = false := by
    rw [hassoc]
    exact hurl _
  have hlower : ToLower (T ++ "-gradient(".toList ++ A ++ ")".toList)
      = T ++ ("-gradient(".toList ++ (ToLower A ++ [')'])) := by
    rw [toLower_append, toLower_append, toLower_append, hlow]
    have h1 : ToLower "-gradient(".toList = "-gradient(".toList := rfl
    have h2 : ToLower ")".toList = [')'] := rfl
    rw [h1, h2]
    simp
  have hpos : (0 : Int) < (T.length : Int) := by
    rw [hT]
    simp only [List.length_cons]
    omega
  have htake : List.take ((T.length : Int)).toNat
      (T ++ ("-gradient(".toList ++ (ToLower A ++ [')']))) = T := by
    rw [Int.toNat_ofNat]
    exact List.take_left _ _
  have hdrop : List.drop (((T.length : Int)).toNat + "-gradient".toList.length)
      (T ++ ("-gradient(".toList ++ (ToLower A ++ [')']))) = '(' :: (ToLower A ++ [')']) := by
    rw [Int.toNat_ofNat, List.drop_append]
    rfl
  have hpidx : IndexByte ('(' :: (ToLower A ++ [')'])) '(' = 0 := by
    show indexFrom ['('] ('(' :: (ToLower A ++ [')'])) 0 = 0
    simp [indexFrom, List.isPrefixOf]
  unfold SetString
  simp only [hmiss, htrim, hu, hlower, hidx, Bool.false_eq_true, if_false]
  rw [if_pos hpos, htake, hdrop, hpidx]
  have h0 : ¬ ((0 : Int) < 0) := by decide
  rw [if_neg h0]
  have hdrop1 : List.drop ((0 : Int).toNat + 1) ('(' :: (ToLower A ++ [')']))
      = ToLower A ++ [')'] := rfl
  rw [hdrop1, trimSuffix_paren, hset]

theorem setSpread_self (g : Gradient) : SetSpread g g.Spread = g := by
  cases g
  rfl

/-- The spread after `parseLinearGrad` is the spread before. -/
theorem spread_parseLinearGrad (env : Env) (solid : RGBA) (grad : Gradient) (pars : Str) :
    (parseLinearGrad env solid grad pars).grad.Spread = grad.Spread := by
  have h := parseLinearGrad_spread env solid grad pars grad.Spread
  rw [setSpread_self] at h
  rw [h]
  rfl

/-- The spread after `parseRadialGrad` is the spread before. -/
theorem spread_parseRadialGrad (env : Env) (solid : RGBA) (grad : Gradient) (pars : Str) :
    (parseRadialGrad env solid grad pars).grad.Spread = grad.Spread := by
  have h := parseRadialGrad_spread env solid grad pars grad.Spread
  rw [setSpread_self] at h
  rw [h]
  rfl

/-- C22 (repeating variants differ only in spread): for every argument list `A`
and every receiver (base colour), when none of the four descriptors is answered
from the cache, `SetString` on `repeating-linear-gradient(A)` returns true with
the same solid colour as on `linear-gradient(A)` and with a gradient whose
spread is Repeat and whose other fields (kind, bounds, centre, focal point,
radius, stops, units, matrix) are those of the gradient of `linear-gradient(A)`,
which has the spread of the constructor; likewise for
`repeating-radial-gradient(A)` and `radial-gradient(A)`. -/
theorem C22_repeating_differs_in_spread (env : Env) (cache : Cache) (f : Full) (A : Str)
    (ctx : Context)
    (hL : cacheGet cache
      (env.AsHex f.Solid ++ ("linear-gradient(".toList ++ A ++ ")".toList)) = none)
    (hRL : cacheGet cache
      (env.AsHex f.Solid ++ ("repeating-linear-gradient(".toList ++ A ++ ")".toList)) = none)
    (hR : cacheGet cache
      (env.AsHex f.Solid ++ ("radial-gradient(".toList ++ A ++ ")".toList)) = none)
    (hRR : cacheGet cache
      (env.AsHex f.Solid ++ ("repeating-radial-gradient(".toList ++ A ++ ")".toList)) = none) :
    (∃ (S : RGBA) (g g2 : Gradient) (c1 c2 : Cache),
      SetString env cache f ("linear-gradient(".toList ++ A ++ ")".toList) ctx
        = some (true, ⟨S, some g⟩, c1) ∧
      SetString env cache f ("repeating-linear-gradient(".toList ++ A ++ ")".toList) ctx
        = some (true, ⟨S, some g2⟩, c2) ∧
      g.Spread = env.LinearGradient.Spread ∧
      g2.Spread = SpreadMethods.RepeatSpread ∧
      g2 = ⟨g.Radial, g.Bounds, g.Center, g.Focal, g.Radius, g.Stops,
        SpreadMethods.RepeatSpread, g.Units, g.Matrix⟩) ∧
    (∃ (S : RGBA) (g g2 : Gradient) (c1 c2 : Cache),
      SetString env cache f ("radial-gradient(".toList ++ A ++ ")".toList) ctx
        = some (true, ⟨S, some g⟩, c1) ∧
      SetString env cache f ("repeating-radial-gradient(".toList ++ A ++ ")".toList) ctx
        = some (true, ⟨S, some g2⟩, c2) ∧
      g.Spread = env.RadialGradient.Spread ∧
      g2.Spread = SpreadMethods.RepeatSpread ∧
      g2 = ⟨g.Radial, g.Bounds, g.Center, g.Focal, g.Radius, g.Stops,
        SpreadMethods.RepeatSpread, g.Units, g.Matrix⟩) := by
  have eL := SetString_typed env cache f ctx "linear".toList A 'l' "inear".toList _ _
    rfl (by decide) rfl (fun _ => rfl) (fun _ => rfl) (setGradient_linear env f (ToLower A)) hL
  have sRL : setGradient env f "repeating-linear".toList (ToLower A)
      = ⟨(parseLinearGrad env f.Solid env.LinearGradient (ToLower A)).Solid,
          some (SetSpread (parseLinearGrad env f.Solid env.LinearGradient (ToLower A)).grad
            SpreadMethods.RepeatSpread)⟩ := by
    rw [setGradient_repeating_linear, parseLinearGrad_spread]
    rfl
  have eRL := SetString_typed env cache f ctx "repeating-linear".toList A 'r'
    "epeating-linear".toList _ _ rfl (by decide) rfl (fun _ => rfl) (fun _ => rfl) sRL hRL
  have eR := SetString_typed env cache f ctx "radial".toList A 'r' "adial".toList _ _
    rfl (by decide) rfl (fun _ => rfl) (fun _ => rfl) (setGradient_radial env f (ToLower A)) hR
  have sRR : setGradient env f "repeating-radial".toList (ToLower A)
      = ⟨(parseRadialGrad env f.Solid env.RadialGradient (ToLower A)).Solid,
          some (SetSpread (parseRadialGrad env f.Solid env.RadialGradient (ToLower A)).grad
            SpreadMethods.RepeatSpread)⟩ := by
    rw [setGradient_repeating_radial, parseRadialGrad_spread]
    rfl
  have eRR := SetString_typed env cache f ctx "repeating-radial".toList A 'r'
    "epeating-radial".toList _ _ rfl (by decide) rfl (fun _ => rfl) (fun _ => rfl) sRR hRR
  refine ⟨⟨_, _, _, _, _, eL, eRL, ?_, rfl, rfl⟩, ⟨_, _, _, _, _, eR, eRR, ?_, rfl, rfl⟩⟩
  · exact spread_parseLinearGrad env f.Solid env.LinearGradient (ToLower A)
  · exact spread_parseRadialGrad env f.Solid env.RadialGradient (ToLower A)

/-- Witness for C22: the argument list `to right, red, blue 50%` on an empty
cache and a black receiver. -/
theorem C22_repeating_differs_in_spread_witness :
    (∃ (S : RGBA) (g g2 : Gradient) (c1 c2 : Cache),
      SetString sampleEnv [] ⟨Black, none⟩
          ("linear-gradient(".toList ++ "to right, red, blue 50%".toList ++ ")".toList) none
        = some (true, ⟨S, some g⟩, c1) ∧
      SetString sampleEnv [] ⟨Black, none⟩
          ("repeating-linear-gradient(".toList ++ "to right, red, blue 50%".toList
            ++ ")".toList) none
        = some (true, ⟨S, some g2⟩, c2) ∧
      g.Spread = sampleEnv.LinearGradient.Spread ∧
      g2.Spread = SpreadMethods.RepeatSpread ∧
      g2 = ⟨g.Radial, g.Bounds, g.Center, g.Focal, g.Radius, g.Stops,
        SpreadMethods.RepeatSpread, g.Units, g.Matrix⟩) ∧
    (∃ (S : RGBA) (g g2 : Gradient) (c1 c2 : Cache),
      SetString sampleEnv [] ⟨Black, none⟩
          ("radial-gradient(".toList ++ "to right, red, blue 50%".toList ++ ")".toList) none
        = some (true, ⟨S, some g⟩, c1) ∧
      SetString sampleEnv [] ⟨Black, none⟩
          ("repeating-radial-gradient(".toList ++ "to right, red, blue 50%".toList
            ++ ")".toList) none
        = some (true, ⟨S, some g2⟩, c2) ∧
      g.Spread = sampleEnv.RadialGradient.Spread ∧
      g2.Spread = SpreadMethods.RepeatSpread ∧
      g2 = ⟨g.Radial, g.Bounds, g.Center, g.Focal, g.Radius, g.Stops,
        SpreadMethods.RepeatSpread, g.Units, g.Matrix⟩) :=
  C22_repeating_differs_in_spread sampleEnv [] ⟨Black, none⟩ "to right, red, blue 50%".toList
    none rfl rfl rfl rfl

/-! ## The stops that the XML reader returns -/

theorem withStops_self (g : Gradient) : withStops g g.Stops = g := by
  cases g
  rfl

/-- The token loop on the content of a gradient element up to its end: every
`stop` child appends the stop read from its attributes, nothing else changes. -/
theorem xmlLoop_body (env : Env) (pm : Str → Mat2) (S : RGBA) (name : Str) (rest : Decoder)
    (hname : name = "linearGradient".toList ∨ name = "radialGradient".toList)
    (body : Decoder) (g : Gradient)
    (hbody : isGradientBody body = true)
    (hstops : ∀ a ∈ stopChildren body, (stopElement env a).2 = false) :
    xmlLoop env pm (body ++ TokenRead.token (Token.EndElement name) :: rest) ⟨S, some g⟩
      = (⟨S, some (withStops g
            (g.Stops ++ (stopChildren body).map (fun a => (stopElement env a).1)))⟩,
          false, rest) := by
  induction body generalizing g with
  | nil =>
    simp only [List.nil_append, xmlLoop, if_pos hname, stopChildren, List.map_nil,
      List.append_nil, withStops_self]
  | cons t body ih =>
    cases t with
    | failure => simp [isGradientBody] at hbody
    | token tk =>
      cases tk with
      | StartElement nm attrs =>
        simp only [isGradientBody, Bool.and_eq_true, bne_iff_ne, ne_eq] at hbody
        obtain ⟨⟨h1, h2⟩, h3⟩ := hbody
        by_cases hs : nm = "stop".toList
        · have hch : stopChildren (TokenRead.token (Token.StartElement nm attrs) :: body)
              = attrs :: stopChildren body := by
            rw [stopChildren, if_pos hs]
          rw [hch] at hstops
          have hok : (stopElement env attrs).2 = false := hstops attrs (List.mem_cons_self _ _)
          have hse : startElement env pm ⟨S, some g⟩ nm attrs
              = (⟨S, some (withStops g (g.Stops ++ [(stopElement env attrs).1]))⟩, false) := by
            unfold startElement
            rw [if_neg h1, if_neg h2, if_pos hs, hok]
            rfl
          rw [hch, List.cons_append, xmlLoop, hse]
          simp only [Bool.false_eq_true, if_false]
          rw [ih _ h3 (fun a ha => hstops a (List.mem_cons_of_mem _ ha))]
          simp [withStops]
        · have hch : stopChildren (TokenRead.token (Token.StartElement nm attrs) :: body)
              = stopChildren body := by
            rw [stopChildren, if_neg hs]
          rw [hch] at hstops
          have hse : startElement env pm ⟨S, some g⟩ nm attrs = (⟨S, some g⟩, false) := by
            unfold startElement
            rw [if_neg h1, if_neg h2, if_neg hs]
          rw [hch, List.cons_append, xmlLoop, hse]
          simp only [Bool.false_eq_true, if_false]
          exact ih g h3 hstops
      | EndElement nm =>
        simp only [isGradientBody, Bool.and_eq_true, bne_iff_ne, ne_eq] at hbody
        obtain ⟨⟨h1, h2⟩, h3⟩ := hbody
        have hno : ¬ (nm = "linearGradient".toList ∨ nm = "radialGradient".toList) := by
          rintro (h | h)
          · exact h1 h
          · exact h2 h
        rw [List.cons_append, xmlLoop, if_neg hno]
        exact ih g h3 hstops
      | CharData => exact ih g hbody hstops
      | OtherToken => exact ih g hbody hstops

/-- C14, amended (the XML reader returns the stops as read): for every
`linearGradient` or `radialGradient` element whose attributes parse and whose
content is read without error, `UnmarshalXML` and `ReadXML` return the
gradient with the stops it had after the start element, followed by the stops
read from the `stop` children in document order, each as its own attributes
give it; `FixGradientStops` is not applied. A `stop` without attributes is
read at offset 0, and one with only an `offset` attribute at the value of
that attribute. -/
theorem C14_xml_stops_as_read (env : Env) (pm : Str → Mat2) (f : Full) (name : Str)
    (gattrs : List Attr) (body rest : Decoder) (S : RGBA) (g0 : Gradient)
    (hname : name = "linearGradient".toList ∨ name = "radialGradient".toList)
    (hstart : startElement env pm f name gattrs = (⟨S, some g0⟩, false))
    (hbody : isGradientBody body = true)
    (hstops : ∀ a ∈ stopChildren body, (stopElement env a).2 = false) :
    UnmarshalXML env pm f (body ++ TokenRead.token (Token.EndElement name) :: rest) name gattrs
      = (⟨S, some (withStops g0
            (g0.Stops ++ (stopChildren body).map (fun a => (stopElement env a).1)))⟩,
          false, rest) ∧
    ReadXML env pm f (TokenRead.token (Token.StartElement name gattrs)
        :: (body ++ TokenRead.token (Token.EndElement name) :: rest))
      = (⟨S, some (withStops g0
            (g0.Stops ++ (stopChildren body).map (fun a => (stopElement env a).1)))⟩,
          false, rest) ∧
    stopElement env [] = (⟨Black, 0, 1⟩, false) ∧
    (∀ v : Str, stopElement env [⟨"offset".toList, v⟩]
      = (⟨Black, (readFraction env v).1, 1⟩, (readFraction env v).2)) := by
  have hu : UnmarshalXML env pm f
      (body ++ TokenRead.token (Token.EndElement name) :: rest) name gattrs
      = (⟨S, some (withStops g0
            (g0.Stops ++ (stopChildren body).map (fun a => (stopElement env a).1)))⟩,
          false, rest) := by
    unfold UnmarshalXML
    rw [xmlLoop, hstart]
    simp only [Bool.false_eq_true, if_false]
    exact xmlLoop_body env pm S name rest hname body g0 hbody hstops
  refine ⟨hu, ?_, rfl, ?_⟩
  · rw [ReadXML]
    exact hu
  · intro v
    unfold stopElement
    have hne : ¬ ("offset".toList = "style".toList) := by decide
    have hx : XMLAttr "style".toList [(⟨"offset".toList, v⟩ : Attr)] = [] := by
      show (if "offset".toList = "style".toList then v else XMLAttr "style".toList []) = []
      rw [if_neg hne]
      rfl
    rw [hx, if_pos rfl]
    unfold stopAttrs stopAttr
    simp only [if_true]
    cases h : (readFraction env v).2 with
    | true => simp
    | false => simp [stopAttrs]

/-- Witness for C14, amended: `<linearGradient> <stop offset="0.5"/> <stop/>
</linearGradient>` with character data between the elements is read as the
stops at offsets 1/2 and 0, in that order. -/
theorem C14_xml_stops_as_read_witness :
    startElement sampleEnv sampleParseMat2 ⟨Black, none⟩ "linearGradient".toList []
      = (⟨Black, some (withBounds sampleEnv.LinearGradient
          ⟨sampleEnv.LinearGradient.Bounds.Min, ⟨1, 0⟩⟩)⟩, false) ∧
    (stopChildren
        [TokenRead.token Token.CharData,
          TokenRead.token (Token.StartElement "stop".toList [⟨"offset".toList, "0.5".toList⟩]),
          TokenRead.token (Token.EndElement "stop".toList),
          TokenRead.token Token.CharData,
          TokenRead.token (Token.StartElement "stop".toList []),
          TokenRead.token (Token.EndElement "stop".toList),
          TokenRead.token Token.CharData]).map (fun a => (stopElement sampleEnv a).1)
      = [⟨Black, 1 / 2, 1⟩, ⟨Black, 0, 1⟩] ∧
    UnmarshalXML sampleEnv sampleParseMat2 ⟨Black, none⟩
        ([TokenRead.token Token.CharData,
          TokenRead.token (Token.StartElement "stop".toList [⟨"offset".toList, "0.5".toList⟩]),
          TokenRead.token (Token.EndElement "stop".toList),
          TokenRead.token Token.CharData,
          TokenRead.token (Token.StartElement "stop".toList []),
          TokenRead.token (Token.EndElement "stop".toList),
          TokenRead.token Token.CharData]
          ++ TokenRead.token (Token.EndElement "linearGradient".toList) :: [])
        "linearGradient".toList []
      = (⟨Black, some (withStops
            (withBounds sampleEnv.LinearGradient ⟨sampleEnv.LinearGradient.Bounds.Min, ⟨1, 0⟩⟩)
            ((withBounds sampleEnv.LinearGradient
                ⟨sampleEnv.LinearGradient.Bounds.Min, ⟨1, 0⟩⟩).Stops
              ++ (stopChildren
                [TokenRead.token Token.CharData,
                  TokenRead.token
                    (Token.StartElement "stop".toList [⟨"offset".toList, "0.5".toList⟩]),
                  TokenRead.token (Token.EndElement "stop".toList),
                  TokenRead.token Token.CharData,
                  TokenRead.token (Token.StartElement "stop".toList []),
                  TokenRead.token (Token.EndElement "stop".toList),
                  TokenRead.token Token.CharData]).map
                (fun a => (stopElement sampleEnv a).1)))⟩,
          false, []) := by
  have h5 : stopElement sampleEnv [⟨"offset".toList, "0.5".toList⟩]
      = (⟨Black, 1 / 2, 1⟩, false) := by
    have hr : readFraction sampleEnv "0.5".toList = (1 / 2, false) := by
      have h1 : TrimSpace "0.5".toList = "0.5".toList := rfl
      have h3 : HasSuffix "0.5".toList "%".toList = false := rfl
      have h2 : sampleEnv.ParseFloat "0.5".toList = (1 / 2, false) := by
        simp [sampleEnv, sampleParseFloat, digitsVal, digitVal]
        try norm_num
      unfold readFraction
      simp only [h1, h3, h2, Bool.false_eq_true, if_false]
      try norm_num
    have hx : XMLAttr "style".toList [(⟨"offset".toList, "0.5".toList⟩ : Attr)] = [] := rfl
    unfold stopElement
    rw [hx, if_pos rfl]
    unfold stopAttrs stopAttr
    simp only [if_true, hr]
    rfl
  have h0 : stopElement sampleEnv [] = (⟨Black, 0, 1⟩, false) := rfl
  have hch : stopChildren
        [TokenRead.token Token.CharData,
          TokenRead.token (Token.StartElement "stop".toList [⟨"offset".toList, "0.5".toList⟩]),
          TokenRead.token (Token.EndElement "stop".toList),
          TokenRead.token Token.CharData,
          TokenRead.token (Token.StartElement "stop".toList []),
          TokenRead.token (Token.EndElement "stop".toList),
          TokenRead.token Token.CharData]
      = [[⟨"offset".toList, "0.5".toList⟩], []] := rfl
  refine ⟨rfl, ?_, ?_⟩
  · rw [hch]
    simp only [List.map_cons, List.map_nil, h5, h0]
  · exact (C14_xml_stops_as_read sampleEnv sampleParseMat2 ⟨Black, none⟩ "linearGradient".toList
      []
      [TokenRead.token Token.CharData,
        TokenRead.token (Token.StartElement "stop".toList [⟨"offset".toList, "0.5".toList⟩]),
        TokenRead.token (Token.EndElement "stop".toList),
        TokenRead.token Token.CharData,
        TokenRead.token (Token.StartElement "stop".toList []),
        TokenRead.token (Token.EndElement "stop".toList),
        TokenRead.token Token.CharData]
      [] Black _ (Or.inl rfl) rfl rfl (by
        intro a ha
        rw [hch] at ha
        simp only [List.mem_cons, List.mem_singleton, List.not_mem_nil, or_false] at ha
        rcases ha with rfl | rfl
        · rw [h5]
        · rfl)).1

end Colors
